import Mathlib

/-!
Verification development for the js-db native lifecycle / iterator layer
(`src/rocksdb/napi/index.cpp`, `src/rocksdb/napi/iterator.cpp`,
`src/rocksdb/napi/transaction.cpp`, `src/native/napi/database.cpp`,
`src/native/napi/worker.cpp` and the worker files).

The development has two parts:

* a functional model of `BaseIterator` / `Iterator::ReadMany` and the
  range-bound check `BaseIterator::OutOfRange` on byte strings;
* an operational model of the lifecycle coordinator: handles
  (Database / Transaction / Iterator / Snapshot), pending-work counters,
  deferred close slots, the worker queue, and a small-step relation in
  which any queued WorkItem may complete next.

Byte strings are modelled as `List Nat`; machine counters are `Nat`
(`napi_reference_unref` on a zero count fails and leaves the count at 0,
which `Nat` truncated subtraction reproduces).
-/

namespace JsDb

/-! ### Byte strings and range options -/

/-- Bytewise comparison, as `rocksdb::Slice::compare` (memcmp on the
common prefix, then by length). -/
def compareBytes : List Nat → List Nat → Ordering
  | [], [] => .eq
  | [], _ :: _ => .lt
  | _ :: _, [] => .gt
  | a :: as, b :: bs => if a < b then .lt else if b < a then .gt else compareBytes as bs

/-- The four optional range bounds of an iterator / range operation
(`lt_`, `lte_`, `gt_`, `gte_` of `BaseIterator`). -/
structure RangeOpts where
  lt : Option (List Nat)
  lte : Option (List Nat)
  gt : Option (List Nat)
  gte : Option (List Nat)
deriving DecidableEq, Repr

/-- Upper-bound half of `BaseIterator::OutOfRange`: `lte_` is consulted
first, `lt_` only when `lte_` is absent. -/
def upperExcludes (o : RangeOpts) (target : List Nat) : Bool :=
  match o.lte with
  | some l => compareBytes target l = .gt
  | none =>
    match o.lt with
    | some l => compareBytes target l ≠ .lt
    | none => false

/-- Lower-bound half of `BaseIterator::OutOfRange`: `gte_` is consulted
first, `gt_` only when `gte_` is absent. -/
def lowerExcludes (o : RangeOpts) (target : List Nat) : Bool :=
  match o.gte with
  | some g => compareBytes target g = .lt
  | none =>
    match o.gt with
    | some g => compareBytes target g ≠ .gt
    | none => false

/-- `BaseIterator::OutOfRange` (iterator.cpp:246-259). -/
def outOfRange (o : RangeOpts) (target : List Nat) : Bool :=
  upperExcludes o target || lowerExcludes o target

/-! ### The engine cursor and `BaseIterator` -/

/-- The underlying `rocksdb::Iterator`: an ordered sequence of
key/value entries with a current position.  The position is an `Int` so
that both past-the-end (`pos = length`) and before-the-begin
(`pos = -1`) invalid positions exist, as for the engine cursor.
`statusOk` models `rocksdb::Iterator::status().ok()`. -/
structure Cursor where
  entries : List (List Nat × List Nat)
  pos : Int
  statusOk : Bool
deriving DecidableEq, Repr

/-- `rocksdb::Iterator::Valid()`. -/
def Cursor.valid (c : Cursor) : Prop :=
  0 ≤ c.pos ∧ c.pos < (c.entries.length : Int)

instance (c : Cursor) : Decidable c.valid := by
  unfold Cursor.valid; infer_instance

/-- Current key (meaningful only when valid, as in the engine). -/
def Cursor.key (c : Cursor) : List Nat :=
  (c.entries.getD c.pos.toNat ([], [])).1

/-- Current value (meaningful only when valid). -/
def Cursor.val (c : Cursor) : List Nat :=
  (c.entries.getD c.pos.toNat ([], [])).2

/-- `rocksdb::Iterator::Next()`. -/
def Cursor.fwd (c : Cursor) : Cursor := { c with pos := c.pos + 1 }

/-- `rocksdb::Iterator::Prev()`. -/
def Cursor.bwd (c : Cursor) : Cursor := { c with pos := c.pos - 1 }

/-- `rocksdb::Iterator::Seek(t)`: position at the first entry whose key
is `≥ t` (entries are kept in ascending key order by the engine). -/
def Cursor.seekGE (c : Cursor) (t : List Nat) : Cursor :=
  { c with pos := (c.entries.findIdx fun p => compareBytes p.1 t ≠ .lt : Int) }

/-- `rocksdb::Iterator::SeekToFirst()`. -/
def Cursor.toFirst (c : Cursor) : Cursor := { c with pos := 0 }

/-- `rocksdb::Iterator::SeekToLast()` (invalid, `pos = -1`, when empty). -/
def Cursor.toLast (c : Cursor) : Cursor :=
  { c with pos := (c.entries.length : Int) - 1 }

/-- `Iterator` of iterator.h: the `BaseIterator` fields (cursor, range,
limit, count, direction) together with the read-batch state of the
derived `Iterator` (selection flags, high-water mark, `first_`, the
result cache).  Lifecycle flags (`isClosing_` etc.) live in the
operational model below. -/
structure RIter where
  cur : Cursor
  didSeek : Bool
  reverse : Bool
  range : RangeOpts
  limit : Int
  count : Int
  keys : Bool
  values : Bool
  highWaterMarkBytes : Nat
  first : Bool
  cache : List (List Nat × List Nat)
deriving DecidableEq, Repr

/-- `BaseIterator::Valid()`: engine-valid and inside the range bounds. -/
def RIter.bvalid (it : RIter) : Prop :=
  it.cur.valid ∧ outOfRange it.range it.cur.key = false

instance (it : RIter) : Decidable it.bvalid := by
  unfold RIter.bvalid; infer_instance

/-- `BaseIterator::Next()`: moves against the direction flag. -/
def RIter.advance (it : RIter) : RIter :=
  { it with cur := if it.reverse then it.cur.bwd else it.cur.fwd }

/-- The entries one loop iteration of `Iterator::ReadMany` appends to
`cache_` (iterator.cpp:368-380): the key/value pair in entries mode,
the key with an empty value in keys mode, the value with an empty key
in values mode, nothing otherwise. -/
def RIter.cacheAdd (it : RIter) : List (List Nat × List Nat) :=
  if it.keys ∧ it.values then [(it.cur.key, it.cur.val)]
  else if it.keys then [(it.cur.key, [])]
  else if it.values then [([], it.cur.val)]
  else []

/-- What the same iteration adds to `bytesRead`: key+value bytes in
entries mode, value bytes in values mode, nothing in keys mode. -/
def RIter.bytesAdd (it : RIter) : Nat :=
  if it.keys ∧ it.values then it.cur.key.length + it.cur.val.length
  else if it.keys then 0
  else if it.values then it.cur.val.length
  else 0

/-- Steps left before the cursor runs off its end in the iteration
direction; the loop of `ReadMany` advances once per iteration. -/
def RIter.stepsLeft (it : RIter) : Nat :=
  if it.reverse then (it.cur.pos + 1).toNat
  else ((it.cur.entries.length : Int) - it.cur.pos).toNat

/-- The loop of `Iterator::ReadMany` (iterator.cpp:361-384), entered
with the cursor already advanced onto the next candidate entry (the
`first_` handling is done by `readMany` below).  The loop breaks with
`false` when the iterator leaves its range or exceeds its limit
(`BaseIterator::Increment()` is `limit_ < 0 || ++count_ <= limit_`, so
the count is bumped only when a limit is set); otherwise it caches the
entry and returns `true` as soon as the accumulated bytes exceed the
high-water mark or the cache reaches the requested size. -/
def readManyGo (it : RIter) (size bytesRead : Nat) : RIter × Bool :=
  if hv : it.bvalid then
    let it1 : RIter := { it with count := if it.limit < 0 then it.count else it.count + 1 }
    if it.limit < 0 ∨ it.count + 1 ≤ it.limit then
      let it2 : RIter := { it1 with cache := it1.cache ++ it1.cacheAdd }
      let b2 := bytesRead + it1.bytesAdd
      if b2 > it.highWaterMarkBytes ∨ size ≤ it2.cache.length then (it2, true)
      else readManyGo it2.advance size b2
    else (it1, false)
  else (it, false)
termination_by it.stepsLeft
decreasing_by
  obtain ⟨⟨h0, h1⟩, -⟩ := hv
  simp only [RIter.advance, RIter.stepsLeft, Cursor.fwd, Cursor.bwd]
  split <;> simp <;> omega

/-- `Iterator::ReadMany(size)` (iterator.cpp:355-386): clears the
cache, consumes the `first_` flag (advancing otherwise) and runs the
batch loop. -/
def RIter.readMany (it : RIter) (size : Nat) : RIter × Bool :=
  let it0 : RIter := { it with cache := [] }
  readManyGo (if it0.first then { it0 with first := false } else it0.advance) size 0

/-- `BaseIterator::SeekToRange()` (iterator.cpp:139-173). -/
def RIter.seekToRange (it : RIter) : RIter :=
  let it := { it with didSeek := true }
  if ¬it.reverse ∧ it.range.gte.isSome then
    { it with cur := it.cur.seekGE (it.range.gte.getD []) }
  else if ¬it.reverse ∧ it.range.gt.isSome then
    let c := it.cur.seekGE (it.range.gt.getD [])
    if c.valid ∧ compareBytes c.key (it.range.gt.getD []) = .eq then
      { it with cur := c.fwd }
    else { it with cur := c }
  else if it.reverse ∧ it.range.lte.isSome then
    let c := it.cur.seekGE (it.range.lte.getD [])
    if ¬c.valid then { it with cur := c.toLast }
    else if compareBytes c.key (it.range.lte.getD []) = .gt then { it with cur := c.bwd }
    else { it with cur := c }
  else if it.reverse ∧ it.range.lt.isSome then
    let c := it.cur.seekGE (it.range.lt.getD [])
    if ¬c.valid then { it with cur := c.toLast }
    else if compareBytes c.key (it.range.lt.getD []) ≠ .lt then { it with cur := c.bwd }
    else { it with cur := c }
  else if it.reverse then { it with cur := it.cur.toLast }
  else { it with cur := it.cur.toFirst }

/-- `IteratorNextWorker::DoExecute` / `HandleOKCallback`
(iterator_workers.cpp:38-70), as seen by the iterator's callback: the
implicit range seek when the iterator has not sought yet, the batch
read, and the reported pair (error?, finished-flag).  `SetStatus` is
called only when the batch loop broke, so an engine error is reported
only then; otherwise the callback receives a null error and
`finished = !ok`. -/
def iterNextWorkerRun (it : RIter) (size : Nat) : RIter × (Option Unit × Bool) :=
  let it0 := if it.didSeek then it else it.seekToRange
  let r := it0.readMany size
  if r.2 then (r.1, (none, false))
  else if r.1.cur.statusOk then (r.1, (none, true))
  else (r.1, (some (), true))

/-- Sum of key+value bytes of cached entries, as the spec counts them. -/
def claimBytes (l : List (List Nat × List Nat)) : Nat :=
  (l.map fun p => p.1.length + p.2.length).sum

/-- The byte measure the code actually accumulates in `bytesRead`:
key+value bytes in entries mode, value bytes in values-only mode,
nothing in keys-only mode. -/
def countedBytes (keys values : Bool) (l : List (List Nat × List Nat)) : Nat :=
  (l.map fun p =>
    if keys ∧ values then p.1.length + p.2.length
    else if values then p.2.length else 0).sum

/-! ### The lifecycle coordinator

Handles and their flags are taken from database.h / transaction.h /
iterator.h / snapshot.h (the `native/napi` versions, which are the ones
`index.cpp` drives): `Database` with `isClosing_`, `hasClosed_`, the
pending-work counter (a mirror of the JS reference count, created weak,
so idle at 0), the `closeWorker_` slot and the three registries;
`Transaction` with the four terminal flags, its own counter (the JS
reference is created at count 1, so idle at 1), `closeWorker_` and its
iterator registry; `Iterator` with `nexting_`, `isClosing_`,
`hasClosed_` and a `closeWorker_` slot; `Snapshot` with `isReleasing_`
and `hasReleased_`.

Handle objects live until garbage collection, which is outside this
model; the registries are modelled by an `attached` flag on each object
(mirroring `ref_ != nullptr`: `Attach` sets it, `Detach` clears it and
is a no-op when already cleared).  Registry keys come from the
per-owner monotone id counters.

The scheduler is the queue of created-and-queued WorkItems; a step
either dispatches one request synchronously on the main thread or
completes any queued WorkItem (execute + callback + `DoFinally`).  A
fired C `assert` aborts the process: the model freezes the state
(`aborted`), and no further step is possible. -/

/-- Which registry an iterator lives in: the database's or a
transaction's. -/
inductive Owner
  | root
  | tran (tid : Nat)
deriving DecidableEq, Repr

/-- The kinds of WorkItem that reach the worker queue. -/
inductive WKind
  | dbOpen (ok : Bool)
  | dbClose
  | dbPriority (op : Nat)
  | iterClose (o : Owner) (i : Nat)
  | iterNext (o : Owner) (i : Nat)
  | tranCommit (t : Nat)
  | tranRollback (t : Nat)
  | tranPriority (t : Nat) (op : Nat)
  | tranMultiGet (t : Nat) (forUpdate : Bool)
  | snapRelease (i : Nat)
deriving DecidableEq, Repr

/-- Error codes that the dispatch layer reports synchronously. -/
inductive ECode
  | iteratorNotOpen
  | tranCommitted
  | tranRollbacked
deriving DecidableEq, Repr

/-- What a dispatch function does synchronously: return undefined (the
work, if any, was queued), invoke the callback with a null error,
invoke the callback with a code error, throw, or trip a C `assert`. -/
inductive Outcome
  | undef
  | cbNull
  | cbErr (c : ECode)
  | thrown (c : ECode)
  | assertFail
deriving DecidableEq, Repr

/-- Iterator lifecycle state (iterator.h fields). -/
structure IterSt where
  attached : Bool
  nexting : Bool
  isClosing : Bool
  hasClosed : Bool
  closeSlot : Bool
  first : Bool
deriving DecidableEq, Repr

/-- A freshly constructed, attached iterator. -/
def freshIter : IterSt :=
  { attached := true, nexting := false, isClosing := false, hasClosed := false,
    closeSlot := false, first := true }

/-- Transaction lifecycle state (transaction.h fields); `closeSlot` is
`closeWorker_` (`some true` a deferred commit worker, `some false` a
deferred rollback worker); the counter mirrors the JS reference count,
created at 1. -/
structure TranSt where
  attached : Bool
  isCommitting : Bool
  hasCommitted : Bool
  isRollbacking : Bool
  hasRollbacked : Bool
  pendingWork : Nat
  closeSlot : Option Bool
  iters : List (Nat × IterSt)
  nextIterId : Nat
deriving DecidableEq, Repr

/-- A freshly constructed, attached transaction. -/
def freshTran : TranSt :=
  { attached := true, isCommitting := false, hasCommitted := false,
    isRollbacking := false, hasRollbacked := false, pendingWork := 1,
    closeSlot := none, iters := [], nextIterId := 0 }

/-- Snapshot lifecycle state (snapshot.h fields). -/
structure SnapSt where
  attached : Bool
  isReleasing : Bool
  hasReleased : Bool
deriving DecidableEq, Repr

/-- A freshly constructed, attached snapshot. -/
def freshSnap : SnapSt :=
  { attached := true, isReleasing := false, hasReleased := false }

/-- Database state (database.h fields).  `conn` is `db_ != nullptr`;
`releases` counts how often a non-null `db_` has been deleted. -/
structure DbSt where
  conn : Bool
  isClosing : Bool
  hasClosed : Bool
  pendingWork : Nat
  closeSlot : Bool
  releases : Nat
  nextIterId : Nat
  nextTranId : Nat
  nextSnapId : Nat
deriving DecidableEq, Repr

/-- The whole system: the database handle, the object tables, the
worker queue and the log of worker completions (in completion order). -/
structure Sys where
  db : DbSt
  iters : List (Nat × IterSt)
  trans : List (Nat × TranSt)
  snaps : List (Nat × SnapSt)
  queue : List WKind
  events : List WKind
  aborted : Bool
deriving DecidableEq, Repr

/-- The state `dbInit` creates. -/
def initSys : Sys :=
  { db := { conn := false, isClosing := false, hasClosed := false,
            pendingWork := 0, closeSlot := false, releases := 0,
            nextIterId := 0, nextTranId := 0, nextSnapId := 0 },
    iters := [], trans := [], snaps := [], queue := [], events := [],
    aborted := false }

/-! #### Association-list helpers (the `std::map` registries) -/

/-- Lookup by key (first match). -/
def getA {α : Type} (k : Nat) : List (Nat × α) → Option α
  | [] => none
  | p :: r => if p.1 = k then some p.2 else getA k r

/-- Update the (first) entry with the given key. -/
def updA {α : Type} (k : Nat) (f : α → α) : List (Nat × α) → List (Nat × α)
  | [] => []
  | p :: r => if p.1 = k then (p.1, f p.2) :: r else p :: updA k f r

/-! #### State helpers -/

/-- Append a completion event (a worker's callback phase ran). -/
def pushEv (s : Sys) (w : WKind) : Sys := { s with events := s.events ++ [w] }

/-- Queue a WorkItem (`worker->Queue(env)`). -/
def pushW (s : Sys) (w : WKind) : Sys := { s with queue := s.queue ++ [w] }

/-- Queue several WorkItems. -/
def pushWs (s : Sys) (ws : List WKind) : Sys := { s with queue := s.queue ++ ws }

/-- A C `assert` fired: the process aborts and the state freezes. -/
def abortSys (s : Sys) : Sys := { s with aborted := true }

/-- Look an iterator up in its owner's registry. -/
def getIter (s : Sys) : Owner → Nat → Option IterSt
  | .root, i => getA i s.iters
  | .tran t, i => (getA t s.trans).bind fun tr => getA i tr.iters

/-- Update an iterator in its owner's registry. -/
def setIter (s : Sys) (o : Owner) (i : Nat) (f : IterSt → IterSt) : Sys :=
  match o with
  | .root => { s with iters := updA i f s.iters }
  | .tran t =>
    { s with trans := updA t (fun tr => { tr with iters := updA i f tr.iters }) s.trans }

/-- Update a transaction. -/
def setTran (s : Sys) (t : Nat) (f : TranSt → TranSt) : Sys :=
  { s with trans := updA t f s.trans }

/-- Update a snapshot. -/
def setSnap (s : Sys) (i : Nat) (f : SnapSt → SnapSt) : Sys :=
  { s with snaps := updA i f s.snaps }

/-! #### The pending-work trackers (database.cpp:169-187,
transaction.cpp:170-193) -/

/-- `Database::HasPendingWork`: the counter mirrors a JS reference
created weak, so the idle baseline is 0. -/
def dbHasPendingWork (d : DbSt) : Bool := decide (0 < d.pendingWork)

/-- `Database::IncrementPendingWork` (its `assert(!hasClosed_)` is
modelled at each call site). -/
def dbIncr (s : Sys) : Sys :=
  { s with db := { s.db with pendingWork := s.db.pendingWork + 1 } }

/-- `Database::DecrementPendingWork`: after the decrement, if the
deferred close WorkItem is registered and the counter drained to 0, the
WorkItem is queued and the slot cleared. -/
def dbDecr (s : Sys) : Sys :=
  let n := s.db.pendingWork - 1
  if s.db.closeSlot ∧ n = 0 then
    pushW { s with db := { s.db with pendingWork := n, closeSlot := false } } .dbClose
  else { s with db := { s.db with pendingWork := n } }

/-- `Transaction::HasPendingWork`: the counter mirrors a JS reference
created at count 1, so the idle baseline is 1. -/
def tranHasPendingWork (tr : TranSt) : Bool := decide (1 < tr.pendingWork)

/-- `Transaction::DecrementPendingWork` on transaction `t`: after the
decrement, if the deferred commit/rollback WorkItem is registered and
the counter drained to 1, that WorkItem is queued and the slot
cleared. -/
def tranDecr (s : Sys) (t : Nat) : Sys :=
  match getA t s.trans with
  | none => s
  | some tr =>
    let n := tr.pendingWork - 1
    if tr.closeSlot.isSome ∧ n = 1 then
      pushW (setTran s t fun x => { x with pendingWork := n, closeSlot := none })
        (if tr.closeSlot.getD false then .tranCommit t else .tranRollback t)
    else setTran s t fun x => { x with pendingWork := n }

/-! #### Detach (the `Detach` methods, each guarded by `ref_`) -/

/-- `Iterator::Detach`: erase from the owner registry and decrement the
owner's tracker; a no-op when already detached. -/
def detachIter (s : Sys) (o : Owner) (i : Nat) : Sys :=
  match getIter s o i with
  | none => s
  | some it =>
    if it.attached then
      match o with
      | .root => dbDecr (setIter s .root i fun x => { x with attached := false })
      | .tran t => tranDecr (setIter s (.tran t) i fun x => { x with attached := false }) t
    else s

/-- `Transaction::Detach`. -/
def detachTran (s : Sys) (t : Nat) : Sys :=
  match getA t s.trans with
  | none => s
  | some tr =>
    if tr.attached then dbDecr (setTran s t fun x => { x with attached := false })
    else s

/-- `Snapshot::Detach`. -/
def detachSnap (s : Sys) (i : Nat) : Sys :=
  match getA i s.snaps with
  | none => s
  | some sp =>
    if sp.attached then dbDecr (setSnap s i fun x => { x with attached := false })
    else s

/-! #### Dispatch functions (index.cpp) -/

/-- `IteratorCloseDo` (index.cpp:88-102): create the close worker, mark
the iterator closing; queue the worker unless a next-batch is in
flight, in which case park it in the iterator's deferred-close slot. -/
def iterCloseDo (s : Sys) (o : Owner) (i : Nat) : Sys :=
  match getIter s o i with
  | none => s
  | some it =>
    if ¬it.nexting then
      pushW (setIter s o i fun x => { x with isClosing := true }) (.iterClose o i)
    else setIter s o i fun x => { x with isClosing := true, closeSlot := true }

/-- One registry entry of a cascading iterator close (`dbClose`,
`transactionCommit`, `TransactionRollbackDo` all loop over the
registry, skipping iterators already closing or closed, and call
`IteratorCloseDo` with a no-op callback on the rest).  Detached entries
are not in the source registry at all. -/
def iterCloseEntry (o : Owner) (p : Nat × IterSt) : (Nat × IterSt) × Option WKind :=
  if p.2.attached ∧ ¬p.2.isClosing ∧ ¬p.2.hasClosed then
    if ¬p.2.nexting then ((p.1, { p.2 with isClosing := true }), some (.iterClose o p.1))
    else ((p.1, { p.2 with isClosing := true, closeSlot := true }), none)
  else (p, none)

/-- Cascade `IteratorCloseDo` over a whole registry. -/
def cascadeIters (o : Owner) (l : List (Nat × IterSt)) :
    List (Nat × IterSt) × List WKind :=
  (l.map fun p => (iterCloseEntry o p).1, l.filterMap fun p => (iterCloseEntry o p).2)

/-- `TransactionRollbackDo` (index.cpp:107-135): mark rollbacking;
queue the rollback worker if the transaction is idle, otherwise park it
in the deferred slot and cascade-close the transaction's iterators. -/
def tranRollbackDo (s : Sys) (t : Nat) : Sys :=
  match getA t s.trans with
  | none => s
  | some tr =>
    if ¬tranHasPendingWork tr then
      pushW (setTran s t fun x => { x with isRollbacking := true }) (.tranRollback t)
    else
      let ci := cascadeIters (.tran t) tr.iters
      pushWs (setTran s t fun x =>
        { x with isRollbacking := true, closeSlot := some false, iters := ci.1 }) ci.2

/-- One registry entry of the transaction cascade in `dbClose`
(index.cpp:370-381): transactions already committing/committed/
rollbacking/rollbacked are skipped; the rest get
`TransactionRollbackDo` with a no-op callback. -/
def tranRollbackEntry (p : Nat × TranSt) : (Nat × TranSt) × List WKind :=
  if p.2.attached ∧ ¬p.2.isCommitting ∧ ¬p.2.hasCommitted ∧
      ¬p.2.isRollbacking ∧ ¬p.2.hasRollbacked then
    if ¬tranHasPendingWork p.2 then
      ((p.1, { p.2 with isRollbacking := true }), [.tranRollback p.1])
    else
      let ci := cascadeIters (.tran p.1) p.2.iters
      ((p.1, { p.2 with isRollbacking := true, closeSlot := some false, iters := ci.1 }),
        ci.2)
  else (p, [])

/-- One registry entry of the snapshot cascade in `dbClose`
(index.cpp:382-392): snapshots already releasing/released are skipped;
the rest get `SnapshotReleaseDo` with a no-op callback, which always
queues the release worker immediately (its `PriorityWorker` constructor
increments the database tracker). -/
def snapRelEntry (p : Nat × SnapSt) : (Nat × SnapSt) × Option WKind :=
  if p.2.attached ∧ ¬p.2.isReleasing ∧ ¬p.2.hasReleased then
    ((p.1, { p.2 with isReleasing := true }), some (.snapRelease p.1))
  else (p, none)

/-- `dbInit` is `initSys`.  `dbOpen` (index.cpp:269-336) queues an
`OpenWorker`; the engine's verdict `ok` is fixed at request time. -/
def reqDbOpen (s : Sys) (ok : Bool) : Sys × Outcome :=
  (pushW s (.dbOpen ok), .undef)

/-- `dbClose` (index.cpp:342-395): mark closing; queue the close worker
at once when the tracker is idle; otherwise park it in the deferred
slot and cascade teardown of every live iterator, transaction and
snapshot. -/
def reqDbClose (s : Sys) : Sys × Outcome :=
  let s := { s with db := { s.db with isClosing := true } }
  if ¬dbHasPendingWork s.db then (pushW s .dbClose, .undef)
  else
    let s := { s with db := { s.db with closeSlot := true } }
    let ci := cascadeIters .root s.iters
    let s := { s with iters := ci.1, queue := s.queue ++ ci.2 }
    let rows := s.trans.map tranRollbackEntry
    let s := { s with trans := rows.map Prod.fst,
                      queue := s.queue ++ rows.flatMap Prod.snd }
    let srows := s.snaps.map snapRelEntry
    let adds := srows.filterMap Prod.snd
    if s.db.hasClosed ∧ adds ≠ [] then (abortSys s, .assertFail)
    else
      ({ s with snaps := srows.map Prod.fst,
                queue := s.queue ++ adds,
                db := { s.db with pendingWork := s.db.pendingWork + adds.length } },
        .undef)

/-- The family `dbGet` / `dbMultiGet` / `dbPut` / `dbDel` / `dbClear` /
`dbCount` / `dbApproximateSize` / `dbCompactRange`
(index.cpp:400-531): each creates a `PriorityWorker` on the database —
whose constructor increments the tracker, asserting `!hasClosed_` —
and queues it. -/
def reqDbPriority (s : Sys) (op : Nat) : Sys × Outcome :=
  if s.db.hasClosed then (abortSys s, .assertFail)
  else (pushW (dbIncr s) (.dbPriority op), .undef)

/-- `iteratorInit` (index.cpp:611-640): construct
(`Database::NewIterator` asserts `!hasClosed_`) and attach under a
fresh id, incrementing the database tracker. -/
def reqIterInit (s : Sys) : Sys × Outcome :=
  if s.db.hasClosed then (abortSys s, .assertFail)
  else
    ({ s with iters := s.iters ++ [(s.db.nextIterId, freshIter)],
              db := { s.db with nextIterId := s.db.nextIterId + 1,
                                pendingWork := s.db.pendingWork + 1 } }, .undef)

/-- `transactionInit` (index.cpp:811-826). -/
def reqTranInit (s : Sys) : Sys × Outcome :=
  if s.db.hasClosed then (abortSys s, .assertFail)
  else
    ({ s with trans := s.trans ++ [(s.db.nextTranId, freshTran)],
              db := { s.db with nextTranId := s.db.nextTranId + 1,
                                pendingWork := s.db.pendingWork + 1 } }, .undef)

/-- `snapshotInit` (index.cpp:551-564). -/
def reqSnapInit (s : Sys) : Sys × Outcome :=
  if s.db.hasClosed then (abortSys s, .assertFail)
  else
    ({ s with snaps := s.snaps ++ [(s.db.nextSnapId, freshSnap)],
              db := { s.db with nextSnapId := s.db.nextSnapId + 1,
                                pendingWork := s.db.pendingWork + 1 } }, .undef)

/-- `iteratorClose` (index.cpp:661-675): success-as-noop on an already
closing/closed iterator, otherwise `IteratorCloseDo`. -/
def reqIterClose (s : Sys) (o : Owner) (i : Nat) : Sys × Outcome :=
  match getIter s o i with
  | none => (s, .undef)
  | some it =>
    if it.isClosing ∨ it.hasClosed then (s, .cbNull)
    else (iterCloseDo s o i, .undef)

/-- `iteratorNextv` (index.cpp:680-698): a closing/closed iterator gets
the `ITERATOR_NOT_OPEN` code error; otherwise `nexting_` is set and the
next-batch worker queued (without consulting `nexting_`). -/
def reqIterNextv (s : Sys) (o : Owner) (i : Nat) : Sys × Outcome :=
  match getIter s o i with
  | none => (s, .undef)
  | some it =>
    if it.isClosing ∨ it.hasClosed then (s, .cbErr .iteratorNotOpen)
    else
      (pushW (setIter s o i fun x => { x with nexting := true }) (.iterNext o i), .undef)

/-- `iteratorSeek` (index.cpp:645-656): silently returns on a
closing/closed iterator; otherwise resets `first_` and repositions. -/
def reqIterSeek (s : Sys) (o : Owner) (i : Nat) : Sys × Outcome :=
  match getIter s o i with
  | none => (s, .undef)
  | some it =>
    if it.isClosing ∨ it.hasClosed then (s, .undef)
    else (setIter s o i fun x => { x with first := true }, .undef)

/-- `transactionCommit` (index.cpp:841-880): asserts the transaction is
not rollbacking/rollbacked; success-as-noop when already
committing/committed; otherwise mark committing and either queue the
commit worker (idle) or park it and cascade-close the transaction's
iterators. -/
def reqTranCommit (s : Sys) (t : Nat) : Sys × Outcome :=
  match getA t s.trans with
  | none => (s, .undef)
  | some tr =>
    if tr.isRollbacking ∨ tr.hasRollbacked then (abortSys s, .assertFail)
    else if tr.isCommitting ∨ tr.hasCommitted then (s, .cbNull)
    else if ¬tranHasPendingWork tr then
      (pushW (setTran s t fun x => { x with isCommitting := true }) (.tranCommit t), .undef)
    else
      let ci := cascadeIters (.tran t) tr.iters
      (pushWs (setTran s t fun x =>
        { x with isCommitting := true, closeSlot := some true, iters := ci.1 }) ci.2,
        .undef)

/-- `transactionRollback` (index.cpp:885-900): asserts the transaction
is not committing/committed; success-as-noop when already
rollbacking/rollbacked; otherwise `TransactionRollbackDo`. -/
def reqTranRollback (s : Sys) (t : Nat) : Sys × Outcome :=
  match getA t s.trans with
  | none => (s, .undef)
  | some tr =>
    if tr.isCommitting ∨ tr.hasCommitted then (abortSys s, .assertFail)
    else if tr.isRollbacking ∨ tr.hasRollbacked then (s, .cbNull)
    else (tranRollbackDo s t, .undef)

/-- `transactionGet` / `transactionGetForUpdate` / `transactionPut` /
`transactionDel` (index.cpp:905-1010): `ASSERT_TRANSACTION_READY_CB`
reports the distinct committed/rollbacked code error to the callback;
otherwise a `PriorityWorker` on the transaction is created (tracker
incremented) and queued.  `transactionClear` / `transactionCount`
(index.cpp:1057-1093) have the same lifecycle with the throwing
readiness macro; they are covered by `reqTranOpThrow`. -/
def reqTranOp (s : Sys) (t : Nat) (op : Nat) : Sys × Outcome :=
  match getA t s.trans with
  | none => (s, .undef)
  | some tr =>
    if tr.isCommitting ∨ tr.hasCommitted then (s, .cbErr .tranCommitted)
    else if tr.isRollbacking ∨ tr.hasRollbacked then (s, .cbErr .tranRollbacked)
    else
      (pushW (setTran s t fun x => { x with pendingWork := x.pendingWork + 1 })
        (.tranPriority t op), .undef)

/-- `transactionClear` / `transactionCount`: `ASSERT_TRANSACTION_READY`
throws on a terminal transaction, otherwise the same priority-worker
path as `reqTranOp`. -/
def reqTranOpThrow (s : Sys) (t : Nat) (op : Nat) : Sys × Outcome :=
  match getA t s.trans with
  | none => (s, .undef)
  | some tr =>
    if tr.isCommitting ∨ tr.hasCommitted then (s, .thrown .tranCommitted)
    else if tr.isRollbacking ∨ tr.hasRollbacked then (s, .thrown .tranRollbacked)
    else
      (pushW (setTran s t fun x => { x with pendingWork := x.pendingWork + 1 })
        (.tranPriority t op), .undef)

/-- `transactionSnapshot` (index.cpp:1012-1022): `ASSERT_TRANSACTION_READY`
throws on a terminal transaction; otherwise a `TransactionSnapshot` is
created (not registered anywhere — it dies with the transaction). -/
def reqTranSnapshot (s : Sys) (t : Nat) : Sys × Outcome :=
  match getA t s.trans with
  | none => (s, .undef)
  | some tr =>
    if tr.isCommitting ∨ tr.hasCommitted then (s, .thrown .tranCommitted)
    else if tr.isRollbacking ∨ tr.hasRollbacked then (s, .thrown .tranRollbacked)
    else (s, .undef)

/-- `transactionIteratorInit` (index.cpp:1024-1055):
`ASSERT_TRANSACTION_READY` throws on a terminal transaction; otherwise
the iterator is attached to the transaction under a fresh id and the
transaction tracker incremented. -/
def reqTranIterInit (s : Sys) (t : Nat) : Sys × Outcome :=
  match getA t s.trans with
  | none => (s, .undef)
  | some tr =>
    if tr.isCommitting ∨ tr.hasCommitted then (s, .thrown .tranCommitted)
    else if tr.isRollbacking ∨ tr.hasRollbacked then (s, .thrown .tranRollbacked)
    else
      (setTran s t fun x =>
        { x with iters := x.iters ++ [(x.nextIterId, freshIter)],
                 nextIterId := x.nextIterId + 1,
                 pendingWork := x.pendingWork + 1 }, .undef)

/-- `transactionMultiGet` / `transactionMultiGetForUpdate`
(index.cpp:945-979): unlike every other transaction operation these do
NOT run `ASSERT_TRANSACTION_READY_CB`.  The `PriorityWorker`
constructor immediately calls `Transaction::IncrementPendingWork`,
whose `assert(!hasCommitted_ && !hasRollbacked_)` fires on a terminal
transaction (in a release build the queued worker would go on to
dereference the released `tran_` in `Transaction::MultiGet`). -/
def reqTranMultiGet (s : Sys) (t : Nat) (forUpdate : Bool) : Sys × Outcome :=
  match getA t s.trans with
  | none => (s, .undef)
  | some tr =>
    if tr.hasCommitted ∨ tr.hasRollbacked then (abortSys s, .assertFail)
    else
      (pushW (setTran s t fun x => { x with pendingWork := x.pendingWork + 1 })
        (.tranMultiGet t forUpdate), .undef)

/-- `snapshotRelease` (index.cpp:566-580) with `SnapshotReleaseDo`
(index.cpp:140-147): success-as-noop when already releasing/released;
otherwise mark releasing and queue the release worker at once (its
`PriorityWorker` constructor increments the database tracker, asserting
`!hasClosed_`). -/
def reqSnapRelease (s : Sys) (i : Nat) : Sys × Outcome :=
  match getA i s.snaps with
  | none => (s, .undef)
  | some sp =>
    if sp.isReleasing ∨ sp.hasReleased then (s, .cbNull)
    else if s.db.hasClosed then (abortSys s, .assertFail)
    else
      (pushW (dbIncr (setSnap s i fun x => { x with isReleasing := true }))
        (.snapRelease i), .undef)

/-! #### Worker completion

`BaseWorker::Complete` runs `DoComplete` (the JS callback) and then
`DoFinally` serially on the main thread once the execute phase has
finished on the pool; the scheduler may complete any queued worker
next.  `runW` removes the worker from the queue and applies its
execute-phase state change, its completion event, and its `DoFinally`
bookkeeping.  A fired `assert` aborts with the state frozen as it was
when the worker was picked. -/
def runW (s : Sys) (w : WKind) : Sys :=
  let s0 : Sys := { s with queue := s.queue.erase w }
  match w with
  | .dbOpen ok =>
    -- OpenWorker::DoExecute → Database::Open (sets db_ on success)
    pushEv (if ok then { s0 with db := { s0.db with conn := true } } else s0) w
  | .dbClose =>
    -- CloseWorker::DoExecute → Database::Close (idempotent; releases db_)
    pushEv (if s0.db.hasClosed then s0
      else { s0 with db :=
        { s0.db with
          hasClosed := true
          conn := false
          releases := s0.db.releases + (if s0.db.conn then 1 else 0) } }) w
  | .dbPriority _ =>
    -- engine call (asserts !hasClosed_), callback, PriorityWorker::DoFinally
    if s0.db.hasClosed then abortSys s else dbDecr (pushEv s0 w)
  | .iterClose o i =>
    -- IteratorCloseWorker: DoExecute → Iterator::Close (idempotent);
    -- DoFinally → Iterator::Detach
    detachIter (pushEv (setIter s0 o i fun x => { x with hasClosed := true }) w) o i
  | .iterNext o i =>
    -- IteratorNextWorker: DoExecute reads the cursor (asserting
    -- !hasClosed_); DoFinally clears nexting_ and queues a parked
    -- deferred-close worker
    match getIter s0 o i with
    | none => pushEv s0 w
    | some it =>
      if it.hasClosed then abortSys s
      else
        let s1 := setIter (pushEv s0 w) o i fun x => { x with nexting := false }
        if it.closeSlot then
          pushW (setIter s1 o i fun x => { x with closeSlot := false }) (.iterClose o i)
        else s1
  | .tranCommit t =>
    -- TransactionCommitWorker: DoExecute → Transaction::Commit
    -- (asserts !hasRollbacked_; idempotent on hasCommitted_; releases
    -- tran_); DoFinally → Transaction::Detach
    match getA t s0.trans with
    | none => pushEv s0 w
    | some tr =>
      if tr.hasRollbacked then abortSys s
      else
        detachTran
          (pushEv (if tr.hasCommitted then s0
            else setTran s0 t fun x => { x with hasCommitted := true }) w) t
  | .tranRollback t =>
    -- TransactionRollbackWorker, symmetric to commit
    match getA t s0.trans with
    | none => pushEv s0 w
    | some tr =>
      if tr.hasCommitted then abortSys s
      else
        detachTran
          (pushEv (if tr.hasRollbacked then s0
            else setTran s0 t fun x => { x with hasRollbacked := true }) w) t
  | .tranPriority t _ =>
    -- Transaction get/put/del/getForUpdate/clear/count worker: the
    -- engine call asserts the transaction is not terminal;
    -- PriorityWorker::DoFinally decrements the transaction tracker
    match getA t s0.trans with
    | none => pushEv s0 w
    | some tr =>
      if tr.hasCommitted ∨ tr.hasRollbacked then abortSys s
      else tranDecr (pushEv s0 w) t
  | .tranMultiGet t _ =>
    -- Transaction::MultiGet/MultiGetForUpdate assert the transaction is
    -- not terminal (and would dereference the released tran_)
    match getA t s0.trans with
    | none => pushEv s0 w
    | some tr =>
      if tr.hasCommitted ∨ tr.hasRollbacked then abortSys s
      else tranDecr (pushEv s0 w) t
  | .snapRelease i =>
    -- SnapshotReleaseWorker: DoExecute → Snapshot::Release (idempotent;
    -- Database::ReleaseSnapshot asserts !hasClosed_); DoFinally →
    -- Snapshot::Detach then PriorityWorker::DoFinally
    match getA i s0.snaps with
    | none => pushEv s0 w
    | some sp =>
      if sp.hasReleased then dbDecr (detachSnap (pushEv s0 w) i)
      else if s0.db.hasClosed then abortSys s
      else
        dbDecr (detachSnap
          (pushEv (setSnap s0 i fun x => { x with hasReleased := true }) w) i)

/-! #### The step relation -/

/-- One action of the host: a synchronous dispatch call, or the
completion of a queued WorkItem. -/
inductive Act
  | dbOpen (ok : Bool)
  | dbClose
  | dbPriority (op : Nat)
  | iterInit
  | tranInit
  | snapInit
  | tranIterInit (t : Nat)
  | iterClose (o : Owner) (i : Nat)
  | iterNextv (o : Owner) (i : Nat)
  | iterSeek (o : Owner) (i : Nat)
  | tranCommit (t : Nat)
  | tranRollback (t : Nat)
  | tranOp (t : Nat) (op : Nat)
  | tranOpThrow (t : Nat) (op : Nat)
  | tranSnapshot (t : Nat)
  | tranMultiGet (t : Nat) (fu : Bool)
  | snapRelease (i : Nat)
  | run (w : WKind)
deriving DecidableEq, Repr

/-- The state after an action. -/
def applyAct (s : Sys) (a : Act) : Sys :=
  match a with
  | .dbOpen ok => (reqDbOpen s ok).1
  | .dbClose => (reqDbClose s).1
  | .dbPriority op => (reqDbPriority s op).1
  | .iterInit => (reqIterInit s).1
  | .tranInit => (reqTranInit s).1
  | .snapInit => (reqSnapInit s).1
  | .tranIterInit t => (reqTranIterInit s t).1
  | .iterClose o i => (reqIterClose s o i).1
  | .iterNextv o i => (reqIterNextv s o i).1
  | .iterSeek o i => (reqIterSeek s o i).1
  | .tranCommit t => (reqTranCommit s t).1
  | .tranRollback t => (reqTranRollback s t).1
  | .tranOp t op => (reqTranOp s t op).1
  | .tranOpThrow t op => (reqTranOpThrow s t op).1
  | .tranSnapshot t => (reqTranSnapshot s t).1
  | .tranMultiGet t fu => (reqTranMultiGet s t fu).1
  | .snapRelease i => (reqSnapRelease s i).1
  | .run w => runW s w

/-- An action is possible: the process has not aborted, and a worker
can complete only if it is queued. -/
def allowedAct (s : Sys) (a : Act) : Bool :=
  !s.aborted &&
    (match a with
     | .run w => s.queue.contains w
     | _ => true)

/-- One step of the system. -/
def Step (s s' : Sys) : Prop :=
  ∃ a, allowedAct s a = true ∧ s' = applyAct s a

/-- Reachability by any interleaving of dispatch calls and worker
completions. -/
def Reach : Sys → Sys → Prop := Relation.ReflTransGen Step

/-! #### Descendant accounting (for the close cascade) -/

/-- A root-level descendant of the database: a root-owned iterator, a
transaction, or a snapshot. -/
inductive Desc
  | iter (i : Nat)
  | tran (t : Nat)
  | snap (i : Nat)
deriving DecidableEq, Repr

/-- Whether a registry holds an attached entry under the key. -/
def attA {α : Type} (att : α → Bool) (k : Nat) (l : List (Nat × α)) : Bool :=
  match getA k l with
  | none => false
  | some v => att v

/-- Whether the descendant is live (attached to the root's tracker). -/
def attachedD (s : Sys) : Desc → Bool
  | .iter i => attA (fun x => x.attached) i s.iters
  | .tran t => attA (fun x => x.attached) t s.trans
  | .snap i => attA (fun x => x.attached) i s.snaps

/-- The completion events that tear the descendant down: the close
worker for an iterator, the commit or rollback worker for a
transaction, the release worker for a snapshot. -/
def teardownEvs : Desc → WKind → Bool
  | .iter i, .iterClose .root j => decide (i = j)
  | .tran t, .tranCommit u => decide (t = u)
  | .tran t, .tranRollback u => decide (t = u)
  | .snap i, .snapRelease j => decide (i = j)
  | _, _ => false

/-- Number of attached entries in a registry. -/
def cntAtt {α : Type} (att : α → Bool) (l : List (Nat × α)) : Nat :=
  (l.filter fun p => att p.2).length

/-- Database-level `PriorityWorker` WorkItems. -/
def isDbPri : WKind → Bool
  | .dbPriority _ => true
  | _ => false

/-- Snapshot release WorkItems (also `PriorityWorker`s on the database). -/
def isSnapRel : WKind → Bool
  | .snapRelease _ => true
  | _ => false

/-- Count of WorkItems satisfying a predicate. -/
def cntW (pr : WKind → Bool) (q : List WKind) : Nat := (q.filter pr).length

/-- The database tracker accounting: `pendingWork_` equals the number
of attached root iterators, transactions and snapshots plus the queued
database-level PriorityWorkers (engine calls and snapshot releases). -/
def dbAcct (s : Sys) : Prop :=
  s.db.pendingWork =
    cntAtt (fun x => x.attached) s.iters + cntAtt (fun x => x.attached) s.trans +
    cntAtt (fun x => x.attached) s.snaps + cntW isDbPri s.queue + cntW isSnapRel s.queue

/-- The close-ordering invariant for one descendant: either the
descendant is still attached and the root close worker has neither been
queued nor completed, or its teardown completion is on record and
precedes every completion of the root close worker. -/
def OrdInv (d : Desc) (s : Sys) : Prop :=
  (attachedD s d = true ∨ ∃ w ∈ s.events, teardownEvs d w = true) ∧
  (.dbClose ∈ s.queue → ∃ w ∈ s.events, teardownEvs d w = true) ∧
  (∀ l1 l2, s.events = l1 ++ .dbClose :: l2 → ∃ w ∈ l1, teardownEvs d w = true)

/-- Connection/release bookkeeping relative to a state that holds a
live connection: not yet closed with zero releases, or closed with
exactly one. -/
def RelP (s : Sys) : Prop :=
  (s.db.hasClosed = false ∧ s.db.conn = true ∧ s.db.releases = 0) ∨
  (s.db.hasClosed = true ∧ s.db.releases = 1)

/-- `hasClosed_` is set exactly when a close-worker completion is on
record. -/
def RelE (s : Sys) : Prop :=
  s.db.hasClosed = true ↔ .dbClose ∈ s.events

/-- Queued snapshot-release WorkItems always refer to registered
snapshots (registry entries are never erased, only flagged). -/
def SnapReg (s : Sys) : Prop :=
  ∀ j, WKind.snapRelease j ∈ s.queue → (getA j s.snaps).isSome = true

/-- A descendant that is live and not yet in any teardown phase: the
entries the dbClose cascade acts on (the skip conditions of
`IteratorCloseDo`, the transaction loop and `SnapshotReleaseDo`). -/
def freshD (s : Sys) : Desc → Bool
  | .iter i =>
    match getA i s.iters with
    | some it => it.attached && !it.isClosing && !it.hasClosed
    | none => false
  | .tran t =>
    match getA t s.trans with
    | some tr => tr.attached && !tr.isCommitting && !tr.hasCommitted &&
        !tr.isRollbacking && !tr.hasRollbacked
    | none => false
  | .snap j =>
    match getA j s.snaps with
    | some sn => sn.attached && !sn.isReleasing && !sn.hasReleased
    | none => false

/-- A descendant whose teardown has been initiated: closing for an
iterator, rollbacking for a transaction, releasing for a snapshot. -/
def tearingD (s : Sys) : Desc → Bool
  | .iter i =>
    match getA i s.iters with
    | some it => it.isClosing
    | none => false
  | .tran t =>
    match getA t s.trans with
    | some tr => tr.isRollbacking
    | none => false
  | .snap j =>
    match getA j s.snaps with
    | some sn => sn.isReleasing
    | none => false

/-- Every action of a concrete script is allowed when played from `s`. -/
def actsAllowed (s : Sys) : List Act → Bool
  | [] => true
  | a :: r => allowedAct s a && actsAllowed (applyAct s a) r

/-- A state with one closing root iterator, for the C10 witness. -/
def c10Sys : Sys := { initSys with iters := [(0, { freshIter with isClosing := true })] }

/-- A state for the C5 witness: one closing iterator, one rollbacking
and one committing transaction, one releasing snapshot. -/
def c5Sys : Sys :=
  { initSys with
    iters := [(0, { freshIter with isClosing := true })],
    trans := [(0, { freshTran with isRollbacking := true }),
              (1, { freshTran with isCommitting := true })],
    snaps := [(0, { freshSnap with isReleasing := true })] }

/-- Open the database, begin a transaction and request its rollback
(queued immediately since the transaction is idle): the transaction is
now `isRollbacking_`. -/
def c4Sys : Sys :=
  [Act.dbOpen true, .run (.dbOpen true), .tranInit, .tranRollback 0].foldl applyAct initSys

/-- Open, begin transaction 0, commit it and let the commit worker
complete: the transaction `hasCommitted_` and its native object is
released. -/
def c3Sys : Sys :=
  [Act.dbOpen true, .run (.dbOpen true), .tranInit, .tranCommit 0,
    .run (.tranCommit 0)].foldl applyAct initSys

/-- Open, create a root iterator and issue two next-batch requests
back to back, before either completes. -/
def c6Sys : Sys :=
  [Act.dbOpen true, .run (.dbOpen true), .iterInit, .iterNextv .root 0,
    .iterNextv .root 0].foldl applyAct initSys

/-- A keys-only iterator over two one-byte-key entries, with a byte
high-water mark of 0, already positioned at the start. -/
def c8Iter : RIter :=
  { cur := { entries := [([97], [98]), ([99], [100])], pos := 0, statusOk := true },
    didSeek := true, reverse := false,
    range := { lt := none, lte := none, gt := none, gte := none },
    limit := -1, count := 0,
    keys := true, values := false, highWaterMarkBytes := 0, first := true, cache := [] }

def c1S0 : Sys :=
  [Act.dbOpen true, .run (.dbOpen true), .iterInit].foldl applyAct initSys

/-! ### Helper lemmas -/

theorem getA_updA {α : Type} (k : Nat) (f : α → α) (l : List (Nat × α)) :
    getA k (updA k f l) = (getA k l).map f := by
  induction l with
  | nil => rfl
  | cons p r ih =>
    by_cases h : p.1 = k <;> simp [getA, updA, h, ih]

theorem getA_updA_ne {α : Type} (k k' : Nat) (f : α → α) (l : List (Nat × α))
    (h : k ≠ k') : getA k (updA k' f l) = getA k l := by
  induction l with
  | nil => rfl
  | cons p r ih =>
    by_cases hp : p.1 = k'
    · simp [getA, updA, hp, h.symm, Ne.symm h]
    · simp [getA, updA, hp, ih]

theorem getIter_setIter (s : Sys) (o : Owner) (i : Nat) (f : IterSt → IterSt) :
    getIter (setIter s o i f) o i = (getIter s o i).map f := by
  cases o with
  | root => simp [getIter, setIter, getA_updA]
  | tran t =>
    simp only [getIter, setIter, getA_updA]
    cases getA t s.trans with
    | none => rfl
    | some tr => simp [getA_updA]

theorem getIter_setTran_pendingWork (s : Sys) (t : Nat) (i : Nat) (n : Nat) :
    getIter (setTran s t fun x => { x with pendingWork := n }) (.tran t) i
      = getIter s (.tran t) i := by
  simp only [getIter, setTran, getA_updA]
  cases getA t s.trans with
  | none => rfl
  | some tr => rfl

/-! ### C7: range-bound precedence -/

/-- C7 counterexample: with both `lt = "m"` and `lte = "k"` the entry
`"k"` itself (`[107]`, which is `≥ "k"`) is NOT excluded by
`BaseIterator::OutOfRange` — `lte` is an inclusive bound — so the
claim's "entries `>= "k"` are excluded" fails at `target = "k"`. -/
theorem C7_counterexample :
    compareBytes [107] [107] ≠ Ordering.lt ∧
    outOfRange { lt := some [109], lte := some [107], gt := none, gte := none } [107]
      = false := by
  decide

/-- C7 (amended): when both a strict and a non-strict bound are given
on the same side, the non-strict bound alone decides validity: with
`lte` present, `lt` is ignored and exactly the entries strictly greater
than the `lte` bound are excluded; symmetrically `gte` wins over `gt`
and exactly the entries strictly smaller than the `gte` bound are
excluded (the bounds themselves stay in range). -/
theorem C7_nonstrict_bounds_take_precedence
    (ltv ltev gtv gtev target : List Nat) :
    outOfRange { lt := some ltv, lte := some ltev, gt := some gtv, gte := some gtev }
        target
      = outOfRange { lt := none, lte := some ltev, gt := none, gte := some gtev } target
    ∧ outOfRange { lt := none, lte := some ltev, gt := none, gte := some gtev } target
      = (decide (compareBytes target ltev = .gt) || decide (compareBytes target gtev = .lt)) := by
  constructor <;> simp [outOfRange, upperExcludes, lowerExcludes]

/-! ### C10: seek versus next on a closing/closed iterator -/

/-- C10: a seek on a closing/closed iterator silently returns with the
state untouched, while a next-batch request on the same iterator state
reports the `ITERATOR_NOT_OPEN` code error to its callback — the two
report the closed state inconsistently. -/
theorem C10_seek_silent_next_errors (s : Sys) (o : Owner) (i : Nat) (it : IterSt)
    (hget : getIter s o i = some it)
    (hcl : it.isClosing = true ∨ it.hasClosed = true) :
    reqIterSeek s o i = (s, .undef) ∧
    reqIterNextv s o i = (s, .cbErr .iteratorNotOpen) ∧
    Outcome.undef ≠ Outcome.cbErr .iteratorNotOpen := by
  refine ⟨?_, ?_, by decide⟩
  · unfold reqIterSeek
    rw [hget]
    simp only [if_pos hcl]
  · unfold reqIterNextv
    rw [hget]
    simp only [if_pos hcl]

/-- Witness for C10 at a concrete closing iterator. -/
theorem C10_witness :
    reqIterSeek c10Sys .root 0 = (c10Sys, .undef) ∧
    reqIterNextv c10Sys .root 0 = (c10Sys, .cbErr .iteratorNotOpen) ∧
    Outcome.undef ≠ Outcome.cbErr .iteratorNotOpen :=
  C10_seek_silent_next_errors c10Sys .root 0 { freshIter with isClosing := true }
    (by decide) (Or.inl rfl)

/-! ### C5: idempotent terminal requests -/

/-- C5: requesting a terminal action on a handle that is already
terminal or has one scheduled — close of a closing/closed iterator,
rollback of a rollbacking/rollbacked transaction, commit of a
committing/committed transaction, release of a releasing/released
snapshot — invokes the caller's callback with a null error and returns
with the system state (registries, flags, queue) unchanged: no second
terminal WorkItem, no native-state change. -/
theorem C5_terminal_requests_idempotent (s : Sys) :
    (∀ o i it, getIter s o i = some it →
      it.isClosing = true ∨ it.hasClosed = true →
      reqIterClose s o i = (s, .cbNull)) ∧
    (∀ t tr, getA t s.trans = some tr →
      tr.isRollbacking = true ∨ tr.hasRollbacked = true →
      tr.isCommitting = false → tr.hasCommitted = false →
      reqTranRollback s t = (s, .cbNull)) ∧
    (∀ t tr, getA t s.trans = some tr →
      tr.isCommitting = true ∨ tr.hasCommitted = true →
      tr.isRollbacking = false → tr.hasRollbacked = false →
      reqTranCommit s t = (s, .cbNull)) ∧
    (∀ i sp, getA i s.snaps = some sp →
      sp.isReleasing = true ∨ sp.hasReleased = true →
      reqSnapRelease s i = (s, .cbNull)) := by
  refine ⟨?_, ?_, ?_, ?_⟩
  · intro o i it hget hterm
    unfold reqIterClose
    rw [hget]
    simp only [if_pos hterm]
  · intro t tr hget hterm hc1 hc2
    unfold reqTranRollback
    rw [hget]
    simp only [hc1, hc2]
    simp [hterm]
  · intro t tr hget hterm hc1 hc2
    unfold reqTranCommit
    rw [hget]
    simp only [hc1, hc2]
    simp [hterm]
  · intro i sp hget hterm
    unfold reqSnapRelease
    rw [hget]
    simp only [if_pos hterm]

/-- Witness for C5 at concrete already-terminal handles. -/
theorem C5_witness :
    reqIterClose c5Sys .root 0 = (c5Sys, .cbNull) ∧
    reqTranRollback c5Sys 0 = (c5Sys, .cbNull) ∧
    reqTranCommit c5Sys 1 = (c5Sys, .cbNull) ∧
    reqSnapRelease c5Sys 0 = (c5Sys, .cbNull) := by
  obtain ⟨h1, h2, h3, h4⟩ := C5_terminal_requests_idempotent c5Sys
  exact ⟨h1 .root 0 { freshIter with isClosing := true } (by decide) (Or.inl rfl),
         h2 0 { freshTran with isRollbacking := true } (by decide) (Or.inl rfl) rfl rfl,
         h3 1 { freshTran with isCommitting := true } (by decide) (Or.inl rfl) rfl rfl,
         h4 0 { freshSnap with isReleasing := true } (by decide) (Or.inl rfl)⟩

/-! ### C2: pending-work trackers -/

/-- C2: the idle baselines and the deferred-slot queueing discipline of
the two trackers.  `Database::HasPendingWork` is true iff the count
exceeds baseline 0 (the database's JS reference is created weak, count
0), `Transaction::HasPendingWork` iff the count exceeds baseline 1 (the
transaction's JS reference is created at count 1, the keep-alive
reference).  A decrement queues the deferred close (resp.
commit/rollback) WorkItem and clears the slot exactly when a WorkItem
is registered there and the decremented count is at the baseline;
otherwise queue and slot are untouched. -/
theorem C2_tracker_baselines_and_deferred_queueing :
    (∀ d : DbSt, dbHasPendingWork d = true ↔ 0 < d.pendingWork) ∧
    (∀ tr : TranSt, tranHasPendingWork tr = true ↔ 1 < tr.pendingWork) ∧
    initSys.db.pendingWork = 0 ∧ freshTran.pendingWork = 1 ∧
    (∀ s : Sys,
      (dbDecr s).db.pendingWork = s.db.pendingWork - 1 ∧
      (if s.db.closeSlot = true ∧ s.db.pendingWork - 1 = 0 then
        (dbDecr s).queue = s.queue ++ [WKind.dbClose] ∧ (dbDecr s).db.closeSlot = false
      else
        (dbDecr s).queue = s.queue ∧ (dbDecr s).db.closeSlot = s.db.closeSlot)) ∧
    (∀ (s : Sys) (t : Nat) (tr : TranSt), getA t s.trans = some tr →
      ∃ tr', getA t (tranDecr s t).trans = some tr' ∧
        tr'.pendingWork = tr.pendingWork - 1 ∧
        (if tr.closeSlot.isSome = true ∧ tr.pendingWork - 1 = 1 then
          tr'.closeSlot = none ∧
          (tranDecr s t).queue = s.queue ++
            [if tr.closeSlot.getD false then WKind.tranCommit t else WKind.tranRollback t]
        else
          tr'.closeSlot = tr.closeSlot ∧ (tranDecr s t).queue = s.queue)) := by
  refine ⟨fun d => by simp [dbHasPendingWork],
         fun tr => by simp [tranHasPendingWork],
         rfl, rfl, ?_, ?_⟩
  · intro s
    unfold dbDecr
    by_cases h : s.db.closeSlot = true ∧ s.db.pendingWork - 1 = 0
    · simp [h, pushW]
    · simp only [h]
      rw [if_neg (by simpa using h)]
      simp [h]
  · intro s t tr hget
    by_cases hcond : tr.closeSlot.isSome = true ∧ tr.pendingWork - 1 = 1
    · refine ⟨{ tr with pendingWork := tr.pendingWork - 1, closeSlot := none }, ?_, rfl, ?_⟩
      · simp only [tranDecr, hget]
        rw [if_pos hcond]
        simp [pushW, setTran, getA_updA, hget]
      · rw [if_pos hcond]
        refine ⟨rfl, ?_⟩
        simp only [tranDecr, hget]
        rw [if_pos hcond]
        simp [pushW, setTran]
    · refine ⟨{ tr with pendingWork := tr.pendingWork - 1 }, ?_, rfl, ?_⟩
      · simp only [tranDecr, hget]
        rw [if_neg hcond]
        simp [setTran, getA_updA, hget]
      · rw [if_neg hcond]
        refine ⟨rfl, ?_⟩
        simp only [tranDecr, hget]
        rw [if_neg hcond]
        simp [setTran]

/-- Witness for C2 at concrete tracker states: a database with one
pending unit and the deferred close registered (decrement queues it),
and a transaction at count 2 with a deferred rollback (decrement queues
it). -/
theorem C2_witness :
    (dbHasPendingWork { initSys.db with pendingWork := 1 } = true ↔
      0 < (1 : Nat)) ∧
    ((dbDecr { initSys with
        db := { initSys.db with pendingWork := 1, closeSlot := true } }).queue
      = [] ++ [WKind.dbClose]) ∧
    (∃ tr', getA 0 (tranDecr { initSys with
        trans := [(0, { freshTran with pendingWork := 2, closeSlot := some false })] } 0).trans
        = some tr' ∧ tr'.closeSlot = none) := by
  have h1 := (C2_tracker_baselines_and_deferred_queueing.1 { initSys.db with pendingWork := 1 })
  have h5 := C2_tracker_baselines_and_deferred_queueing.2.2.2.2.1 { initSys with
    db := { initSys.db with pendingWork := 1, closeSlot := true } }
  have h6 := C2_tracker_baselines_and_deferred_queueing.2.2.2.2.2 { initSys with
    trans := [(0, { freshTran with pendingWork := 2, closeSlot := some false })] } 0
    { freshTran with pendingWork := 2, closeSlot := some false } (by decide)
  refine ⟨h1, ?_, ?_⟩
  · have := h5.2
    rw [if_pos (by decide)] at this
    exact this.1
  · obtain ⟨tr', hg, hp, hrest⟩ := h6
    rw [if_pos (by decide)] at hrest
    exact ⟨tr', hg, hrest.1⟩

/-! ### Concrete traces -/

/-- A single allowed action is a step. -/
theorem step_of (s : Sys) (a : Act) (h : allowedAct s a = true) :
    Step s (applyAct s a) := ⟨a, h, rfl⟩

/-- Playing an allowed script reaches its final state. -/
theorem reach_of_actsAllowed (acts : List Act) (s : Sys)
    (h : actsAllowed s acts = true) : Reach s (acts.foldl applyAct s) := by
  induction acts generalizing s with
  | nil => exact .refl
  | cons a r ih =>
    rw [actsAllowed, Bool.and_eq_true] at h
    exact .head ⟨a, h.1, rfl⟩ (ih _ h.2)

/-! ### C4: commit after rollback / rollback after commit -/

/-- C4 counterexample: committing the rollbacking transaction of
`c4Sys` (a state reachable from `dbInit`) trips
`assert(!transaction->isRollbacking_ && !transaction->hasRollbacked_)`
in `transactionCommit` and aborts; the caller's callback never receives
an error descriptor — the outcome is neither a code error (as the
claim requires) nor the idempotent null-error success. -/
theorem C4_counterexample :
    Reach initSys c4Sys ∧
    (getA 0 c4Sys.trans).map (fun tr => tr.isRollbacking) = some true ∧
    reqTranCommit c4Sys 0 = (abortSys c4Sys, .assertFail) ∧
    (∀ c, Outcome.assertFail ≠ Outcome.cbErr c) ∧
    Outcome.assertFail ≠ Outcome.cbNull := by
  exact ⟨reach_of_actsAllowed _ initSys (by decide), by decide, by decide,
    fun c h => Outcome.noConfusion h, by decide⟩

/-- C4 (amended): commit requested on a rollbacking/rollbacked
transaction (and rollback on a committing/committed one) is caught by a
debug assertion that aborts the process — a fatal, loud failure
distinct from the idempotent null-error success path — but no error
descriptor is delivered to the caller's callback. -/
theorem C4_cross_terminal_asserts (s : Sys) (t : Nat) (tr : TranSt)
    (hget : getA t s.trans = some tr) :
    (tr.isRollbacking = true ∨ tr.hasRollbacked = true →
      reqTranCommit s t = (abortSys s, .assertFail)) ∧
    (tr.isCommitting = true ∨ tr.hasCommitted = true →
      reqTranRollback s t = (abortSys s, .assertFail)) ∧
    (∀ c, Outcome.assertFail ≠ Outcome.cbErr c) ∧
    Outcome.assertFail ≠ Outcome.cbNull := by
  refine ⟨?_, ?_, fun c h => Outcome.noConfusion h, by decide⟩
  · intro hterm
    unfold reqTranCommit
    rw [hget]
    simp only [if_pos hterm]
  · intro hterm
    unfold reqTranRollback
    rw [hget]
    simp only [if_pos hterm]

/-- Witness for the amended C4 at the concrete `c4Sys`. -/
theorem C4_witness :
    reqTranCommit c4Sys 0 = (abortSys c4Sys, .assertFail) :=
  (C4_cross_terminal_asserts c4Sys 0 { freshTran with isRollbacking := true }
    (by decide)).1 (Or.inl rfl)

/-! ### C3: operations on a terminal transaction -/

/-- C3: on the committed transaction of `c3Sys` (reachable from
`dbInit`), get/get-for-update/put/delete report the distinct
`TRANSACTION_COMMITTED` code error and snapshot/iterator/clear/count
throw it — but `transactionMultiGet` and `transactionMultiGetForUpdate`
skip the readiness check entirely: dispatch runs straight into
`Transaction::IncrementPendingWork`, whose
`assert(!hasCommitted_ && !hasRollbacked_)` fires (an abort; in release
builds the queued worker would dereference the released `tran_`),
instead of failing with the distinct error condition. -/
theorem C3_multiget_skips_readiness_check :
    Reach initSys c3Sys ∧
    (getA 0 c3Sys.trans).map (fun tr => tr.hasCommitted) = some true ∧
    (reqTranOp c3Sys 0 0).2 = Outcome.cbErr .tranCommitted ∧
    (reqTranSnapshot c3Sys 0).2 = Outcome.thrown .tranCommitted ∧
    (reqTranIterInit c3Sys 0).2 = Outcome.thrown .tranCommitted ∧
    (reqTranOpThrow c3Sys 0 0).2 = Outcome.thrown .tranCommitted ∧
    (reqTranMultiGet c3Sys 0 false).2 = Outcome.assertFail ∧
    (reqTranMultiGet c3Sys 0 true).2 = Outcome.assertFail ∧
    (reqTranMultiGet c3Sys 0 false).1.aborted = true ∧
    (∀ c, Outcome.assertFail ≠ Outcome.cbErr c) := by
  exact ⟨reach_of_actsAllowed _ initSys (by decide), by decide, by decide, by decide,
    by decide, by decide, by decide, by decide, by decide,
    fun c h => Outcome.noConfusion h⟩

/-! ### C6: next-batch in flight -/

/-- C6 counterexample: `iteratorNextv` never consults `nexting_`, so a
second next-batch request issued while the first is still in flight is
neither rejected nor held back — `c6Sys`, reachable from `dbInit`, has
TWO next-batch WorkItems simultaneously in flight for the same
iterator (both queued to the worker pool, hence executable concurrently
against the same native cursor). -/
theorem C6_counterexample :
    Reach initSys c6Sys ∧
    c6Sys.queue.count (WKind.iterNext .root 0) = 2 ∧
    (reqIterNextv ([Act.dbOpen true, .run (.dbOpen true), .iterInit,
      .iterNextv .root 0].foldl applyAct initSys) .root 0).2 = Outcome.undef := by
  exact ⟨reach_of_actsAllowed _ initSys (by decide), by decide, by decide⟩

theorem getIter_queue (s : Sys) (q : List WKind) (o : Owner) (i : Nat) :
    getIter { s with queue := q } o i = getIter s o i := by cases o <;> rfl

theorem getIter_events (s : Sys) (es : List WKind) (o : Owner) (i : Nat) :
    getIter { s with events := es } o i = getIter s o i := by cases o <;> rfl

theorem getIter_pushW (s : Sys) (w : WKind) (o : Owner) (i : Nat) :
    getIter (pushW s w) o i = getIter s o i := by cases o <;> rfl

theorem getIter_pushEv (s : Sys) (w : WKind) (o : Owner) (i : Nat) :
    getIter (pushEv s w) o i = getIter s o i := by cases o <;> rfl

theorem setIter_queue (s : Sys) (o : Owner) (i : Nat) (f : IterSt → IterSt) :
    (setIter s o i f).queue = s.queue := by cases o <;> rfl

theorem setIter_events (s : Sys) (o : Owner) (i : Nat) (f : IterSt → IterSt) :
    (setIter s o i f).events = s.events := by cases o <;> rfl

/-- C6 (amended): `isNexting` does not gate next-batch issuance — a
next-batch request on a non-closing iterator queues a further
`IteratorNextWorker` unconditionally, even while one is already in
flight (exclusion is left to the caller; two such WorkItems can sit in
the pool queue at once, as the counterexample shows).  What `isNexting`
does gate is teardown: a close request arriving while a next-batch is
in flight queues nothing and parks the close WorkItem in the iterator's
deferred-close slot, and the in-flight next-batch's completion clears
`nexting_`, queues the parked close WorkItem and clears the slot. -/
theorem C6_next_unrejected_close_deferred (s : Sys) (o : Owner) (i : Nat) (it : IterSt)
    (hget : getIter s o i = some it) :
    (it.isClosing = false → it.hasClosed = false →
      (reqIterNextv s o i).1.queue = s.queue ++ [WKind.iterNext o i] ∧
      (reqIterNextv s o i).2 = .undef) ∧
    (it.isClosing = false → it.hasClosed = false → it.nexting = true →
      (reqIterClose s o i).1.queue = s.queue ∧
      getIter (reqIterClose s o i).1 o i =
        some { it with isClosing := true, closeSlot := true }) ∧
    (it.hasClosed = false → it.closeSlot = true →
      (runW s (.iterNext o i)).queue
        = s.queue.erase (.iterNext o i) ++ [WKind.iterClose o i] ∧
      getIter (runW s (.iterNext o i)) o i
        = some { it with nexting := false, closeSlot := false }) := by
  have hget0 : getIter { s with queue := s.queue.erase (WKind.iterNext o i) } o i = some it :=
    (getIter_queue ..).trans hget
  refine ⟨?_, ?_, ?_⟩
  · intro h1 h2
    simp only [reqIterNextv, hget, h1, h2]
    simp [pushW, setIter_queue]
  · intro h1 h2 h3
    simp only [reqIterClose, iterCloseDo, hget, h1, h2, h3]
    simp only [Bool.false_eq_true, or_self, if_false, not_true, ite_false]
    refine ⟨setIter_queue .., ?_⟩
    rw [getIter_setIter, hget]
    simp [h2, h3]
  · intro h2 hslot
    simp only [runW, hget0, h2, hslot]
    simp only [Bool.false_eq_true, if_false, if_true]
    constructor
    · simp [pushW, setIter_queue, pushEv]
    · rw [getIter_pushW, getIter_setIter, getIter_setIter, getIter_pushEv, hget0]
      simp [h2]

/-- Witness for the amended C6: on `c6Sys` (one iterator, two in-flight
next batches) a close request defers, and the next-batch completion
queues the deferred close. -/
theorem C6_witness :
    (reqIterClose c6Sys .root 0).1.queue = c6Sys.queue ∧
    getIter (reqIterClose c6Sys .root 0).1 .root 0 =
      some { freshIter with nexting := true, isClosing := true, closeSlot := true } := by
  have h := (C6_next_unrejected_close_deferred c6Sys .root 0
    { freshIter with nexting := true } (by decide)).2.1 rfl rfl rfl
  exact h

/-! ### C8: batch reads -/

theorem countedBytes_append (k v : Bool) (l1 l2 : List (List Nat × List Nat)) :
    countedBytes k v (l1 ++ l2) = countedBytes k v l1 + countedBytes k v l2 := by
  simp [countedBytes]

theorem countedBytes_cacheAdd (it : RIter) :
    countedBytes it.keys it.values it.cacheAdd = it.bytesAdd := by
  unfold RIter.cacheAdd RIter.bytesAdd
  split_ifs <;> simp_all [countedBytes]

theorem cacheAdd_length_le (it : RIter) : it.cacheAdd.length ≤ 1 := by
  unfold RIter.cacheAdd
  split_ifs <;> simp

theorem stepsLeft_advance_lt2 (it : RIter) (h : it.cur.valid) :
    it.advance.stepsLeft < it.stepsLeft := by
  obtain ⟨h0, h1⟩ := h
  unfold RIter.advance RIter.stepsLeft Cursor.fwd Cursor.bwd
  split <;> simp <;> omega

theorem not_valid_of_stepsLeft_zero (it : RIter) (h : it.stepsLeft = 0) :
    ¬ it.cur.valid := by
  intro hval
  obtain ⟨h0, h1⟩ := hval
  unfold RIter.stepsLeft at h
  rcases hr : it.reverse with _ | _ <;> rw [hr] at h <;> simp at h <;> omega

/-- The batch loop: the result's mode fields are those of the input;
the final cache extends the input cache by a tail `tl`; the loop
reports a cut (`true`) only when the accumulated byte count strictly
exceeds the high-water mark or the cache has reached the requested
size; no strict intermediate stage had already reached a cut point; and
it reports `false` only when it stopped because the iterator left its
range or exceeded its non-negative limit. -/
theorem readManyGo_spec : ∀ (n : Nat) (it : RIter) (size bytes : Nat),
    it.stepsLeft ≤ n →
    ((readManyGo it size bytes).1.keys = it.keys ∧
     (readManyGo it size bytes).1.values = it.values ∧
     (readManyGo it size bytes).1.highWaterMarkBytes = it.highWaterMarkBytes) ∧
    (∃ tl, (readManyGo it size bytes).1.cache = it.cache ++ tl ∧
      ((readManyGo it size bytes).2 = true →
        bytes + countedBytes it.keys it.values tl > it.highWaterMarkBytes ∨
        size ≤ it.cache.length + tl.length) ∧
      (∀ j, 0 < j → j < tl.length →
        bytes + countedBytes it.keys it.values (tl.take j) ≤ it.highWaterMarkBytes ∧
        it.cache.length + j < size)) ∧
    ((readManyGo it size bytes).2 = false →
      ¬ (readManyGo it size bytes).1.bvalid ∨
      (0 ≤ (readManyGo it size bytes).1.limit ∧
        (readManyGo it size bytes).1.limit < (readManyGo it size bytes).1.count)) := by
  intro n
  induction n with
  | zero =>
    intro it size bytes hle
    have hnv : ¬ it.bvalid := fun hb =>
      not_valid_of_stepsLeft_zero it (Nat.le_zero.mp hle) hb.1
    rw [readManyGo, dif_neg hnv]
    exact ⟨⟨rfl, rfl, rfl⟩, ⟨[], by simp, by simp, fun j hj0 hj1 => absurd hj1 (by simp)⟩,
      fun _ => Or.inl hnv⟩
  | succ n ih =>
    intro it size bytes hle
    by_cases hv : it.bvalid
    · rw [readManyGo, dif_pos hv]
      by_cases hinc : it.limit < 0 ∨ it.count + 1 ≤ it.limit
      · rw [if_pos hinc]
        set it1 : RIter :=
          { it with count := if it.limit < 0 then it.count else it.count + 1 } with hit1
        set it2 : RIter := { it1 with cache := it1.cache ++ it1.cacheAdd } with hit2
        by_cases hcut : bytes + it1.bytesAdd > it.highWaterMarkBytes ∨
            size ≤ it2.cache.length
        · rw [if_pos hcut]
          refine ⟨⟨rfl, rfl, rfl⟩, ⟨it1.cacheAdd, rfl, fun _ => ?_, fun j hj0 hj1 => ?_⟩,
            fun hfl => by simp at hfl⟩
          · rcases hcut with h | h
            · left
              have hcb : countedBytes it.keys it.values it1.cacheAdd = it1.bytesAdd :=
                countedBytes_cacheAdd it1
              omega
            · right
              have : it2.cache.length = it.cache.length + it1.cacheAdd.length := by
                rw [hit2]
                simp
              omega
          · have := cacheAdd_length_le it1
            omega
        · rw [if_neg hcut]
          push_neg at hcut
          obtain ⟨hbytes, hlen⟩ := hcut
          have hlen2 : it2.cache.length = it.cache.length + it1.cacheAdd.length := by
            rw [hit2]; simp
          have hstep : it2.advance.stepsLeft ≤ n := by
            have hlt : it2.advance.stepsLeft < it2.stepsLeft := stepsLeft_advance_lt2 it2 hv.1
            have heq : it2.stepsLeft = it.stepsLeft := rfl
            omega
          obtain ⟨⟨ihk, ihv, ihh⟩, ⟨tlr, ihc, ihcut, ihmin⟩, ihe⟩ := ih it2.advance size
            (bytes + it1.bytesAdd) hstep
          have hcb : countedBytes it.keys it.values it1.cacheAdd = it1.bytesAdd :=
            countedBytes_cacheAdd it1
          rw [show it2.advance.keys = it.keys from rfl,
            show it2.advance.values = it.values from rfl,
            show it2.advance.highWaterMarkBytes = it.highWaterMarkBytes from rfl,
            show it2.advance.cache = it2.cache from rfl, hlen2] at ihcut ihmin
          refine ⟨⟨ihk, ihv, ihh⟩, ⟨it1.cacheAdd ++ tlr, ?_, ?_, ?_⟩, ihe⟩
          · rw [ihc]
            simp [RIter.advance, hit2]
          · intro hfl
            have h := ihcut hfl
            rw [countedBytes_append, hcb]
            rcases h with h | h
            · left
              omega
            · right
              simp only [List.length_append]
              omega
          · intro j hj0 hj1
            rw [List.take_append_eq_append_take, countedBytes_append]
            rw [hlen2] at hlen
            by_cases hsplit : j ≤ it1.cacheAdd.length
            · have hj : j = it1.cacheAdd.length := by
                have := cacheAdd_length_le it1
                omega
              rw [hj, List.take_length, Nat.sub_self]
              have hz : countedBytes it.keys it.values (List.take 0 tlr) = 0 := by
                simp [countedBytes]
              rw [hz, hcb]
              omega
            · push_neg at hsplit
              rw [List.take_of_length_le (by omega), hcb]
              have hjlt : j - it1.cacheAdd.length < tlr.length := by
                simp only [List.length_append] at hj1
                omega
              have hIH := ihmin (j - it1.cacheAdd.length) (by omega) hjlt
              constructor
              · omega
              · omega
      · rw [if_neg hinc]
        push_neg at hinc
        refine ⟨⟨rfl, rfl, rfl⟩, ⟨[], by simp, by simp, fun j hj0 hj1 => absurd hj1 (by simp)⟩,
          fun _ => Or.inr ⟨hinc.1, ?_⟩⟩
        have h2 := hinc.2
        rw [if_neg (by omega : ¬ it.limit < 0)]
        show it.limit < it.count + 1
        omega
    · rw [readManyGo, dif_neg hv]
      exact ⟨⟨rfl, rfl, rfl⟩, ⟨[], by simp, by simp, fun j hj0 hj1 => absurd hj1 (by simp)⟩,
        fun _ => Or.inl hv⟩

/-- `Iterator::ReadMany` itself (cache cleared, `first_` consumed):
cut-soundness, no-earlier-cut-point, and exhaustion conditions, with
the byte measure the code accumulates. -/
theorem readMany_spec (it : RIter) (size : Nat) :
    ((it.readMany size).2 = true →
      countedBytes it.keys it.values (it.readMany size).1.cache > it.highWaterMarkBytes ∨
      size ≤ (it.readMany size).1.cache.length) ∧
    (∀ j, 0 < j → j < (it.readMany size).1.cache.length →
      countedBytes it.keys it.values ((it.readMany size).1.cache.take j)
        ≤ it.highWaterMarkBytes ∧ j < size) ∧
    ((it.readMany size).2 = false →
      ¬ (it.readMany size).1.bvalid ∨
      (0 ≤ (it.readMany size).1.limit ∧
        (it.readMany size).1.limit < (it.readMany size).1.count)) := by
  have main : ∀ seed : RIter, seed.keys = it.keys → seed.values = it.values →
      seed.highWaterMarkBytes = it.highWaterMarkBytes → seed.cache = [] →
      ∀ r : RIter × Bool, r = readManyGo seed size 0 →
        (r.2 = true → countedBytes it.keys it.values r.1.cache > it.highWaterMarkBytes ∨
          size ≤ r.1.cache.length) ∧
        (∀ j, 0 < j → j < r.1.cache.length →
          countedBytes it.keys it.values (r.1.cache.take j) ≤ it.highWaterMarkBytes ∧
          j < size) ∧
        (r.2 = false → ¬ r.1.bvalid ∨ (0 ≤ r.1.limit ∧ r.1.limit < r.1.count)) := by
    intro seed hk hv hh hc0 r hr
    obtain ⟨⟨hk1, hv1, hh1⟩, ⟨tl, hc, hcut, hmin⟩, he⟩ :=
      readManyGo_spec seed.stepsLeft seed size 0 le_rfl
    subst hr
    rw [hc0] at hc hcut hmin
    rw [hk, hv, hh] at hcut hmin
    simp only [List.nil_append] at hc
    simp only [List.length_nil, Nat.zero_add] at hcut hmin
    refine ⟨?_, ?_, he⟩
    · intro hfl
      rcases hcut hfl with h | h
      · left
        rw [hc]
        omega
      · right
        rw [hc]
        omega
    · intro j hj0 hj1
      rw [hc] at hj1 ⊢
      have hm := hmin j hj0 hj1
      exact ⟨by omega, hm.2⟩
  have h0 : it.readMany size
      = readManyGo (if it.first = true then { it with cache := [], first := false }
          else ({ it with cache := [] } : RIter).advance) size 0 := rfl
  refine main _ ?_ ?_ ?_ ?_ (it.readMany size) h0
  · by_cases hf : it.first = true <;> simp [hf, RIter.advance]
  · by_cases hf : it.first = true <;> simp [hf, RIter.advance]
  · by_cases hf : it.first = true <;> simp [hf, RIter.advance]
  · by_cases hf : it.first = true <;> simp [hf, RIter.advance]

/-- C8 (amended): a batch is cut short (`true`) exactly by the byte
high-water mark or the requested count, where the bytes counted toward
the mark are those the code accumulates — key+value bytes when both
keys and values are requested, value bytes in values-only mode, and
nothing in keys-only mode; no strictly earlier point of the batch had
already exceeded the mark or the count by this measure; otherwise the
batch ends with `false` only because the iterator left its range or
exceeded its non-negative limit, and the next-batch worker reports that
to the callback as a success (null error) carrying `finished = true`,
never as an error while the engine status is OK. -/
theorem C8_batch_cut_bytes_and_exhaustion (it : RIter) (size : Nat) :
    ((it.readMany size).2 = true →
      countedBytes it.keys it.values (it.readMany size).1.cache > it.highWaterMarkBytes ∨
      size ≤ (it.readMany size).1.cache.length) ∧
    (∀ j, 0 < j → j < (it.readMany size).1.cache.length →
      countedBytes it.keys it.values ((it.readMany size).1.cache.take j)
        ≤ it.highWaterMarkBytes ∧ j < size) ∧
    ((it.readMany size).2 = false →
      ¬ (it.readMany size).1.bvalid ∨
      (0 ≤ (it.readMany size).1.limit ∧
        (it.readMany size).1.limit < (it.readMany size).1.count)) ∧
    (∀ itw : RIter,
      (((if itw.didSeek then itw else itw.seekToRange).readMany size).2 = false →
        ((if itw.didSeek then itw else itw.seekToRange).readMany size).1.cur.statusOk = true →
        (iterNextWorkerRun itw size).2 = (none, true)) ∧
      (((if itw.didSeek then itw else itw.seekToRange).readMany size).2 = true →
        (iterNextWorkerRun itw size).2 = (none, false))) := by
  obtain ⟨h1, h2, h3⟩ := readMany_spec it size
  refine ⟨h1, h2, h3, ?_⟩
  intro itw
  constructor
  · intro hfl hst
    simp only [iterNextWorkerRun, hfl, hst]
    simp
  · intro hfl
    simp only [iterNextWorkerRun, hfl]
    simp

/-- C8 counterexample: reading a batch of 2 from `c8Iter` returns BOTH
entries even though the accumulated key+value bytes of the entries read
already exceed the high-water mark (0) after the first entry — in
keys-only mode the code counts no bytes at all, so the claimed
"whichever comes first" byte cut never fires. -/
theorem C8_counterexample :
    (c8Iter.readMany 2).2 = true ∧
    (c8Iter.readMany 2).1.cache.length = 2 ∧
    claimBytes ((c8Iter.readMany 2).1.cache.take 1) > c8Iter.highWaterMarkBytes ∧
    (1 : Nat) < 2 := by
  have h : c8Iter.readMany 2
      = ({ c8Iter with
            first := false
            cache := [([97], []), ([99], [])]
            cur := { entries := [([97], [98]), ([99], [100])], pos := 1,
                     statusOk := true } }, true) := by
    unfold RIter.readMany
    rw [readManyGo]
    simp [c8Iter, RIter.bvalid, Cursor.valid, Cursor.key, Cursor.val, outOfRange,
      upperExcludes, lowerExcludes, RIter.cacheAdd, RIter.bytesAdd, RIter.advance,
      Cursor.fwd]
    rw [readManyGo]
    simp [RIter.bvalid, Cursor.valid, Cursor.key, Cursor.val, outOfRange,
      upperExcludes, lowerExcludes, RIter.cacheAdd, RIter.bytesAdd, RIter.advance,
      Cursor.fwd]
  rw [h]
  exact ⟨rfl, rfl, by decide, by decide⟩

/-- Witness for the amended C8 at `c8Iter`: the batch was cut by the
requested count, every strict intermediate stage was below both cut
conditions by the code's byte measure, and the worker reports a cut
batch as success/unfinished. -/
theorem C8_witness :
    ((c8Iter.readMany 2).2 = true →
      countedBytes c8Iter.keys c8Iter.values (c8Iter.readMany 2).1.cache
        > c8Iter.highWaterMarkBytes ∨ 2 ≤ (c8Iter.readMany 2).1.cache.length) ∧
    ((c8Iter.readMany 2).2 = true →
      (iterNextWorkerRun c8Iter 2).2 = (none, false)) :=
  ⟨(C8_batch_cut_bytes_and_exhaustion c8Iter 2).1,
   fun hfl => ((C8_batch_cut_bytes_and_exhaustion c8Iter 2).2.2.2 c8Iter).2
     (by rw [if_pos (show c8Iter.didSeek = true from rfl)]; exact hfl)⟩

/-! ### C9: connection versus hasClosed -/

theorem pushEv_db (s : Sys) (w : WKind) : (pushEv s w).db = s.db := rfl

theorem pushW_db (s : Sys) (w : WKind) : (pushW s w).db = s.db := rfl

theorem pushWs_db (s : Sys) (ws : List WKind) : (pushWs s ws).db = s.db := rfl

theorem abortSys_db (s : Sys) : (abortSys s).db = s.db := rfl

theorem setTran_db (s : Sys) (t : Nat) (f : TranSt → TranSt) :
    (setTran s t f).db = s.db := rfl

theorem setSnap_db (s : Sys) (i : Nat) (f : SnapSt → SnapSt) :
    (setSnap s i f).db = s.db := rfl

theorem setIter_db (s : Sys) (o : Owner) (i : Nat) (f : IterSt → IterSt) :
    (setIter s o i f).db = s.db := by cases o <;> rfl

/-- `dbDecr` only touches the counter and the deferred slot. -/
theorem dbDecr_db_core (s : Sys) :
    (dbDecr s).db.hasClosed = s.db.hasClosed ∧
    (dbDecr s).db.releases = s.db.releases ∧
    (dbDecr s).db.conn = s.db.conn := by
  unfold dbDecr
  simp only []
  split_ifs <;> exact ⟨rfl, rfl, rfl⟩

theorem tranDecr_db (s : Sys) (t : Nat) : (tranDecr s t).db = s.db := by
  unfold tranDecr
  rcases getA t s.trans with _ | tr
  · rfl
  · simp only []
    split_ifs <;> rfl

theorem detachIter_db_core (s : Sys) (o : Owner) (i : Nat) :
    (detachIter s o i).db.hasClosed = s.db.hasClosed ∧
    (detachIter s o i).db.releases = s.db.releases ∧
    (detachIter s o i).db.conn = s.db.conn := by
  unfold detachIter
  rcases getIter s o i with _ | it
  · exact ⟨rfl, rfl, rfl⟩
  · simp only []
    split_ifs with ha
    · cases o with
      | root =>
        have h := dbDecr_db_core (setIter s .root i fun x => { x with attached := false })
        rw [setIter_db] at h
        exact h
      | tran t =>
        rw [tranDecr_db, setIter_db]
        exact ⟨rfl, rfl, rfl⟩
    · exact ⟨rfl, rfl, rfl⟩

theorem detachTran_db_core (s : Sys) (t : Nat) :
    (detachTran s t).db.hasClosed = s.db.hasClosed ∧
    (detachTran s t).db.releases = s.db.releases ∧
    (detachTran s t).db.conn = s.db.conn := by
  unfold detachTran
  rcases getA t s.trans with _ | tr
  · exact ⟨rfl, rfl, rfl⟩
  · simp only []
    split_ifs with ha
    · have h := dbDecr_db_core (setTran s t fun x => { x with attached := false })
      rw [setTran_db] at h
      exact h
    · exact ⟨rfl, rfl, rfl⟩

theorem detachSnap_db_core (s : Sys) (i : Nat) :
    (detachSnap s i).db.hasClosed = s.db.hasClosed ∧
    (detachSnap s i).db.releases = s.db.releases ∧
    (detachSnap s i).db.conn = s.db.conn := by
  unfold detachSnap
  rcases getA i s.snaps with _ | sp
  · exact ⟨rfl, rfl, rfl⟩
  · simp only []
    split_ifs with ha
    · have h := dbDecr_db_core (setSnap s i fun x => { x with attached := false })
      rw [setSnap_db] at h
      exact h
    · exact ⟨rfl, rfl, rfl⟩

/-- Every action except running the `CloseWorker` or the `OpenWorker`
leaves `hasClosed_`, the release count and the connection untouched. -/
theorem applyAct_db_core (s : Sys) (a : Act)
    (h1 : a ≠ .run .dbClose) (h2 : ∀ ok, a ≠ .run (.dbOpen ok)) :
    (applyAct s a).db.hasClosed = s.db.hasClosed ∧
    (applyAct s a).db.releases = s.db.releases ∧
    (applyAct s a).db.conn = s.db.conn := by
  cases a with
  | dbOpen ok => exact ⟨rfl, rfl, rfl⟩
  | dbClose =>
    simp only [applyAct]
    unfold reqDbClose
    simp only []
    split_ifs <;> exact ⟨rfl, rfl, rfl⟩
  | dbPriority op =>
    simp only [applyAct]
    unfold reqDbPriority
    split_ifs <;> exact ⟨rfl, rfl, rfl⟩
  | iterInit =>
    simp only [applyAct]
    unfold reqIterInit
    split_ifs <;> exact ⟨rfl, rfl, rfl⟩
  | tranInit =>
    simp only [applyAct]
    unfold reqTranInit
    split_ifs <;> exact ⟨rfl, rfl, rfl⟩
  | snapInit =>
    simp only [applyAct]
    unfold reqSnapInit
    split_ifs <;> exact ⟨rfl, rfl, rfl⟩
  | tranIterInit t =>
    simp only [applyAct]
    unfold reqTranIterInit
    rcases getA t s.trans with _ | tr
    · exact ⟨rfl, rfl, rfl⟩
    · simp only []
      split_ifs <;> exact ⟨rfl, rfl, rfl⟩
  | iterClose o i =>
    simp only [applyAct]
    unfold reqIterClose iterCloseDo
    rcases getIter s o i with _ | it
    · exact ⟨rfl, rfl, rfl⟩
    · simp only []
      split_ifs with ha hb
      · exact ⟨rfl, rfl, rfl⟩
      · have hd : (setIter s o i fun x =>
            { x with isClosing := true, closeSlot := true }).db = s.db := setIter_db ..
        exact ⟨congrArg DbSt.hasClosed hd, congrArg DbSt.releases hd,
          congrArg DbSt.conn hd⟩
      · have hd : (pushW (setIter s o i fun x => { x with isClosing := true })
            (WKind.iterClose o i)).db = s.db := by
          rw [pushW_db, setIter_db]
        exact ⟨congrArg DbSt.hasClosed hd, congrArg DbSt.releases hd,
          congrArg DbSt.conn hd⟩
  | iterNextv o i =>
    simp only [applyAct]
    unfold reqIterNextv
    rcases getIter s o i with _ | it
    · exact ⟨rfl, rfl, rfl⟩
    · simp only []
      split_ifs with h
      · exact ⟨rfl, rfl, rfl⟩
      · have hd : (pushW (setIter s o i fun x => { x with nexting := true })
            (WKind.iterNext o i)).db = s.db := by
          rw [pushW_db, setIter_db]
        exact ⟨congrArg DbSt.hasClosed hd, congrArg DbSt.releases hd,
          congrArg DbSt.conn hd⟩
  | iterSeek o i =>
    simp only [applyAct]
    unfold reqIterSeek
    rcases getIter s o i with _ | it
    · exact ⟨rfl, rfl, rfl⟩
    · simp only []
      split_ifs with h
      · exact ⟨rfl, rfl, rfl⟩
      · have hd : (setIter s o i fun x => { x with first := true }).db = s.db :=
          setIter_db ..
        exact ⟨congrArg DbSt.hasClosed hd, congrArg DbSt.releases hd,
          congrArg DbSt.conn hd⟩
  | tranCommit t =>
    simp only [applyAct]
    unfold reqTranCommit
    rcases getA t s.trans with _ | tr
    · exact ⟨rfl, rfl, rfl⟩
    · simp only []
      split_ifs <;> exact ⟨rfl, rfl, rfl⟩
  | tranRollback t =>
    simp only [applyAct]
    unfold reqTranRollback tranRollbackDo
    rcases getA t s.trans with _ | tr
    · exact ⟨rfl, rfl, rfl⟩
    · simp only []
      split_ifs <;> exact ⟨rfl, rfl, rfl⟩
  | tranOp t op =>
    simp only [applyAct]
    unfold reqTranOp
    rcases getA t s.trans with _ | tr
    · exact ⟨rfl, rfl, rfl⟩
    · simp only []
      split_ifs <;> exact ⟨rfl, rfl, rfl⟩
  | tranOpThrow t op =>
    simp only [applyAct]
    unfold reqTranOpThrow
    rcases getA t s.trans with _ | tr
    · exact ⟨rfl, rfl, rfl⟩
    · simp only []
      split_ifs <;> exact ⟨rfl, rfl, rfl⟩
  | tranSnapshot t =>
    simp only [applyAct]
    unfold reqTranSnapshot
    rcases getA t s.trans with _ | tr
    · exact ⟨rfl, rfl, rfl⟩
    · simp only []
      split_ifs <;> exact ⟨rfl, rfl, rfl⟩
  | tranMultiGet t fu =>
    simp only [applyAct]
    unfold reqTranMultiGet
    rcases getA t s.trans with _ | tr
    · exact ⟨rfl, rfl, rfl⟩
    · simp only []
      split_ifs <;> exact ⟨rfl, rfl, rfl⟩
  | snapRelease i =>
    simp only [applyAct]
    unfold reqSnapRelease
    rcases getA i s.snaps with _ | sp
    · exact ⟨rfl, rfl, rfl⟩
    · simp only []
      split_ifs <;> exact ⟨rfl, rfl, rfl⟩
  | run w =>
    cases w with
    | dbOpen ok => exact absurd rfl (h2 ok)
    | dbClose => exact absurd rfl h1
    | dbPriority op =>
      simp only [applyAct]
      unfold runW
      simp only []
      split_ifs with h
      · exact ⟨rfl, rfl, rfl⟩
      · exact dbDecr_db_core (pushEv
          { s with queue := s.queue.erase (WKind.dbPriority op) } (.dbPriority op))
    | iterClose o i =>
      simp only [applyAct]
      unfold runW
      simp only []
      have hX : (pushEv (setIter { s with queue := s.queue.erase (WKind.iterClose o i) }
          o i fun x => { x with hasClosed := true }) (WKind.iterClose o i)).db = s.db := by
        rw [pushEv_db, setIter_db]
      have h := detachIter_db_core (pushEv (setIter
        { s with queue := s.queue.erase (WKind.iterClose o i) } o i
        fun x => { x with hasClosed := true }) (WKind.iterClose o i)) o i
      rw [hX] at h
      exact h
    | iterNext o i =>
      simp only [applyAct]
      unfold runW
      simp only []
      rcases getIter { s with queue := s.queue.erase (WKind.iterNext o i) } o i with _ | it
      · exact ⟨rfl, rfl, rfl⟩
      · simp only []
        split_ifs with ha hb
        · exact ⟨rfl, rfl, rfl⟩
        · have hd : (pushW (setIter (setIter (pushEv
              { s with queue := s.queue.erase (WKind.iterNext o i) } (WKind.iterNext o i))
              o i fun x => { x with nexting := false }) o i
              fun x => { x with closeSlot := false }) (WKind.iterClose o i)).db = s.db := by
            rw [pushW_db, setIter_db, setIter_db, pushEv_db]
          exact ⟨congrArg DbSt.hasClosed hd, congrArg DbSt.releases hd,
            congrArg DbSt.conn hd⟩
        · have hd : (setIter (pushEv
              { s with queue := s.queue.erase (WKind.iterNext o i) } (WKind.iterNext o i))
              o i fun x => { x with nexting := false }).db = s.db := by
            rw [setIter_db, pushEv_db]
          exact ⟨congrArg DbSt.hasClosed hd, congrArg DbSt.releases hd,
            congrArg DbSt.conn hd⟩
    | tranCommit t =>
      simp only [applyAct]
      unfold runW
      simp only []
      rcases getA t s.trans with _ | tr
      · exact ⟨rfl, rfl, rfl⟩
      · simp only []
        split_ifs with hr hc
        · exact ⟨rfl, rfl, rfl⟩
        · exact detachTran_db_core _ t
        · exact detachTran_db_core _ t
    | tranRollback t =>
      simp only [applyAct]
      unfold runW
      simp only []
      rcases getA t s.trans with _ | tr
      · exact ⟨rfl, rfl, rfl⟩
      · simp only []
        split_ifs with hr hc
        · exact ⟨rfl, rfl, rfl⟩
        · exact detachTran_db_core _ t
        · exact detachTran_db_core _ t
    | tranPriority t op =>
      simp only [applyAct]
      unfold runW
      simp only []
      rcases getA t s.trans with _ | tr
      · exact ⟨rfl, rfl, rfl⟩
      · simp only []
        split_ifs
        · exact ⟨rfl, rfl, rfl⟩
        · have h := tranDecr_db (pushEv
            { s with queue := s.queue.erase (WKind.tranPriority t op) } (.tranPriority t op)) t
          exact ⟨congrArg DbSt.hasClosed h, congrArg DbSt.releases h, congrArg DbSt.conn h⟩
    | tranMultiGet t fu =>
      simp only [applyAct]
      unfold runW
      simp only []
      rcases getA t s.trans with _ | tr
      · exact ⟨rfl, rfl, rfl⟩
      · simp only []
        split_ifs
        · exact ⟨rfl, rfl, rfl⟩
        · have h := tranDecr_db (pushEv
            { s with queue := s.queue.erase (WKind.tranMultiGet t fu) } (.tranMultiGet t fu)) t
          exact ⟨congrArg DbSt.hasClosed h, congrArg DbSt.releases h, congrArg DbSt.conn h⟩
    | snapRelease i =>
      simp only [applyAct]
      unfold runW
      simp only []
      rcases getA i s.snaps with _ | sp
      · exact ⟨rfl, rfl, rfl⟩
      · simp only []
        split_ifs with ha hb
        · obtain ⟨d1, d2, d3⟩ := dbDecr_db_core (detachSnap (pushEv
            { s with queue := s.queue.erase (WKind.snapRelease i) } (.snapRelease i)) i)
          obtain ⟨e1, e2, e3⟩ := detachSnap_db_core (pushEv
            { s with queue := s.queue.erase (WKind.snapRelease i) } (.snapRelease i)) i
          exact ⟨d1.trans e1, d2.trans e2, d3.trans e3⟩
        · exact ⟨rfl, rfl, rfl⟩
        · obtain ⟨d1, d2, d3⟩ := dbDecr_db_core (detachSnap (pushEv (setSnap
            { s with queue := s.queue.erase (WKind.snapRelease i) } i
            fun x => { x with hasReleased := true }) (.snapRelease i)) i)
          obtain ⟨e1, e2, e3⟩ := detachSnap_db_core (pushEv (setSnap
            { s with queue := s.queue.erase (WKind.snapRelease i) } i
            fun x => { x with hasReleased := true }) (.snapRelease i)) i
          exact ⟨d1.trans e1, d2.trans e2, d3.trans e3⟩

/-- The `OpenWorker` only sets the connection pointer; it never touches
`hasClosed_` or releases anything. -/
theorem runW_dbOpen_db (s : Sys) (ok : Bool) :
    (runW s (.dbOpen ok)).db.hasClosed = s.db.hasClosed ∧
    (runW s (.dbOpen ok)).db.releases = s.db.releases := by
  unfold runW
  simp only []
  split_ifs <;> exact ⟨rfl, rfl⟩

/-- `Database::Close` behaviour of the `CloseWorker`: on the first run
it sets `hasClosed_`, nulls the connection and counts one release iff a
connection was attached; a second run leaves the database untouched. -/
theorem runW_dbClose_db (s : Sys) :
    (runW s .dbClose).db.hasClosed = true ∧
    (s.db.hasClosed = false →
      (runW s .dbClose).db.conn = false ∧
      (runW s .dbClose).db.releases
        = s.db.releases + (if s.db.conn then 1 else 0)) ∧
    (s.db.hasClosed = true → (runW s .dbClose).db = s.db) := by
  unfold runW
  simp only []
  by_cases h : s.db.hasClosed = true
  · rw [if_pos h]
    refine ⟨h, fun hc => ?_, fun _ => rfl⟩
    rw [hc] at h
    exact absurd h (by decide)
  · rw [if_neg h]
    exact ⟨rfl, fun _ => ⟨rfl, rfl⟩, fun hc => absurd hc h⟩

/-- Reachable states release the connection at most once, and never
before `hasClosed_` is set. -/
theorem db_release_invariant (s : Sys) (h : Reach initSys s) :
    s.db.releases ≤ 1 ∧ (s.db.hasClosed = false → s.db.releases = 0) := by
  induction h with
  | refl => exact ⟨Nat.zero_le 1, fun _ => rfl⟩
  | tail hab hbc ih =>
    rename_i b c
    obtain ⟨a, hallow, rfl⟩ := hbc
    by_cases hdc : a = .run .dbClose
    · subst hdc
      obtain ⟨hcl, hfresh, hidem⟩ := runW_dbClose_db b
      by_cases hb : b.db.hasClosed = true
      · have hdb := hidem hb
        show (runW b .dbClose).db.releases ≤ 1 ∧
          ((runW b .dbClose).db.hasClosed = false → (runW b .dbClose).db.releases = 0)
        rw [hdb]
        exact ih
      · have hb' : b.db.hasClosed = false := by
          cases hbb : b.db.hasClosed
          · rfl
          · exact absurd hbb hb
        obtain ⟨hconn, hrel⟩ := hfresh hb'
        have hz := ih.2 hb'
        constructor
        · show (runW b .dbClose).db.releases ≤ 1
          rw [hrel, hz]
          split_ifs <;> decide
        · intro hf
          have : (runW b .dbClose).db.hasClosed = true := hcl
          rw [show (applyAct b (Act.run WKind.dbClose)).db.hasClosed
            = (runW b .dbClose).db.hasClosed from rfl, this] at hf
          exact absurd hf (by decide)
    · by_cases hdo : ∃ ok, a = .run (.dbOpen ok)
      · obtain ⟨ok, rfl⟩ := hdo
        obtain ⟨e1, e2⟩ := runW_dbOpen_db b ok
        refine ⟨?_, fun hf => ?_⟩
        · show (runW b (.dbOpen ok)).db.releases ≤ 1
          rw [e2]
          exact ih.1
        · show (runW b (.dbOpen ok)).db.releases = 0
          rw [e2]
          exact ih.2 (by rw [show (applyAct b (Act.run (WKind.dbOpen ok))).db.hasClosed
            = (runW b (.dbOpen ok)).db.hasClosed from rfl, e1] at hf; exact hf)
      · obtain ⟨e1, e2, e3⟩ := applyAct_db_core b a hdc (fun ok he => hdo ⟨ok, he⟩)
        refine ⟨?_, fun hf => ?_⟩
        · rw [e2]
          exact ih.1
        · rw [e1] at hf
          rw [e2]
          exact ih.2 hf

/-- **C9** (corrected): the claimed invariant "engine connection
non-null iff `hasClosed_` is false" does not hold — in the reachable
created-but-not-yet-opened state the connection is null while
`hasClosed_` is still false. -/
theorem C9_counterexample :
    Reach initSys initSys ∧
    ¬(initSys.db.conn = true ↔ initSys.db.hasClosed = false) :=
  ⟨Relation.ReflTransGen.refl, by decide⟩

/-- **C9** (amended): in every reachable state the connection is
released at most once and never before `hasClosed_` is set; the
`CloseWorker` transition sets `hasClosed_` (idempotently), and on its
first run it nulls the connection and counts exactly one release iff a
connection was attached, while a run on an already-closed database
leaves the database state untouched. -/
theorem C9_close_idempotent_release_once (s : Sys) (h : Reach initSys s) :
    (s.db.releases ≤ 1 ∧ (s.db.hasClosed = false → s.db.releases = 0)) ∧
    (runW s .dbClose).db.hasClosed = true ∧
    (s.db.hasClosed = false →
      (runW s .dbClose).db.conn = false ∧
      (runW s .dbClose).db.releases
        = s.db.releases + (if s.db.conn then 1 else 0)) ∧
    (s.db.hasClosed = true → (runW s .dbClose).db = s.db) :=
  ⟨db_release_invariant s h, runW_dbClose_db s⟩

/-- **C9** witness: the amended theorem applied at the initial state. -/
theorem C9_witness :
    Reach initSys initSys ∧
    ((initSys.db.releases ≤ 1 ∧
      (initSys.db.hasClosed = false → initSys.db.releases = 0)) ∧
     (runW initSys .dbClose).db.hasClosed = true ∧
     (initSys.db.hasClosed = false →
       (runW initSys .dbClose).db.conn = false ∧
       (runW initSys .dbClose).db.releases
         = initSys.db.releases + (if initSys.db.conn then 1 else 0)) ∧
     (initSys.db.hasClosed = true → (runW initSys .dbClose).db = initSys.db)) :=
  ⟨Relation.ReflTransGen.refl,
   C9_close_idempotent_release_once initSys Relation.ReflTransGen.refl⟩

/-! ### Registry and queue counting lemmas -/

theorem allowed_not_aborted (s : Sys) (a : Act) (h : allowedAct s a = true) :
    s.aborted = false := by
  unfold allowedAct at h
  rw [Bool.and_eq_true] at h
  cases hs : s.aborted
  · rfl
  · rw [hs] at h
    exact absurd h.1 (by decide)

theorem allowed_run_mem (s : Sys) (w : WKind) (h : allowedAct s (.run w) = true) :
    w ∈ s.queue := by
  unfold allowedAct at h
  rw [Bool.and_eq_true] at h
  simpa using h.2

theorem getA_mem {α : Type} (k : Nat) (v : α) :
    ∀ l : List (Nat × α), getA k l = some v → (k, v) ∈ l := by
  intro l
  induction l with
  | nil => intro h; exact absurd h (by simp [getA])
  | cons p r ih =>
    intro h
    rcases p with ⟨a, b⟩
    simp only [getA] at h
    by_cases hp : a = k
    · subst hp
      rw [if_pos rfl] at h
      cases h
      exact List.mem_cons_self _ _
    · rw [if_neg hp] at h
      exact List.mem_cons_of_mem _ (ih h)

theorem getA_append_some {α : Type} (k : Nat) (v : α) (l l' : List (Nat × α))
    (h : getA k l = some v) : getA k (l ++ l') = some v := by
  induction l with
  | nil => exact absurd h (by simp [getA])
  | cons p r ih =>
    rw [List.cons_append]
    simp only [getA] at h ⊢
    by_cases hp : p.1 = k
    · rwa [if_pos hp] at h ⊢
    · rw [if_neg hp] at h ⊢
      exact ih h

theorem getA_map_key {α β : Type} (k : Nat) (f : Nat × α → Nat × β)
    (hf : ∀ p, (f p).1 = p.1) :
    ∀ l : List (Nat × α),
      getA k (l.map f) = (getA k l).map fun v => (f (k, v)).2 := by
  intro l
  induction l with
  | nil => rfl
  | cons p r ih =>
    rcases p with ⟨a, b⟩
    rw [List.map_cons]
    simp only [getA]
    by_cases hp : a = k
    · subst hp
      rw [if_pos (hf (a, b)), if_pos rfl]
      rfl
    · rw [if_neg (by rw [hf (a, b)]; exact hp), if_neg hp]
      exact ih

theorem attA_updA {α : Type} (att : α → Bool) (k j : Nat) (f : α → α)
    (l : List (Nat × α)) (h : ∀ x, att (f x) = att x) :
    attA att k (updA j f l) = attA att k l := by
  unfold attA
  by_cases hj : j = k
  · subst hj
    rw [getA_updA]
    cases getA j l
    · rfl
    · exact h _
  · rw [getA_updA_ne _ _ _ _ fun he => hj he.symm]

theorem attA_append_of_true {α : Type} (att : α → Bool) (k : Nat)
    (l l' : List (Nat × α)) (h : attA att k l = true) :
    attA att k (l ++ l') = true := by
  unfold attA at h ⊢
  rcases hg : getA k l with _ | v
  · rw [hg] at h
    exact absurd h Bool.false_ne_true
  · rw [hg] at h
    rw [getA_append_some k v l l' hg]
    exact h

theorem attA_map {α : Type} (att : α → Bool) (k : Nat) (f : Nat × α → Nat × α)
    (l : List (Nat × α)) (hf : ∀ p, (f p).1 = p.1 ∧ att (f p).2 = att p.2) :
    attA att k (l.map f) = attA att k l := by
  unfold attA
  rw [getA_map_key k f (fun p => (hf p).1) l]
  cases getA k l
  · rfl
  · exact (hf _).2

theorem attA_pos {α : Type} (att : α → Bool) (k : Nat) (l : List (Nat × α))
    (h : attA att k l = true) : 1 ≤ cntAtt att l := by
  unfold attA at h
  rcases hg : getA k l with _ | v
  · rw [hg] at h
    exact absurd h Bool.false_ne_true
  · rw [hg] at h
    have hm : (k, v) ∈ l.filter fun p => att p.2 :=
      List.mem_filter.mpr ⟨getA_mem k v l hg, h⟩
    exact List.length_pos.mpr (List.ne_nil_of_mem hm)

theorem cntAtt_append {α : Type} (att : α → Bool) (l l' : List (Nat × α)) :
    cntAtt att (l ++ l') = cntAtt att l + cntAtt att l' := by
  unfold cntAtt
  rw [List.filter_append, List.length_append]

theorem cntAtt_updA {α : Type} (att : α → Bool) (k : Nat) (f : α → α)
    (l : List (Nat × α)) (h : ∀ x, att (f x) = att x) :
    cntAtt att (updA k f l) = cntAtt att l := by
  induction l with
  | nil => rfl
  | cons p r ih =>
    unfold updA
    by_cases hp : p.1 = k
    · rw [if_pos hp]
      unfold cntAtt
      rw [List.filter_cons, List.filter_cons]
      simp only [h p.2]
      split_ifs <;> rfl
    · rw [if_neg hp]
      unfold cntAtt at ih ⊢
      rw [List.filter_cons, List.filter_cons]
      split_ifs <;> simp only [List.length_cons, ih]

theorem cntAtt_map {α : Type} (att : α → Bool) (f : Nat × α → Nat × α)
    (l : List (Nat × α)) (hf : ∀ p, att (f p).2 = att p.2) :
    cntAtt att (l.map f) = cntAtt att l := by
  induction l with
  | nil => rfl
  | cons p r ih =>
    rw [List.map_cons]
    unfold cntAtt at ih ⊢
    rw [List.filter_cons, List.filter_cons, hf p]
    split_ifs <;> simp only [List.length_cons, ih]

theorem cntAtt_updA_detach {α : Type} (att : α → Bool) (k : Nat) (f : α → α)
    (v : α) (hdet : ∀ x, att (f x) = false) :
    ∀ l : List (Nat × α), getA k l = some v → att v = true →
      cntAtt att (updA k f l) + 1 = cntAtt att l := by
  intro l
  induction l with
  | nil => intro h; exact absurd h (by simp [getA])
  | cons p r ih =>
    intro hg hv
    simp only [getA] at hg
    unfold updA
    by_cases hp : p.1 = k
    · rw [if_pos hp] at hg ⊢
      cases hg
      unfold cntAtt
      rw [List.filter_cons, List.filter_cons]
      rw [hdet p.2]
      rw [if_neg Bool.false_ne_true, if_pos hv]
      rfl
    · rw [if_neg hp] at hg ⊢
      unfold cntAtt at ih ⊢
      rw [List.filter_cons, List.filter_cons]
      split_ifs
      · simp only [List.length_cons]
        rw [Nat.succ_add]
        exact congrArg Nat.succ (ih hg hv)
      · exact ih hg hv

theorem cntW_append (pr : WKind → Bool) (q q' : List WKind) :
    cntW pr (q ++ q') = cntW pr q + cntW pr q' := by
  unfold cntW
  rw [List.filter_append, List.length_append]

theorem cntW_all_neg (pr : WKind → Bool) (q : List WKind)
    (h : ∀ w ∈ q, pr w = false) : cntW pr q = 0 := by
  unfold cntW
  rw [List.filter_eq_nil.mpr fun w hw => by rw [h w hw]; decide]
  rfl

theorem cntW_all_pos (pr : WKind → Bool) (q : List WKind)
    (h : ∀ w ∈ q, pr w = true) : cntW pr q = q.length := by
  unfold cntW
  rw [List.filter_eq_self.mpr h]

theorem cntW_erase_neg (pr : WKind → Bool) (w : WKind) (h : pr w = false) :
    ∀ q : List WKind, cntW pr (q.erase w) = cntW pr q := by
  intro q
  induction q with
  | nil => rfl
  | cons a r ih =>
    rw [List.erase_cons]
    by_cases ha : a = w
    · subst ha
      rw [if_pos (by simp)]
      unfold cntW
      rw [List.filter_cons, h]
      rw [if_neg (by decide)]
    · rw [if_neg (by simp [ha])]
      unfold cntW at ih ⊢
      rw [List.filter_cons, List.filter_cons]
      split_ifs <;> simp only [List.length_cons, ih]

theorem cntW_erase_pos (pr : WKind → Bool) (w : WKind) (h : pr w = true) :
    ∀ q : List WKind, w ∈ q → cntW pr (q.erase w) + 1 = cntW pr q := by
  intro q
  induction q with
  | nil => intro hm; exact absurd hm (by simp)
  | cons a r ih =>
    intro hm
    rw [List.erase_cons]
    by_cases ha : a = w
    · subst ha
      rw [if_pos (by simp)]
      unfold cntW
      rw [List.filter_cons, h]
      rw [if_pos (by decide)]
      rfl
    · rw [if_neg (by simp [ha])]
      have hm' : w ∈ r := by
        rcases List.mem_cons.mp hm with he | hr
        · exact absurd he.symm ha
        · exact hr
      unfold cntW at ih ⊢
      rw [List.filter_cons, List.filter_cons]
      split_ifs
      · simp only [List.length_cons]
        rw [Nat.succ_add]
        exact congrArg Nat.succ (ih hm')
      · exact ih hm'

theorem dbDecr_rest (s : Sys) :
    (dbDecr s).events = s.events ∧ (dbDecr s).iters = s.iters ∧
    (dbDecr s).trans = s.trans ∧ (dbDecr s).snaps = s.snaps ∧
    (dbDecr s).aborted = s.aborted ∧
    (dbDecr s).db.pendingWork = s.db.pendingWork - 1 := by
  unfold dbDecr
  simp only []
  split_ifs <;> exact ⟨rfl, rfl, rfl, rfl, rfl, rfl⟩

theorem dbDecr_queue_cases (s : Sys) :
    (dbDecr s).queue = s.queue ∨
      ((dbDecr s).queue = s.queue ++ [WKind.dbClose] ∧
        (dbDecr s).db.pendingWork = 0) := by
  unfold dbDecr
  simp only []
  split_ifs with h
  · exact Or.inr ⟨rfl, h.2⟩
  · exact Or.inl rfl

theorem tranDecr_rest (s : Sys) (t : Nat) :
    (tranDecr s t).events = s.events ∧ (tranDecr s t).iters = s.iters ∧
    (tranDecr s t).snaps = s.snaps ∧ (tranDecr s t).aborted = s.aborted ∧
    cntAtt (fun x => x.attached) (tranDecr s t).trans
      = cntAtt (fun x => x.attached) s.trans ∧
    ∀ k, attA (fun x => x.attached) k (tranDecr s t).trans
      = attA (fun x => x.attached) k s.trans := by
  unfold tranDecr
  rcases getA t s.trans with _ | tr
  · exact ⟨rfl, rfl, rfl, rfl, rfl, fun _ => rfl⟩
  · simp only []
    split_ifs <;>
      exact ⟨rfl, rfl, rfl, rfl, cntAtt_updA _ _ _ _ fun x => rfl,
        fun k => attA_updA _ _ _ _ _ fun x => rfl⟩

theorem tranDecr_queue (s : Sys) (t : Nat) :
    ∃ ws, (∀ w ∈ ws, isDbPri w = false ∧ isSnapRel w = false ∧ w ≠ WKind.dbClose) ∧
      (tranDecr s t).queue = s.queue ++ ws := by
  unfold tranDecr
  rcases getA t s.trans with _ | tr
  · exact ⟨[], fun w hw => absurd hw (List.not_mem_nil w),
      by rw [List.append_nil]⟩
  · simp only []
    split_ifs with h1 h2
    · refine ⟨[WKind.tranCommit t], fun w hw => ?_, rfl⟩
      rcases List.mem_singleton.mp hw with rfl
      exact ⟨rfl, rfl, by intro h; cases h⟩
    · refine ⟨[WKind.tranRollback t], fun w hw => ?_, rfl⟩
      rcases List.mem_singleton.mp hw with rfl
      exact ⟨rfl, rfl, by intro h; cases h⟩
    · exact ⟨[], fun w hw => absurd hw (List.not_mem_nil w),
        by rw [List.append_nil]; rfl⟩

theorem cascadeIters_adds (o : Owner) (l : List (Nat × IterSt)) :
    ∀ w ∈ (cascadeIters o l).2, ∃ i, w = WKind.iterClose o i := by
  intro w hw
  unfold cascadeIters at hw
  rcases List.mem_filterMap.mp hw with ⟨p, _, hp⟩
  unfold iterCloseEntry at hp
  split_ifs at hp
  · cases hp
    exact ⟨p.1, rfl⟩

theorem tranRollbackEntry_adds (p : Nat × TranSt) :
    ∀ w ∈ (tranRollbackEntry p).2,
      w = WKind.tranRollback p.1 ∨ ∃ i, w = WKind.iterClose (.tran p.1) i := by
  intro w hw
  unfold tranRollbackEntry at hw
  split_ifs at hw <;> simp only [] at hw
  · exact Or.inr (cascadeIters_adds _ _ w hw)
  · rcases List.mem_singleton.mp hw with rfl
    exact Or.inl rfl
  · exact absurd hw (List.not_mem_nil w)

theorem snapRelEntry_some (p : Nat × SnapSt) (w : WKind)
    (h : (snapRelEntry p).2 = some w) : w = WKind.snapRelease p.1 := by
  unfold snapRelEntry at h
  split_ifs at h
  · exact (Option.some.inj h).symm

theorem iterCloseEntry_fst (o : Owner) (p : Nat × IterSt) :
    (iterCloseEntry o p).1.1 = p.1 ∧
    (iterCloseEntry o p).1.2.attached = p.2.attached := by
  unfold iterCloseEntry
  split_ifs <;> exact ⟨rfl, rfl⟩

theorem tranRollbackEntry_fst (p : Nat × TranSt) :
    (tranRollbackEntry p).1.1 = p.1 ∧
    (tranRollbackEntry p).1.2.attached = p.2.attached := by
  unfold tranRollbackEntry
  split_ifs <;> exact ⟨rfl, rfl⟩

theorem snapRelEntry_fst (p : Nat × SnapSt) :
    (snapRelEntry p).1.1 = p.1 ∧
    (snapRelEntry p).1.2.attached = p.2.attached := by
  unfold snapRelEntry
  split_ifs <;> exact ⟨rfl, rfl⟩

theorem setTran_events (s : Sys) (t : Nat) (f : TranSt → TranSt) :
    (setTran s t f).events = s.events := rfl

theorem setSnap_events (s : Sys) (i : Nat) (f : SnapSt → SnapSt) :
    (setSnap s i f).events = s.events := rfl

theorem detachIter_events (s : Sys) (o : Owner) (i : Nat) :
    (detachIter s o i).events = s.events := by
  unfold detachIter
  rcases getIter s o i with _ | it
  · rfl
  · simp only []
    split_ifs
    · cases o with
      | root => rw [(dbDecr_rest _).1, setIter_events]
      | tran t => rw [(tranDecr_rest _ _).1, setIter_events]
    · rfl

theorem detachTran_events (s : Sys) (t : Nat) :
    (detachTran s t).events = s.events := by
  unfold detachTran
  rcases getA t s.trans with _ | tr
  · rfl
  · simp only []
    split_ifs
    · rw [(dbDecr_rest _).1, setTran_events]
    · rfl

theorem detachSnap_events (s : Sys) (i : Nat) :
    (detachSnap s i).events = s.events := by
  unfold detachSnap
  rcases getA i s.snaps with _ | sp
  · rfl
  · simp only []
    split_ifs
    · rw [(dbDecr_rest _).1, setSnap_events]
    · rfl

/-- Every action leaves the completion log unchanged or appends exactly
the one completion of a worker that was queued. -/
theorem stepEvents (s : Sys) (a : Act) (hallow : allowedAct s a = true) :
    (applyAct s a).events = s.events ∨
      ∃ w, a = .run w ∧ w ∈ s.queue ∧
        (applyAct s a).events = s.events ++ [w] := by
  cases a with
  | dbOpen ok =>
    left
    simp only [applyAct]
    unfold reqDbOpen
    rfl
  | dbClose =>
    left
    simp only [applyAct]
    unfold reqDbClose
    simp only []
    split_ifs <;> rfl
  | dbPriority op =>
    left
    simp only [applyAct]
    unfold reqDbPriority
    split_ifs <;> rfl
  | iterInit =>
    left
    simp only [applyAct]
    unfold reqIterInit
    split_ifs <;> rfl
  | tranInit =>
    left
    simp only [applyAct]
    unfold reqTranInit
    split_ifs <;> rfl
  | snapInit =>
    left
    simp only [applyAct]
    unfold reqSnapInit
    split_ifs <;> rfl
  | tranIterInit t =>
    left
    simp only [applyAct]
    unfold reqTranIterInit
    rcases getA t s.trans with _ | tr
    · rfl
    · simp only []
      split_ifs <;> rfl
  | iterClose o i =>
    left
    simp only [applyAct]
    unfold reqIterClose iterCloseDo
    rcases getIter s o i with _ | it
    · rfl
    · simp only []
      split_ifs <;> simp [pushW, setIter_events]
  | iterNextv o i =>
    left
    simp only [applyAct]
    unfold reqIterNextv
    rcases getIter s o i with _ | it
    · rfl
    · simp only []
      split_ifs <;> simp [pushW, setIter_events]
  | iterSeek o i =>
    left
    simp only [applyAct]
    unfold reqIterSeek
    rcases getIter s o i with _ | it
    · rfl
    · simp only []
      split_ifs <;> simp [pushW, setIter_events]
  | tranCommit t =>
    left
    simp only [applyAct]
    unfold reqTranCommit
    rcases getA t s.trans with _ | tr
    · rfl
    · simp only []
      split_ifs <;> rfl
  | tranRollback t =>
    left
    simp only [applyAct]
    unfold reqTranRollback tranRollbackDo
    rcases getA t s.trans with _ | tr
    · rfl
    · simp only []
      split_ifs <;> rfl
  | tranOp t op =>
    left
    simp only [applyAct]
    unfold reqTranOp
    rcases getA t s.trans with _ | tr
    · rfl
    · simp only []
      split_ifs <;> rfl
  | tranOpThrow t op =>
    left
    simp only [applyAct]
    unfold reqTranOpThrow
    rcases getA t s.trans with _ | tr
    · rfl
    · simp only []
      split_ifs <;> rfl
  | tranSnapshot t =>
    left
    simp only [applyAct]
    unfold reqTranSnapshot
    rcases getA t s.trans with _ | tr
    · rfl
    · simp only []
      split_ifs <;> rfl
  | tranMultiGet t fu =>
    left
    simp only [applyAct]
    unfold reqTranMultiGet
    rcases getA t s.trans with _ | tr
    · rfl
    · simp only []
      split_ifs <;> rfl
  | snapRelease i =>
    left
    simp only [applyAct]
    unfold reqSnapRelease
    rcases getA i s.snaps with _ | sp
    · rfl
    · simp only []
      split_ifs <;> rfl
  | run w =>
    have hmem : w ∈ s.queue := allowed_run_mem s w hallow
    cases w with
    | dbOpen ok =>
      right
      refine ⟨_, rfl, hmem, ?_⟩
      simp only [applyAct]
      unfold runW
      simp only []
      split_ifs <;> rfl
    | dbClose =>
      right
      refine ⟨_, rfl, hmem, ?_⟩
      simp only [applyAct]
      unfold runW
      simp only []
      split_ifs <;> rfl
    | dbPriority op =>
      simp only [applyAct]
      unfold runW
      simp only []
      split_ifs
      · exact Or.inl rfl
      · right
        exact ⟨_, rfl, hmem, by rw [(dbDecr_rest _).1]; rfl⟩
    | iterClose o i =>
      right
      refine ⟨_, rfl, hmem, ?_⟩
      simp only [applyAct]
      unfold runW
      simp only []
      rw [detachIter_events]
      simp [pushEv, setIter_events]

    | iterNext o i =>
      simp only [applyAct]
      unfold runW
      simp only []
      rcases getIter { s with queue := s.queue.erase (WKind.iterNext o i) } o i with _ | it
      · exact Or.inr ⟨_, rfl, hmem, rfl⟩
      · simp only []
        split_ifs
        · exact Or.inl rfl
        · exact Or.inr ⟨_, rfl, hmem, by simp [pushW, pushEv, setIter_events]⟩
        · exact Or.inr ⟨_, rfl, hmem, by simp [pushW, pushEv, setIter_events]⟩
    | tranCommit t =>
      simp only [applyAct]
      unfold runW
      simp only []
      rcases getA t s.trans with _ | tr
      · exact Or.inr ⟨_, rfl, hmem, rfl⟩
      · simp only []
        split_ifs
        · exact Or.inl rfl
        · exact Or.inr ⟨_, rfl, hmem, by rw [detachTran_events]; rfl⟩
        · exact Or.inr ⟨_, rfl, hmem, by rw [detachTran_events]; rfl⟩
    | tranRollback t =>
      simp only [applyAct]
      unfold runW
      simp only []
      rcases getA t s.trans with _ | tr
      · exact Or.inr ⟨_, rfl, hmem, rfl⟩
      · simp only []
        split_ifs
        · exact Or.inl rfl
        · exact Or.inr ⟨_, rfl, hmem, by rw [detachTran_events]; rfl⟩
        · exact Or.inr ⟨_, rfl, hmem, by rw [detachTran_events]; rfl⟩
    | tranPriority t op =>
      simp only [applyAct]
      unfold runW
      simp only []
      rcases getA t s.trans with _ | tr
      · exact Or.inr ⟨_, rfl, hmem, rfl⟩
      · simp only []
        split_ifs
        · exact Or.inl rfl
        · exact Or.inr ⟨_, rfl, hmem, by rw [(tranDecr_rest _ _).1]; rfl⟩
    | tranMultiGet t fu =>
      simp only [applyAct]
      unfold runW
      simp only []
      rcases getA t s.trans with _ | tr
      · exact Or.inr ⟨_, rfl, hmem, rfl⟩
      · simp only []
        split_ifs
        · exact Or.inl rfl
        · exact Or.inr ⟨_, rfl, hmem, by rw [(tranDecr_rest _ _).1]; rfl⟩
    | snapRelease i =>
      simp only [applyAct]
      unfold runW
      simp only []
      rcases getA i s.snaps with _ | sp
      · exact Or.inr ⟨_, rfl, hmem, rfl⟩
      · simp only []
        split_ifs
        · exact Or.inr ⟨_, rfl, hmem, by
            rw [(dbDecr_rest _).1, detachSnap_events]
            rfl⟩
        · exact Or.inl rfl
        · exact Or.inr ⟨_, rfl, hmem, by
            rw [(dbDecr_rest _).1, detachSnap_events]
            rfl⟩

theorem mem_dbClose_append (q ws : List WKind) (h : ∀ w ∈ ws, w ≠ WKind.dbClose)
    (hm : WKind.dbClose ∈ q ++ ws) : WKind.dbClose ∈ q :=
  (List.mem_append.mp hm).resolve_right fun hw => h _ hw rfl

theorem setTran_queue (s : Sys) (t : Nat) (f : TranSt → TranSt) :
    (setTran s t f).queue = s.queue := rfl

theorem setSnap_queue (s : Sys) (i : Nat) (f : SnapSt → SnapSt) :
    (setSnap s i f).queue = s.queue := rfl

theorem setTran_aborted (s : Sys) (t : Nat) (f : TranSt → TranSt) :
    (setTran s t f).aborted = s.aborted := rfl

theorem setSnap_aborted (s : Sys) (i : Nat) (f : SnapSt → SnapSt) :
    (setSnap s i f).aborted = s.aborted := rfl

theorem setIter_aborted (s : Sys) (o : Owner) (i : Nat) (f : IterSt → IterSt) :
    (setIter s o i f).aborted = s.aborted := by
  cases o <;> rfl

theorem dbDecr_close_mem (s : Sys)
    (hm : WKind.dbClose ∈ (dbDecr s).queue) :
    WKind.dbClose ∈ s.queue ∨ (dbDecr s).db.pendingWork = 0 := by
  rcases dbDecr_queue_cases s with hq | ⟨hq, hpw⟩
  · rw [hq] at hm
    exact Or.inl hm
  · exact Or.inr hpw

theorem tranDecr_close_mem (s : Sys) (t : Nat)
    (hm : WKind.dbClose ∈ (tranDecr s t).queue) : WKind.dbClose ∈ s.queue := by
  rcases tranDecr_queue s t with ⟨ws, hws, hq⟩
  rw [hq] at hm
  exact mem_dbClose_append _ _ (fun w hw => (hws w hw).2.2) hm

theorem detachIter_close_mem (s : Sys) (o : Owner) (i : Nat) :
    WKind.dbClose ∈ (detachIter s o i).queue →
    WKind.dbClose ∈ s.queue ∨ (detachIter s o i).db.pendingWork = 0 := by
  unfold detachIter
  rcases hg : getIter s o i with _ | it <;> simp only []
  · exact fun hm => Or.inl hm
  · by_cases ha : it.attached = true
    · rw [if_pos ha]
      cases o with
      | root =>
        intro hm
        rcases dbDecr_close_mem _ hm with h | h
        · rw [setIter_queue] at h
          exact Or.inl h
        · exact Or.inr h
      | tran t =>
        intro hm
        have h := tranDecr_close_mem _ _ hm
        rw [setIter_queue] at h
        exact Or.inl h
    · rw [if_neg ha]
      exact fun hm => Or.inl hm

theorem detachTran_close_mem (s : Sys) (t : Nat) :
    WKind.dbClose ∈ (detachTran s t).queue →
    WKind.dbClose ∈ s.queue ∨ (detachTran s t).db.pendingWork = 0 := by
  unfold detachTran
  rcases hg : getA t s.trans with _ | tr <;> simp only []
  · exact fun hm => Or.inl hm
  · by_cases ha : tr.attached = true
    · rw [if_pos ha]
      intro hm
      rcases dbDecr_close_mem _ hm with h | h
      · rw [setTran_queue] at h
        exact Or.inl h
      · exact Or.inr h
    · rw [if_neg ha]
      exact fun hm => Or.inl hm

theorem detachSnap_close_mem (s : Sys) (i : Nat) :
    WKind.dbClose ∈ (detachSnap s i).queue →
    WKind.dbClose ∈ s.queue ∨ (detachSnap s i).db.pendingWork = 0 := by
  unfold detachSnap
  rcases hg : getA i s.snaps with _ | sp <;> simp only []
  · exact fun hm => Or.inl hm
  · by_cases ha : sp.attached = true
    · rw [if_pos ha]
      intro hm
      rcases dbDecr_close_mem _ hm with h | h
      · rw [setSnap_queue] at h
        exact Or.inl h
      · exact Or.inr h
    · rw [if_neg ha]
      exact fun hm => Or.inl hm

theorem detachIter_aborted (s : Sys) (o : Owner) (i : Nat) :
    (detachIter s o i).aborted = s.aborted := by
  unfold detachIter
  rcases getIter s o i with _ | it
  · rfl
  · simp only []
    split_ifs
    · cases o with
      | root => rw [(dbDecr_rest _).2.2.2.2.1, setIter_aborted]
      | tran t => rw [(tranDecr_rest _ _).2.2.2.1, setIter_aborted]
    · rfl

theorem detachTran_aborted (s : Sys) (t : Nat) :
    (detachTran s t).aborted = s.aborted := by
  unfold detachTran
  rcases getA t s.trans with _ | tr
  · rfl
  · simp only []
    split_ifs
    · rw [(dbDecr_rest _).2.2.2.2.1, setTran_aborted]
    · rfl

theorem detachSnap_aborted (s : Sys) (i : Nat) :
    (detachSnap s i).aborted = s.aborted := by
  unfold detachSnap
  rcases getA i s.snaps with _ | sp
  · rfl
  · simp only []
    split_ifs
    · rw [(dbDecr_rest _).2.2.2.2.1, setSnap_aborted]
    · rfl


theorem cascade_kinds (o : Owner) (l : List (Nat × IterSt)) :
    ∀ w ∈ (cascadeIters o l).2,
      isDbPri w = false ∧ isSnapRel w = false ∧ w ≠ WKind.dbClose := by
  intro w hw
  rcases cascadeIters_adds o l w hw with ⟨j, rfl⟩
  exact ⟨rfl, rfl, fun hh => by cases hh⟩

theorem rows_kinds (l : List (Nat × TranSt)) :
    ∀ w ∈ (l.map tranRollbackEntry).flatMap Prod.snd,
      isDbPri w = false ∧ isSnapRel w = false ∧ w ≠ WKind.dbClose := by
  intro w hw
  rcases List.mem_flatMap.mp hw with ⟨r, hr, hwr⟩
  rcases List.mem_map.mp hr with ⟨p, _, rfl⟩
  rcases tranRollbackEntry_adds p w hwr with rfl | ⟨j, rfl⟩
  · exact ⟨rfl, rfl, fun hh => by cases hh⟩
  · exact ⟨rfl, rfl, fun hh => by cases hh⟩

theorem snapadds_kinds (l : List (Nat × SnapSt)) :
    ∀ w ∈ (l.map snapRelEntry).filterMap Prod.snd,
      isDbPri w = false ∧ isSnapRel w = true ∧ w ≠ WKind.dbClose := by
  intro w hw
  rcases List.mem_filterMap.mp hw with ⟨r, hr, hwr⟩
  rcases List.mem_map.mp hr with ⟨p, _, rfl⟩
  rcases snapRelEntry_some p w hwr with rfl
  exact ⟨rfl, rfl, fun hh => by cases hh⟩

/-- The root close WorkItem enters the queue only when the pending-work
tracker has drained to 0 (never in a step that aborts). -/
theorem stepQueueClose (s : Sys) (a : Act) (hallow : allowedAct s a = true) :
    WKind.dbClose ∈ (applyAct s a).queue →
    WKind.dbClose ∈ s.queue ∨
      ((applyAct s a).aborted = false ∧ (applyAct s a).db.pendingWork = 0) := by
  have hnab : s.aborted = false := allowed_not_aborted s a hallow
  cases a with
  | dbOpen ok =>
    intro hm
    simp only [applyAct] at hm
    unfold reqDbOpen at hm
    exact Or.inl (mem_dbClose_append _ _
      (fun w hw => by rcases List.mem_singleton.mp hw with rfl; intro hh; cases hh) hm)
  | dbClose =>
    simp only [applyAct]
    unfold reqDbClose
    simp only []
    split_ifs with h1 h2
    · intro hm
      left
      have hm2 : WKind.dbClose ∈ (s.queue ++ (cascadeIters Owner.root s.iters).2)
          ++ (List.map tranRollbackEntry s.trans).flatMap Prod.snd := hm
      exact mem_dbClose_append _ _ (fun w hw => (cascade_kinds _ _ w hw).2.2)
        (mem_dbClose_append _ _ (fun w hw => (rows_kinds _ w hw).2.2) hm2)
    · intro hm
      left
      have hm2 : WKind.dbClose ∈ ((s.queue ++ (cascadeIters Owner.root s.iters).2)
          ++ (List.map tranRollbackEntry s.trans).flatMap Prod.snd)
          ++ (List.map snapRelEntry s.snaps).filterMap Prod.snd := hm
      exact mem_dbClose_append _ _ (fun w hw => (cascade_kinds _ _ w hw).2.2)
        (mem_dbClose_append _ _ (fun w hw => (rows_kinds _ w hw).2.2)
          (mem_dbClose_append _ _ (fun w hw => (snapadds_kinds _ w hw).2.2) hm2))
    · intro _
      refine Or.inr ⟨hnab, ?_⟩
      show s.db.pendingWork = 0
      unfold dbHasPendingWork at h1
      simp only [decide_eq_true_eq] at h1
      omega
  | dbPriority op =>
    simp only [applyAct]
    unfold reqDbPriority
    split_ifs
    · exact fun hm => Or.inl hm
    · intro hm
      exact Or.inl (mem_dbClose_append _ _
        (fun w hw => by rcases List.mem_singleton.mp hw with rfl; intro hh; cases hh) hm)
  | iterInit =>
    simp only [applyAct]
    unfold reqIterInit
    split_ifs <;> exact fun hm => Or.inl hm
  | tranInit =>
    simp only [applyAct]
    unfold reqTranInit
    split_ifs <;> exact fun hm => Or.inl hm
  | snapInit =>
    simp only [applyAct]
    unfold reqSnapInit
    split_ifs <;> exact fun hm => Or.inl hm
  | tranIterInit t =>
    simp only [applyAct]
    unfold reqTranIterInit
    rcases hg : getA t s.trans with _ | tr <;> simp only []
    · exact fun hm => Or.inl hm
    · split_ifs <;> exact fun hm => Or.inl hm
  | iterClose o i =>
    simp only [applyAct]
    unfold reqIterClose iterCloseDo
    rcases hg : getIter s o i with _ | it <;> simp only []
    · exact fun hm => Or.inl hm
    · split_ifs
      · exact fun hm => Or.inl hm
      · intro hm
        rw [setIter_queue] at hm
        exact Or.inl hm
      · intro hm
        rw [show (pushW (setIter s o i fun x => { x with isClosing := true })
          (WKind.iterClose o i)).queue
          = (setIter s o i fun x => { x with isClosing := true }).queue
            ++ [WKind.iterClose o i] from rfl, setIter_queue] at hm
        exact Or.inl (mem_dbClose_append _ _
          (fun w hw => by rcases List.mem_singleton.mp hw with rfl; intro hh; cases hh) hm)
  | iterNextv o i =>
    simp only [applyAct]
    unfold reqIterNextv
    rcases hg : getIter s o i with _ | it <;> simp only []
    · exact fun hm => Or.inl hm
    · split_ifs
      · exact fun hm => Or.inl hm
      · intro hm
        rw [show (pushW (setIter s o i fun x => { x with nexting := true })
          (WKind.iterNext o i)).queue
          = (setIter s o i fun x => { x with nexting := true }).queue
            ++ [WKind.iterNext o i] from rfl, setIter_queue] at hm
        exact Or.inl (mem_dbClose_append _ _
          (fun w hw => by rcases List.mem_singleton.mp hw with rfl; intro hh; cases hh) hm)
  | iterSeek o i =>
    simp only [applyAct]
    unfold reqIterSeek
    rcases hg : getIter s o i with _ | it <;> simp only []
    · exact fun hm => Or.inl hm
    · split_ifs
      · exact fun hm => Or.inl hm
      · intro hm
        rw [setIter_queue] at hm
        exact Or.inl hm
  | tranCommit t =>
    simp only [applyAct]
    unfold reqTranCommit
    rcases hg : getA t s.trans with _ | tr <;> simp only []
    · exact fun hm => Or.inl hm
    · split_ifs
      · exact fun hm => Or.inl hm
      · exact fun hm => Or.inl hm
      · intro hm
        exact Or.inl (mem_dbClose_append _ _
          (fun w hw => (cascade_kinds _ _ w hw).2.2) hm)
      · intro hm
        exact Or.inl (mem_dbClose_append _ _
          (fun w hw => by rcases List.mem_singleton.mp hw with rfl; intro hh; cases hh) hm)
  | tranRollback t =>
    simp only [applyAct]
    unfold reqTranRollback tranRollbackDo
    rcases hg : getA t s.trans with _ | tr <;> simp only []
    · exact fun hm => Or.inl hm
    · split_ifs
      · exact fun hm => Or.inl hm
      · exact fun hm => Or.inl hm
      · intro hm
        exact Or.inl (mem_dbClose_append _ _
          (fun w hw => (cascade_kinds _ _ w hw).2.2) hm)
      · intro hm
        exact Or.inl (mem_dbClose_append _ _
          (fun w hw => by rcases List.mem_singleton.mp hw with rfl; intro hh; cases hh) hm)
  | tranOp t op =>
    simp only [applyAct]
    unfold reqTranOp
    rcases hg : getA t s.trans with _ | tr <;> simp only []
    · exact fun hm => Or.inl hm
    · split_ifs
      · exact fun hm => Or.inl hm
      · exact fun hm => Or.inl hm
      · intro hm
        exact Or.inl (mem_dbClose_append _ _
          (fun w hw => by rcases List.mem_singleton.mp hw with rfl; intro hh; cases hh) hm)
  | tranOpThrow t op =>
    simp only [applyAct]
    unfold reqTranOpThrow
    rcases hg : getA t s.trans with _ | tr <;> simp only []
    · exact fun hm => Or.inl hm
    · split_ifs
      · exact fun hm => Or.inl hm
      · exact fun hm => Or.inl hm
      · intro hm
        exact Or.inl (mem_dbClose_append _ _
          (fun w hw => by rcases List.mem_singleton.mp hw with rfl; intro hh; cases hh) hm)
  | tranSnapshot t =>
    simp only [applyAct]
    unfold reqTranSnapshot
    rcases hg : getA t s.trans with _ | tr <;> simp only []
    · exact fun hm => Or.inl hm
    · split_ifs <;> exact fun hm => Or.inl hm
  | tranMultiGet t fu =>
    simp only [applyAct]
    unfold reqTranMultiGet
    rcases hg : getA t s.trans with _ | tr <;> simp only []
    · exact fun hm => Or.inl hm
    · split_ifs
      · exact fun hm => Or.inl hm
      · intro hm
        exact Or.inl (mem_dbClose_append _ _
          (fun w hw => by rcases List.mem_singleton.mp hw with rfl; intro hh; cases hh) hm)
  | snapRelease i =>
    simp only [applyAct]
    unfold reqSnapRelease
    rcases hg : getA i s.snaps with _ | sp <;> simp only []
    · exact fun hm => Or.inl hm
    · split_ifs
      · exact fun hm => Or.inl hm
      · exact fun hm => Or.inl hm
      · intro hm
        exact Or.inl (mem_dbClose_append _ _
          (fun w hw => by rcases List.mem_singleton.mp hw with rfl; intro hh; cases hh) hm)
  | run w =>
    have herase : ∀ q : List WKind, WKind.dbClose ∈ q.erase w → WKind.dbClose ∈ q :=
      fun q => List.mem_of_mem_erase
    cases w with
    | dbOpen ok =>
      simp only [applyAct]
      unfold runW
      simp only []
      split_ifs <;> exact fun hm => Or.inl (herase _ hm)
    | dbClose =>
      simp only [applyAct]
      unfold runW
      simp only []
      split_ifs <;> exact fun hm => Or.inl (herase _ hm)
    | dbPriority op =>
      simp only [applyAct]
      unfold runW
      simp only []
      split_ifs
      · exact fun hm => Or.inl hm
      · intro hm
        rcases dbDecr_close_mem _ hm with h | h
        · exact Or.inl (herase _ h)
        · refine Or.inr ⟨?_, h⟩
          rw [(dbDecr_rest _).2.2.2.2.1]
          exact hnab
    | iterClose o i =>
      simp only [applyAct]
      unfold runW
      simp only []
      intro hm
      rcases detachIter_close_mem _ o i hm with h | h
      · rw [show (pushEv (setIter { s with queue := s.queue.erase (WKind.iterClose o i) }
          o i fun x => { x with hasClosed := true }) (WKind.iterClose o i)).queue
          = (setIter { s with queue := s.queue.erase (WKind.iterClose o i) }
            o i fun x => { x with hasClosed := true }).queue from rfl,
          setIter_queue] at h
        exact Or.inl (herase _ h)
      · refine Or.inr ⟨?_, h⟩
        rw [detachIter_aborted, show (pushEv (setIter
          { s with queue := s.queue.erase (WKind.iterClose o i) }
          o i fun x => { x with hasClosed := true }) (WKind.iterClose o i)).aborted
          = (setIter { s with queue := s.queue.erase (WKind.iterClose o i) }
            o i fun x => { x with hasClosed := true }).aborted from rfl,
          setIter_aborted]
        exact hnab
    | iterNext o i =>
      simp only [applyAct]
      unfold runW
      simp only []
      rcases hg : getIter { s with queue := s.queue.erase (WKind.iterNext o i) } o i
        with _ | it <;> simp only []
      · exact fun hm => Or.inl (herase _ hm)
      · split_ifs
        · exact fun hm => Or.inl hm
        · intro hm
          rw [show (pushW (setIter (setIter (pushEv
            { s with queue := s.queue.erase (WKind.iterNext o i) } (WKind.iterNext o i))
            o i fun x => { x with nexting := false }) o i
            fun x => { x with closeSlot := false }) (WKind.iterClose o i)).queue
            = (setIter (setIter (pushEv
              { s with queue := s.queue.erase (WKind.iterNext o i) } (WKind.iterNext o i))
              o i fun x => { x with nexting := false }) o i
              fun x => { x with closeSlot := false }).queue ++ [WKind.iterClose o i]
            from rfl, setIter_queue, setIter_queue] at hm
          exact Or.inl (herase _ (mem_dbClose_append _ _
            (fun w hw => by rcases List.mem_singleton.mp hw with rfl; intro hh; cases hh)
            hm))
        · intro hm
          rw [setIter_queue] at hm
          exact Or.inl (herase _ hm)
    | tranCommit t =>
      simp only [applyAct]
      unfold runW
      simp only []
      rcases hg : getA t s.trans with _ | tr <;> simp only []
      · exact fun hm => Or.inl (herase _ hm)
      · split_ifs
        · exact fun hm => Or.inl hm
        · intro hm
          rcases detachTran_close_mem _ t hm with h | h
          · exact Or.inl (herase _ h)
          · refine Or.inr ⟨?_, h⟩
            rw [detachTran_aborted]
            exact hnab
        · intro hm
          rcases detachTran_close_mem _ t hm with h | h
          · rw [show (pushEv (setTran { s with queue := s.queue.erase (WKind.tranCommit t) }
              t fun x => { x with hasCommitted := true }) (WKind.tranCommit t)).queue
              = (setTran { s with queue := s.queue.erase (WKind.tranCommit t) }
                t fun x => { x with hasCommitted := true }).queue from rfl,
              setTran_queue] at h
            exact Or.inl (herase _ h)
          · refine Or.inr ⟨?_, h⟩
            rw [detachTran_aborted]
            exact hnab
    | tranRollback t =>
      simp only [applyAct]
      unfold runW
      simp only []
      rcases hg : getA t s.trans with _ | tr <;> simp only []
      · exact fun hm => Or.inl (herase _ hm)
      · split_ifs
        · exact fun hm => Or.inl hm
        · intro hm
          rcases detachTran_close_mem _ t hm with h | h
          · exact Or.inl (herase _ h)
          · refine Or.inr ⟨?_, h⟩
            rw [detachTran_aborted]
            exact hnab
        · intro hm
          rcases detachTran_close_mem _ t hm with h | h
          · rw [show (pushEv (setTran { s with queue := s.queue.erase (WKind.tranRollback t) }
              t fun x => { x with hasRollbacked := true }) (WKind.tranRollback t)).queue
              = (setTran { s with queue := s.queue.erase (WKind.tranRollback t) }
                t fun x => { x with hasRollbacked := true }).queue from rfl,
              setTran_queue] at h
            exact Or.inl (herase _ h)
          · refine Or.inr ⟨?_, h⟩
            rw [detachTran_aborted]
            exact hnab
    | tranPriority t op =>
      simp only [applyAct]
      unfold runW
      simp only []
      rcases hg : getA t s.trans with _ | tr <;> simp only []
      · exact fun hm => Or.inl (herase _ hm)
      · split_ifs
        · exact fun hm => Or.inl hm
        · intro hm
          exact Or.inl (herase _ (tranDecr_close_mem _ t hm))
    | tranMultiGet t fu =>
      simp only [applyAct]
      unfold runW
      simp only []
      rcases hg : getA t s.trans with _ | tr <;> simp only []
      · exact fun hm => Or.inl (herase _ hm)
      · split_ifs
        · exact fun hm => Or.inl hm
        · intro hm
          exact Or.inl (herase _ (tranDecr_close_mem _ t hm))
    | snapRelease i =>
      simp only [applyAct]
      unfold runW
      simp only []
      rcases hg : getA i s.snaps with _ | sp <;> simp only []
      · exact fun hm => Or.inl (herase _ hm)
      · split_ifs
        · intro hm
          rcases dbDecr_close_mem _ hm with h | h
          · rcases detachSnap_close_mem _ i h with h2 | h2
            · exact Or.inl (herase _ h2)
            · refine Or.inr ⟨?_, ?_⟩
              · rw [(dbDecr_rest _).2.2.2.2.1, detachSnap_aborted]
                exact hnab
              · rw [(dbDecr_rest _).2.2.2.2.2]
                rw [show (detachSnap (pushEv
                  { s with queue := s.queue.erase (WKind.snapRelease i) }
                  (WKind.snapRelease i)) i).db.pendingWork = 0 from h2]
          · refine Or.inr ⟨?_, h⟩
            rw [(dbDecr_rest _).2.2.2.2.1, detachSnap_aborted]
            exact hnab
        · exact fun hm => Or.inl hm
        · intro hm
          rcases dbDecr_close_mem _ hm with h | h
          · rcases detachSnap_close_mem _ i h with h2 | h2
            · rw [show (pushEv (setSnap
                { s with queue := s.queue.erase (WKind.snapRelease i) } i
                fun x => { x with hasReleased := true }) (WKind.snapRelease i)).queue
                = (setSnap { s with queue := s.queue.erase (WKind.snapRelease i) } i
                  fun x => { x with hasReleased := true }).queue from rfl,
                setSnap_queue] at h2
              exact Or.inl (herase _ h2)
            · refine Or.inr ⟨?_, ?_⟩
              · rw [(dbDecr_rest _).2.2.2.2.1, detachSnap_aborted]
                exact hnab
              · rw [(dbDecr_rest _).2.2.2.2.2, h2]
          · refine Or.inr ⟨?_, h⟩
            rw [(dbDecr_rest _).2.2.2.2.1, detachSnap_aborted]
            exact hnab

theorem attA_updA_ne {α : Type} (att : α → Bool) (j k : Nat) (f : α → α)
    (l : List (Nat × α)) (h : j ≠ k) :
    attA att j (updA k f l) = attA att j l := by
  unfold attA
  rw [getA_updA_ne _ _ _ _ h]

theorem attachedD_ext (s s' : Sys) (hi : s'.iters = s.iters)
    (ht : s'.trans = s.trans) (hs : s'.snaps = s.snaps) (d : Desc) :
    attachedD s' d = attachedD s d := by
  cases d with
  | iter i =>
    simp only [attachedD]
    rw [hi]
  | tran t =>
    simp only [attachedD]
    rw [ht]
  | snap i =>
    simp only [attachedD]
    rw [hs]

theorem attachedD_setTran (s : Sys) (t : Nat) (f : TranSt → TranSt)
    (hf : ∀ x, (f x).attached = x.attached) (d : Desc) :
    attachedD (setTran s t f) d = attachedD s d := by
  cases d with
  | iter i => rfl
  | tran u =>
    simp only [attachedD]
    exact attA_updA _ _ _ _ _ hf
  | snap i => rfl

theorem attachedD_setSnap (s : Sys) (i : Nat) (f : SnapSt → SnapSt)
    (hf : ∀ x, (f x).attached = x.attached) (d : Desc) :
    attachedD (setSnap s i f) d = attachedD s d := by
  cases d with
  | iter j => rfl
  | tran u => rfl
  | snap j =>
    simp only [attachedD]
    exact attA_updA _ _ _ _ _ hf

theorem attachedD_setIter (s : Sys) (o : Owner) (i : Nat) (f : IterSt → IterSt)
    (hf : ∀ x, (f x).attached = x.attached) (d : Desc) :
    attachedD (setIter s o i f) d = attachedD s d := by
  cases o with
  | root =>
    cases d with
    | iter j =>
      simp only [attachedD]
      exact attA_updA _ _ _ _ _ hf
    | tran u => rfl
    | snap j => rfl
  | tran t =>
    cases d with
    | iter j => rfl
    | tran u =>
      simp only [attachedD]
      exact attA_updA _ _ _ _ _ fun x => rfl
    | snap j => rfl

theorem attachedD_setIter_tran (s : Sys) (t i : Nat) (f : IterSt → IterSt)
    (d : Desc) : attachedD (setIter s (.tran t) i f) d = attachedD s d := by
  cases d with
  | iter j => rfl
  | tran u =>
    simp only [attachedD]
    exact attA_updA _ _ _ _ _ fun x => rfl
  | snap j => rfl

theorem attachedD_dbDecr (s : Sys) (d : Desc) :
    attachedD (dbDecr s) d = attachedD s d :=
  attachedD_ext _ _ (dbDecr_rest s).2.1 (dbDecr_rest s).2.2.1
    (dbDecr_rest s).2.2.2.1 d

theorem attachedD_tranDecr (s : Sys) (t : Nat) (d : Desc) :
    attachedD (tranDecr s t) d = attachedD s d := by
  cases d with
  | iter i =>
    simp only [attachedD]
    rw [(tranDecr_rest s t).2.1]
  | tran u =>
    simp only [attachedD]
    exact (tranDecr_rest s t).2.2.2.2.2 u
  | snap i =>
    simp only [attachedD]
    rw [(tranDecr_rest s t).2.2.1]

theorem attachedD_detachIter (s : Sys) (o : Owner) (i : Nat) (d : Desc)
    (hd : d ≠ .iter i ∨ o ≠ .root) :
    attachedD (detachIter s o i) d = attachedD s d := by
  unfold detachIter
  rcases hg : getIter s o i with _ | it
  · rfl
  · simp only []
    split_ifs
    · cases o with
      | root =>
        rw [attachedD_dbDecr]
        cases d with
        | iter j =>
          have hji : j ≠ i := by
            rcases hd with hd | hd
            · intro he
              exact hd (by rw [he])
            · exact absurd rfl hd
          simp only [attachedD]
          exact attA_updA_ne _ _ _ _ _ hji
        | tran u => rfl
        | snap j => rfl
      | tran t =>
        rw [attachedD_tranDecr]
        exact attachedD_setIter_tran s t i _ d
    · rfl

theorem attachedD_detachTran (s : Sys) (t : Nat) (d : Desc)
    (hd : d ≠ .tran t) :
    attachedD (detachTran s t) d = attachedD s d := by
  unfold detachTran
  rcases hg : getA t s.trans with _ | tr
  · rfl
  · simp only []
    split_ifs
    · rw [attachedD_dbDecr]
      cases d with
      | iter j => rfl
      | tran u =>
        have hut : u ≠ t := fun he => hd (by rw [he])
        simp only [attachedD]
        exact attA_updA_ne _ _ _ _ _ hut
      | snap j => rfl
    · rfl

theorem attachedD_detachSnap (s : Sys) (i : Nat) (d : Desc)
    (hd : d ≠ .snap i) :
    attachedD (detachSnap s i) d = attachedD s d := by
  unfold detachSnap
  rcases hg : getA i s.snaps with _ | sp
  · rfl
  · simp only []
    split_ifs
    · rw [attachedD_dbDecr]
      cases d with
      | iter j => rfl
      | tran u => rfl
      | snap j =>
        have hji : j ≠ i := fun he => hd (by rw [he])
        simp only [attachedD]
        exact attA_updA_ne _ _ _ _ _ hji
    · rfl

theorem attachedD_cascA (s s' : Sys)
    (hi : s'.iters = s.iters.map fun p => (iterCloseEntry Owner.root p).1)
    (ht : s'.trans = (s.trans.map tranRollbackEntry).map Prod.fst)
    (hs : s'.snaps = s.snaps) (d : Desc) : attachedD s' d = attachedD s d := by
  cases d with
  | iter j =>
    simp only [attachedD]
    rw [hi]
    exact attA_map _ _ _ _ fun p => iterCloseEntry_fst Owner.root p
  | tran u =>
    simp only [attachedD]
    rw [ht, List.map_map]
    exact attA_map _ _ _ _ fun p => tranRollbackEntry_fst p
  | snap j =>
    simp only [attachedD]
    rw [hs]

theorem attachedD_cascB (s s' : Sys)
    (hi : s'.iters = s.iters.map fun p => (iterCloseEntry Owner.root p).1)
    (ht : s'.trans = (s.trans.map tranRollbackEntry).map Prod.fst)
    (hs : s'.snaps = (s.snaps.map snapRelEntry).map Prod.fst) (d : Desc) :
    attachedD s' d = attachedD s d := by
  cases d with
  | iter j =>
    simp only [attachedD]
    rw [hi]
    exact attA_map _ _ _ _ fun p => iterCloseEntry_fst Owner.root p
  | tran u =>
    simp only [attachedD]
    rw [ht, List.map_map]
    exact attA_map _ _ _ _ fun p => tranRollbackEntry_fst p
  | snap j =>
    simp only [attachedD]
    rw [hs, List.map_map]
    exact attA_map _ _ _ _ fun p => snapRelEntry_fst p

/-- A descendant only goes from attached to detached through the
completion of its own teardown worker, which appends that completion
to the log in the same step. -/
theorem stepDetach (s : Sys) (a : Act) (d : Desc)
    (hA : attachedD s d = true)
    (hA' : attachedD (applyAct s a) d = false) :
    ∃ w, teardownEvs d w = true ∧ (applyAct s a).events = s.events ++ [w] := by
  cases a with
  | dbOpen ok =>
    have hkeep : attachedD (applyAct s (Act.dbOpen ok)) d = true := hA
    rw [hkeep] at hA'
    exact Bool.noConfusion hA'
  | dbClose =>
    have hkeep : attachedD (applyAct s Act.dbClose) d = true := by
      simp only [applyAct]
      unfold reqDbClose
      simp only []
      split_ifs
      · cases d with
        | iter j =>
          simp only [attachedD, abortSys, cascadeIters]
          rw [attA_map]
          · exact hA
          · exact fun p => iterCloseEntry_fst Owner.root p
        | tran u =>
          simp only [attachedD, abortSys]
          rw [List.map_map, attA_map]
          · exact hA
          · exact fun p => tranRollbackEntry_fst p
        | snap j => exact hA
      · cases d with
        | iter j =>
          simp only [attachedD, cascadeIters]
          rw [attA_map]
          · exact hA
          · exact fun p => iterCloseEntry_fst Owner.root p
        | tran u =>
          simp only [attachedD]
          rw [List.map_map, attA_map]
          · exact hA
          · exact fun p => tranRollbackEntry_fst p
        | snap j =>
          simp only [attachedD]
          rw [List.map_map, attA_map]
          · exact hA
          · exact fun p => snapRelEntry_fst p
      · exact hA
    rw [hkeep] at hA'
    exact Bool.noConfusion hA'
  | dbPriority op =>
    have hkeep : attachedD (applyAct s (Act.dbPriority op)) d = true := by
      simp only [applyAct]
      unfold reqDbPriority
      split_ifs <;> exact hA
    rw [hkeep] at hA'
    exact Bool.noConfusion hA'
  | iterInit =>
    have hkeep : attachedD (applyAct s Act.iterInit) d = true := by
      simp only [applyAct]
      unfold reqIterInit
      split_ifs
      · exact hA
      · cases d with
        | iter j =>
          simp only [attachedD]
          exact attA_append_of_true _ _ _ _ hA
        | tran u => exact hA
        | snap j => exact hA
    rw [hkeep] at hA'
    exact Bool.noConfusion hA'
  | tranInit =>
    have hkeep : attachedD (applyAct s Act.tranInit) d = true := by
      simp only [applyAct]
      unfold reqTranInit
      split_ifs
      · exact hA
      · cases d with
        | iter j => exact hA
        | tran u =>
          simp only [attachedD]
          exact attA_append_of_true _ _ _ _ hA
        | snap j => exact hA
    rw [hkeep] at hA'
    exact Bool.noConfusion hA'
  | snapInit =>
    have hkeep : attachedD (applyAct s Act.snapInit) d = true := by
      simp only [applyAct]
      unfold reqSnapInit
      split_ifs
      · exact hA
      · cases d with
        | iter j => exact hA
        | tran u => exact hA
        | snap j =>
          simp only [attachedD]
          exact attA_append_of_true _ _ _ _ hA
    rw [hkeep] at hA'
    exact Bool.noConfusion hA'
  | tranIterInit t =>
    have hkeep : attachedD (applyAct s (Act.tranIterInit t)) d = true := by
      simp only [applyAct]
      unfold reqTranIterInit
      rcases getA t s.trans with _ | tr
      · exact hA
      · simp only []
        split_ifs
        · exact hA
        · exact hA
        · cases d with
          | iter j => exact hA
          | tran u =>
            simp only [attachedD, setTran]
            rw [attA_updA]
            · exact hA
            · exact fun x => rfl
          | snap j => exact hA
    rw [hkeep] at hA'
    exact Bool.noConfusion hA'
  | iterClose o i =>
    have hkeep : attachedD (applyAct s (Act.iterClose o i)) d = true := by
      simp only [applyAct]
      unfold reqIterClose iterCloseDo
      rcases getIter s o i with _ | it
      · exact hA
      · simp only []
        split_ifs
        · exact hA
        · cases o with
          | root =>
            cases d with
            | iter j =>
              simp only [attachedD, setIter]
              rw [attA_updA]
              · exact hA
              · exact fun x => rfl
            | tran u => exact hA
            | snap j => exact hA
          | tran t =>
            cases d with
            | iter j => exact hA
            | tran u =>
              simp only [attachedD, setIter]
              rw [attA_updA]
              · exact hA
              · exact fun x => rfl
            | snap j => exact hA
        · cases o with
          | root =>
            cases d with
            | iter j =>
              simp only [attachedD, pushW, setIter]
              rw [attA_updA]
              · exact hA
              · exact fun x => rfl
            | tran u => exact hA
            | snap j => exact hA
          | tran t =>
            cases d with
            | iter j => exact hA
            | tran u =>
              simp only [attachedD, pushW, setIter]
              rw [attA_updA]
              · exact hA
              · exact fun x => rfl
            | snap j => exact hA
    rw [hkeep] at hA'
    exact Bool.noConfusion hA'
  | iterNextv o i =>
    have hkeep : attachedD (applyAct s (Act.iterNextv o i)) d = true := by
      simp only [applyAct]
      unfold reqIterNextv
      rcases getIter s o i with _ | it
      · exact hA
      · simp only []
        split_ifs
        · exact hA
        · cases o with
          | root =>
            cases d with
            | iter j =>
              simp only [attachedD, pushW, setIter]
              rw [attA_updA]
              · exact hA
              · exact fun x => rfl
            | tran u => exact hA
            | snap j => exact hA
          | tran t =>
            cases d with
            | iter j => exact hA
            | tran u =>
              simp only [attachedD, pushW, setIter]
              rw [attA_updA]
              · exact hA
              · exact fun x => rfl
            | snap j => exact hA
    rw [hkeep] at hA'
    exact Bool.noConfusion hA'
  | iterSeek o i =>
    have hkeep : attachedD (applyAct s (Act.iterSeek o i)) d = true := by
      simp only [applyAct]
      unfold reqIterSeek
      rcases getIter s o i with _ | it
      · exact hA
      · simp only []
        split_ifs
        · exact hA
        · cases o with
          | root =>
            cases d with
            | iter j =>
              simp only [attachedD, setIter]
              rw [attA_updA]
              · exact hA
              · exact fun x => rfl
            | tran u => exact hA
            | snap j => exact hA
          | tran t =>
            cases d with
            | iter j => exact hA
            | tran u =>
              simp only [attachedD, setIter]
              rw [attA_updA]
              · exact hA
              · exact fun x => rfl
            | snap j => exact hA
    rw [hkeep] at hA'
    exact Bool.noConfusion hA'
  | tranCommit t =>
    have hkeep : attachedD (applyAct s (Act.tranCommit t)) d = true := by
      simp only [applyAct]
      unfold reqTranCommit
      rcases getA t s.trans with _ | tr
      · exact hA
      · simp only []
        split_ifs
        · exact hA
        · exact hA
        · cases d with
          | iter j => exact hA
          | tran u =>
            simp only [attachedD, pushWs, setTran]
            rw [attA_updA]
            · exact hA
            · exact fun x => rfl
          | snap j => exact hA
        · cases d with
          | iter j => exact hA
          | tran u =>
            simp only [attachedD, pushW, setTran]
            rw [attA_updA]
            · exact hA
            · exact fun x => rfl
          | snap j => exact hA
    rw [hkeep] at hA'
    exact Bool.noConfusion hA'
  | tranRollback t =>
    have hkeep : attachedD (applyAct s (Act.tranRollback t)) d = true := by
      simp only [applyAct]
      unfold reqTranRollback tranRollbackDo
      rcases getA t s.trans with _ | tr
      · exact hA
      · simp only []
        split_ifs
        · exact hA
        · exact hA
        · cases d with
          | iter j => exact hA
          | tran u =>
            simp only [attachedD, pushWs, setTran]
            rw [attA_updA]
            · exact hA
            · exact fun x => rfl
          | snap j => exact hA
        · cases d with
          | iter j => exact hA
          | tran u =>
            simp only [attachedD, pushW, setTran]
            rw [attA_updA]
            · exact hA
            · exact fun x => rfl
          | snap j => exact hA
    rw [hkeep] at hA'
    exact Bool.noConfusion hA'
  | tranOp t op =>
    have hkeep : attachedD (applyAct s (Act.tranOp t op)) d = true := by
      simp only [applyAct]
      unfold reqTranOp
      rcases getA t s.trans with _ | tr
      · exact hA
      · simp only []
        split_ifs
        · exact hA
        · exact hA
        · cases d with
          | iter j => exact hA
          | tran u =>
            simp only [attachedD, pushW, setTran]
            rw [attA_updA]
            · exact hA
            · exact fun x => rfl
          | snap j => exact hA
    rw [hkeep] at hA'
    exact Bool.noConfusion hA'
  | tranOpThrow t op =>
    have hkeep : attachedD (applyAct s (Act.tranOpThrow t op)) d = true := by
      simp only [applyAct]
      unfold reqTranOpThrow
      rcases getA t s.trans with _ | tr
      · exact hA
      · simp only []
        split_ifs
        · exact hA
        · exact hA
        · cases d with
          | iter j => exact hA
          | tran u =>
            simp only [attachedD, pushW, setTran]
            rw [attA_updA]
            · exact hA
            · exact fun x => rfl
          | snap j => exact hA
    rw [hkeep] at hA'
    exact Bool.noConfusion hA'
  | tranSnapshot t =>
    have hkeep : attachedD (applyAct s (Act.tranSnapshot t)) d = true := by
      simp only [applyAct]
      unfold reqTranSnapshot
      rcases getA t s.trans with _ | tr
      · exact hA
      · simp only []
        split_ifs <;> exact hA
    rw [hkeep] at hA'
    exact Bool.noConfusion hA'
  | tranMultiGet t fu =>
    have hkeep : attachedD (applyAct s (Act.tranMultiGet t fu)) d = true := by
      simp only [applyAct]
      unfold reqTranMultiGet
      rcases getA t s.trans with _ | tr
      · exact hA
      · simp only []
        split_ifs
        · exact hA
        · cases d with
          | iter j => exact hA
          | tran u =>
            simp only [attachedD, pushW, setTran]
            rw [attA_updA]
            · exact hA
            · exact fun x => rfl
          | snap j => exact hA
    rw [hkeep] at hA'
    exact Bool.noConfusion hA'
  | snapRelease i =>
    have hkeep : attachedD (applyAct s (Act.snapRelease i)) d = true := by
      simp only [applyAct]
      unfold reqSnapRelease
      rcases getA i s.snaps with _ | sp
      · exact hA
      · simp only []
        split_ifs
        · exact hA
        · exact hA
        · cases d with
          | iter j => exact hA
          | tran u => exact hA
          | snap j =>
            simp only [attachedD, pushW, dbIncr, setSnap]
            rw [attA_updA]
            · exact hA
            · exact fun x => rfl
    rw [hkeep] at hA'
    exact Bool.noConfusion hA'
  | run w =>
    cases w with
    | dbOpen ok =>
      have hkeep : attachedD (applyAct s (Act.run (WKind.dbOpen ok))) d = true := by
        simp only [applyAct]
        unfold runW
        simp only []
        split_ifs <;> exact hA
      rw [hkeep] at hA'
      exact Bool.noConfusion hA'
    | dbClose =>
      have hkeep : attachedD (applyAct s (Act.run WKind.dbClose)) d = true := by
        simp only [applyAct]
        unfold runW
        simp only []
        split_ifs <;> exact hA
      rw [hkeep] at hA'
      exact Bool.noConfusion hA'
    | dbPriority op =>
      have hkeep : attachedD (applyAct s (Act.run (WKind.dbPriority op))) d = true := by
        simp only [applyAct]
        unfold runW
        simp only []
        split_ifs
        · exact hA
        · rw [attachedD_dbDecr]
          exact hA
      rw [hkeep] at hA'
      exact Bool.noConfusion hA'
    | iterClose o i =>
      by_cases hcase : d = Desc.iter i ∧ o = Owner.root
      · obtain ⟨rfl, rfl⟩ := hcase
        refine ⟨WKind.iterClose Owner.root i, by simp [teardownEvs], ?_⟩
        simp only [applyAct]
        unfold runW
        simp only []
        rw [detachIter_events]
        simp [pushEv, setIter_events]
      · have hd : d ≠ Desc.iter i ∨ o ≠ Owner.root := by
          rcases not_and_or.mp hcase with h | h
          · exact Or.inl h
          · exact Or.inr h
        have hkeep : attachedD (applyAct s (Act.run (WKind.iterClose o i))) d
            = true := by
          simp only [applyAct]
          unfold runW
          simp only []
          rw [attachedD_detachIter _ o i d hd]
          cases o with
          | root =>
            cases d with
            | iter j =>
              simp only [attachedD, pushEv, setIter]
              rw [attA_updA]
              · exact hA
              · exact fun x => rfl
            | tran u => exact hA
            | snap j => exact hA
          | tran t =>
            cases d with
            | iter j => exact hA
            | tran u =>
              simp only [attachedD, pushEv, setIter]
              rw [attA_updA]
              · exact hA
              · exact fun x => rfl
            | snap j => exact hA
        rw [hkeep] at hA'
        exact Bool.noConfusion hA'
    | iterNext o i =>
      have hkeep : attachedD (applyAct s (Act.run (WKind.iterNext o i))) d = true := by
        simp only [applyAct]
        unfold runW
        simp only []
        rcases getIter { s with queue := s.queue.erase (WKind.iterNext o i) } o i
          with _ | it
        · exact hA
        · simp only []
          split_ifs
          · exact hA
          · cases o with
            | root =>
              cases d with
              | iter j =>
                simp only [attachedD, pushW, pushEv, setIter]
                rw [attA_updA]
                · rw [attA_updA]
                  · exact hA
                  · exact fun x => rfl
                · exact fun x => rfl
              | tran u => exact hA
              | snap j => exact hA
            | tran t =>
              cases d with
              | iter j => exact hA
              | tran u =>
                simp only [attachedD, pushW, pushEv, setIter]
                rw [attA_updA]
                · rw [attA_updA]
                  · exact hA
                  · exact fun x => rfl
                · exact fun x => rfl
              | snap j => exact hA
          · cases o with
            | root =>
              cases d with
              | iter j =>
                simp only [attachedD, pushEv, setIter]
                rw [attA_updA]
                · exact hA
                · exact fun x => rfl
              | tran u => exact hA
              | snap j => exact hA
            | tran t =>
              cases d with
              | iter j => exact hA
              | tran u =>
                simp only [attachedD, pushEv, setIter]
                rw [attA_updA]
                · exact hA
                · exact fun x => rfl
              | snap j => exact hA
      rw [hkeep] at hA'
      exact Bool.noConfusion hA'
    | tranCommit t =>
      rcases hg : getA t s.trans with _ | tr
      · have hkeep : attachedD (applyAct s (Act.run (WKind.tranCommit t))) d
            = true := by
          simp only [applyAct]
          unfold runW
          simp only []
          rw [hg]
          exact hA
        rw [hkeep] at hA'
        exact Bool.noConfusion hA'
      · by_cases hrb : tr.hasRollbacked = true
        · have hkeep : attachedD (applyAct s (Act.run (WKind.tranCommit t))) d
              = true := by
            simp only [applyAct]
            unfold runW
            simp only []
            rw [hg]
            simp only []
            rw [if_pos hrb]
            exact hA
          rw [hkeep] at hA'
          exact Bool.noConfusion hA'
        · by_cases hdt : d = Desc.tran t
          · subst hdt
            refine ⟨WKind.tranCommit t, by simp [teardownEvs], ?_⟩
            simp only [applyAct]
            unfold runW
            simp only []
            rw [hg]
            simp only []
            rw [if_neg hrb, detachTran_events]
            split_ifs <;> simp [pushEv, setTran_events]
          · have hkeep : attachedD (applyAct s (Act.run (WKind.tranCommit t))) d
                = true := by
              simp only [applyAct]
              unfold runW
              simp only []
              rw [hg]
              simp only []
              rw [if_neg hrb, attachedD_detachTran _ t d hdt]
              split_ifs
              · exact hA
              · cases d with
                | iter j => exact hA
                | tran u =>
                  simp only [attachedD, pushEv, setTran]
                  rw [attA_updA]
                  · exact hA
                  · exact fun x => rfl
                | snap j => exact hA
            rw [hkeep] at hA'
            exact Bool.noConfusion hA'
    | tranRollback t =>
      rcases hg : getA t s.trans with _ | tr
      · have hkeep : attachedD (applyAct s (Act.run (WKind.tranRollback t))) d
            = true := by
          simp only [applyAct]
          unfold runW
          simp only []
          rw [hg]
          exact hA
        rw [hkeep] at hA'
        exact Bool.noConfusion hA'
      · by_cases hrb : tr.hasCommitted = true
        · have hkeep : attachedD (applyAct s (Act.run (WKind.tranRollback t))) d
              = true := by
            simp only [applyAct]
            unfold runW
            simp only []
            rw [hg]
            simp only []
            rw [if_pos hrb]
            exact hA
          rw [hkeep] at hA'
          exact Bool.noConfusion hA'
        · by_cases hdt : d = Desc.tran t
          · subst hdt
            refine ⟨WKind.tranRollback t, by simp [teardownEvs], ?_⟩
            simp only [applyAct]
            unfold runW
            simp only []
            rw [hg]
            simp only []
            rw [if_neg hrb, detachTran_events]
            split_ifs <;> simp [pushEv, setTran_events]
          · have hkeep : attachedD (applyAct s (Act.run (WKind.tranRollback t))) d
                = true := by
              simp only [applyAct]
              unfold runW
              simp only []
              rw [hg]
              simp only []
              rw [if_neg hrb, attachedD_detachTran _ t d hdt]
              split_ifs
              · exact hA
              · cases d with
                | iter j => exact hA
                | tran u =>
                  simp only [attachedD, pushEv, setTran]
                  rw [attA_updA]
                  · exact hA
                  · exact fun x => rfl
                | snap j => exact hA
            rw [hkeep] at hA'
            exact Bool.noConfusion hA'
    | tranPriority t op =>
      have hkeep : attachedD (applyAct s (Act.run (WKind.tranPriority t op))) d
          = true := by
        simp only [applyAct]
        unfold runW
        simp only []
        rcases getA t s.trans with _ | tr
        · exact hA
        · simp only []
          split_ifs
          · exact hA
          · rw [attachedD_tranDecr]
            exact hA
      rw [hkeep] at hA'
      exact Bool.noConfusion hA'
    | tranMultiGet t fu =>
      have hkeep : attachedD (applyAct s (Act.run (WKind.tranMultiGet t fu))) d
          = true := by
        simp only [applyAct]
        unfold runW
        simp only []
        rcases getA t s.trans with _ | tr
        · exact hA
        · simp only []
          split_ifs
          · exact hA
          · rw [attachedD_tranDecr]
            exact hA
      rw [hkeep] at hA'
      exact Bool.noConfusion hA'
    | snapRelease i =>
      rcases hg : getA i s.snaps with _ | sp
      · have hkeep : attachedD (applyAct s (Act.run (WKind.snapRelease i))) d
            = true := by
          simp only [applyAct]
          unfold runW
          simp only []
          rw [hg]
          exact hA
        rw [hkeep] at hA'
        exact Bool.noConfusion hA'
      · by_cases hds : d = Desc.snap i
        · subst hds
          by_cases h1 : sp.hasReleased = true
          · refine ⟨WKind.snapRelease i, by simp [teardownEvs], ?_⟩
            simp only [applyAct]
            unfold runW
            simp only []
            rw [hg]
            simp only []
            rw [if_pos h1, (dbDecr_rest _).1, detachSnap_events]
            rfl
          · by_cases h2 : s.db.hasClosed = true
            · have hkeep : attachedD (applyAct s (Act.run (WKind.snapRelease i)))
                  (Desc.snap i) = true := by
                simp only [applyAct]
                unfold runW
                simp only []
                rw [hg]
                simp only []
                rw [if_neg h1, if_pos h2]
                exact hA
              rw [hkeep] at hA'
              exact Bool.noConfusion hA'
            · refine ⟨WKind.snapRelease i, by simp [teardownEvs], ?_⟩
              simp only [applyAct]
              unfold runW
              simp only []
              rw [hg]
              simp only []
              rw [if_neg h1, if_neg h2, (dbDecr_rest _).1, detachSnap_events]
              rfl
        · have hkeep : attachedD (applyAct s (Act.run (WKind.snapRelease i))) d
              = true := by
            simp only [applyAct]
            unfold runW
            simp only []
            rw [hg]
            simp only []
            split_ifs
            · rw [attachedD_dbDecr, attachedD_detachSnap _ i d hds]
              exact hA
            · exact hA
            · rw [attachedD_dbDecr, attachedD_detachSnap _ i d hds]
              cases d with
              | iter j => exact hA
              | tran u => exact hA
              | snap j =>
                simp only [attachedD, pushEv, setSnap]
                rw [attA_updA]
                · exact hA
                · exact fun x => rfl
          rw [hkeep] at hA'
          exact Bool.noConfusion hA'

theorem cntW_pos (pr : WKind → Bool) (w : WKind) (q : List WKind)
    (hm : w ∈ q) (hw : pr w = true) : 1 ≤ cntW pr q := by
  unfold cntW
  exact List.length_pos.mpr (List.ne_nil_of_mem (List.mem_filter.mpr ⟨hm, hw⟩))

theorem attA_of_getA {α : Type} (att : α → Bool) (k : Nat) (l : List (Nat × α))
    (v : α) (hg : getA k l = some v) (hv : att v = true) : attA att k l = true := by
  unfold attA
  rw [hg]
  exact hv

theorem dbDecr_cntW (s : Sys) (pr : WKind → Bool) :
    cntW pr (dbDecr s).queue = cntW pr s.queue + cntW pr [WKind.dbClose] ∨
    cntW pr (dbDecr s).queue = cntW pr s.queue := by
  rcases dbDecr_queue_cases s with hq | ⟨hq, _⟩
  · right
    rw [hq]
  · left
    rw [hq, cntW_append]

theorem acct_detachIter (s : Sys) (o : Owner) (i : Nat) (h : dbAcct s) :
    dbAcct (detachIter s o i) := by
  unfold detachIter
  rcases hg : getIter s o i with _ | it
  · exact h
  · simp only []
    split_ifs with ha
    · cases o with
      | root =>
        have hA1 : 1 ≤ cntAtt (fun x => x.attached) s.iters :=
          attA_pos _ i _ (attA_of_getA _ _ _ _ hg ha)
        have hc : cntAtt (fun x => x.attached)
            (updA i (fun x => { x with attached := false }) s.iters) + 1
            = cntAtt (fun x => x.attached) s.iters :=
          cntAtt_updA_detach _ _ _ it (fun x => rfl) _ hg ha
        unfold dbAcct at h ⊢
        rw [(dbDecr_rest _).2.2.2.2.2]
        rw [show (setIter s Owner.root i fun x => { x with attached := false }).db.pendingWork
          = s.db.pendingWork from rfl]
        rw [show (dbDecr (setIter s Owner.root i fun x =>
          { x with attached := false })).iters
          = updA i (fun x => { x with attached := false }) s.iters from
          (dbDecr_rest _).2.1]
        rw [show (dbDecr (setIter s Owner.root i fun x =>
          { x with attached := false })).trans = s.trans from (dbDecr_rest _).2.2.1]
        rw [show (dbDecr (setIter s Owner.root i fun x =>
          { x with attached := false })).snaps = s.snaps from (dbDecr_rest _).2.2.2.1]
        rcases dbDecr_cntW (setIter s Owner.root i fun x =>
          { x with attached := false }) isDbPri with h1 | h1 <;>
        rcases dbDecr_cntW (setIter s Owner.root i fun x =>
          { x with attached := false }) isSnapRel with h2 | h2 <;>
        rw [h1, h2] <;>
        rw [show cntW isDbPri (setIter s Owner.root i fun x =>
          { x with attached := false }).queue = cntW isDbPri s.queue from rfl,
          show cntW isSnapRel (setIter s Owner.root i fun x =>
          { x with attached := false }).queue = cntW isSnapRel s.queue from rfl] <;>
        all_goals
          have z1 : cntW isDbPri [WKind.dbClose] = 0 := rfl
        all_goals
          have z2 : cntW isSnapRel [WKind.dbClose] = 0 := rfl
        all_goals omega
      | tran t =>
        have hdb : (tranDecr (setIter s (.tran t) i fun x =>
            { x with attached := false }) t).db
            = s.db := by
          rw [tranDecr_db]
          rfl
        unfold dbAcct at h ⊢
        rw [congrArg DbSt.pendingWork hdb]
        rw [(tranDecr_rest _ _).2.1]
        rw [show (setIter s (.tran t) i fun x => { x with attached := false }).iters
          = s.iters from rfl]
        rw [(tranDecr_rest _ _).2.2.1]
        rw [show (setIter s (.tran t) i fun x => { x with attached := false }).snaps
          = s.snaps from rfl]
        rcases tranDecr_queue (setIter s (.tran t) i fun x =>
          { x with attached := false }) t with ⟨ws, hws, hq⟩
        rw [hq]
        rw [show (setIter s (.tran t) i fun x => { x with attached := false }).queue
          = s.queue from rfl]
        rw [cntW_append, cntW_append]
        rw [cntW_all_neg _ _ fun w hw => (hws w hw).1,
          cntW_all_neg _ _ fun w hw => (hws w hw).2.1]
        have hct : cntAtt (fun x => x.attached)
            (tranDecr (setIter s (.tran t) i fun x =>
              { x with attached := false }) t).trans
            = cntAtt (fun x => x.attached) s.trans := by
          rw [(tranDecr_rest _ _).2.2.2.2.1]
          exact cntAtt_updA _ _ _ _ fun x => rfl
        rw [hct]
        omega
    · exact h

theorem acct_detachTran (s : Sys) (t : Nat) (h : dbAcct s) :
    dbAcct (detachTran s t) := by
  unfold detachTran
  rcases hg : getA t s.trans with _ | tr
  · exact h
  · simp only []
    split_ifs with ha
    · have hA1 : 1 ≤ cntAtt (fun x => x.attached) s.trans :=
        attA_pos _ t _ (attA_of_getA _ _ _ _ hg ha)
      have hc : cntAtt (fun x => x.attached)
          (updA t (fun x => { x with attached := false }) s.trans) + 1
          = cntAtt (fun x => x.attached) s.trans :=
        cntAtt_updA_detach _ _ _ tr (fun x => rfl) _ hg ha
      unfold dbAcct at h ⊢
      rw [(dbDecr_rest _).2.2.2.2.2]
      rw [show (setTran s t fun x => { x with attached := false }).db.pendingWork
        = s.db.pendingWork from rfl]
      rw [show (dbDecr (setTran s t fun x => { x with attached := false })).iters
        = s.iters from (dbDecr_rest _).2.1]
      rw [show (dbDecr (setTran s t fun x => { x with attached := false })).trans
        = updA t (fun x => { x with attached := false }) s.trans from
        (dbDecr_rest _).2.2.1]
      rw [show (dbDecr (setTran s t fun x => { x with attached := false })).snaps
        = s.snaps from (dbDecr_rest _).2.2.2.1]
      rcases dbDecr_cntW (setTran s t fun x => { x with attached := false })
        isDbPri with h1 | h1 <;>
      rcases dbDecr_cntW (setTran s t fun x => { x with attached := false })
        isSnapRel with h2 | h2 <;>
      rw [h1, h2] <;>
      rw [show cntW isDbPri (setTran s t fun x =>
        { x with attached := false }).queue = cntW isDbPri s.queue from rfl,
        show cntW isSnapRel (setTran s t fun x =>
        { x with attached := false }).queue = cntW isSnapRel s.queue from rfl]
      all_goals
        have z1 : cntW isDbPri [WKind.dbClose] = 0 := rfl
      all_goals
        have z2 : cntW isSnapRel [WKind.dbClose] = 0 := rfl
      all_goals omega
    · exact h

theorem acct_detachSnap (s : Sys) (i : Nat) (h : dbAcct s) :
    dbAcct (detachSnap s i) := by
  unfold detachSnap
  rcases hg : getA i s.snaps with _ | sp
  · exact h
  · simp only []
    split_ifs with ha
    · have hA1 : 1 ≤ cntAtt (fun x => x.attached) s.snaps :=
        attA_pos _ i _ (attA_of_getA _ _ _ _ hg ha)
      have hc : cntAtt (fun x => x.attached)
          (updA i (fun x => { x with attached := false }) s.snaps) + 1
          = cntAtt (fun x => x.attached) s.snaps :=
        cntAtt_updA_detach _ _ _ sp (fun x => rfl) _ hg ha
      unfold dbAcct at h ⊢
      rw [(dbDecr_rest _).2.2.2.2.2]
      rw [show (setSnap s i fun x => { x with attached := false }).db.pendingWork
        = s.db.pendingWork from rfl]
      rw [show (dbDecr (setSnap s i fun x => { x with attached := false })).iters
        = s.iters from (dbDecr_rest _).2.1]
      rw [show (dbDecr (setSnap s i fun x => { x with attached := false })).trans
        = s.trans from (dbDecr_rest _).2.2.1]
      rw [show (dbDecr (setSnap s i fun x => { x with attached := false })).snaps
        = updA i (fun x => { x with attached := false }) s.snaps from
        (dbDecr_rest _).2.2.2.1]
      rcases dbDecr_cntW (setSnap s i fun x => { x with attached := false })
        isDbPri with h1 | h1 <;>
      rcases dbDecr_cntW (setSnap s i fun x => { x with attached := false })
        isSnapRel with h2 | h2 <;>
      rw [h1, h2] <;>
      rw [show cntW isDbPri (setSnap s i fun x =>
        { x with attached := false }).queue = cntW isDbPri s.queue from rfl,
        show cntW isSnapRel (setSnap s i fun x =>
        { x with attached := false }).queue = cntW isSnapRel s.queue from rfl]
      all_goals
        have z1 : cntW isDbPri [WKind.dbClose] = 0 := rfl
      all_goals
        have z2 : cntW isSnapRel [WKind.dbClose] = 0 := rfl
      all_goals omega
    · exact h

theorem acct_snapFinish (Y : Sys) (i : Nat)
    (h : Y.db.pendingWork = cntAtt (fun x => x.attached) Y.iters
      + cntAtt (fun x => x.attached) Y.trans
      + cntAtt (fun x => x.attached) Y.snaps
      + cntW isDbPri Y.queue + (cntW isSnapRel Y.queue + 1)) :
    dbAcct (dbDecr (detachSnap Y i)) := by
  unfold detachSnap
  rcases hg : getA i Y.snaps with _ | sp
  · simp only []
    unfold dbAcct
    have e1 : (dbDecr Y).db.pendingWork = Y.db.pendingWork - 1 :=
      (dbDecr_rest _).2.2.2.2.2
    have cI : cntAtt (fun x => x.attached) (dbDecr Y).iters
        = cntAtt (fun x => x.attached) Y.iters := by
      rw [(dbDecr_rest _).2.1]
    have cT : cntAtt (fun x => x.attached) (dbDecr Y).trans
        = cntAtt (fun x => x.attached) Y.trans := by
      rw [(dbDecr_rest _).2.2.1]
    have cS : cntAtt (fun x => x.attached) (dbDecr Y).snaps
        = cntAtt (fun x => x.attached) Y.snaps := by
      rw [(dbDecr_rest _).2.2.2.1]
    have z1 : cntW isDbPri [WKind.dbClose] = 0 := rfl
    have z2 : cntW isSnapRel [WKind.dbClose] = 0 := rfl
    rcases dbDecr_cntW Y isDbPri with q1 | q1 <;>
      rcases dbDecr_cntW Y isSnapRel with q2 | q2 <;> omega
  · simp only []
    split_ifs with ha
    · have hA1 : 1 ≤ cntAtt (fun x => x.attached) Y.snaps :=
        attA_pos _ i _ (attA_of_getA _ _ _ _ hg ha)
      have hc : cntAtt (fun x => x.attached)
          (updA i (fun x => { x with attached := false }) Y.snaps) + 1
          = cntAtt (fun x => x.attached) Y.snaps :=
        cntAtt_updA_detach _ _ _ sp (fun x => rfl) _ hg ha
      unfold dbAcct
      have e1 : (dbDecr (dbDecr (setSnap Y i fun x =>
          { x with attached := false }))).db.pendingWork
          = (dbDecr (setSnap Y i fun x =>
            { x with attached := false })).db.pendingWork - 1 :=
        (dbDecr_rest _).2.2.2.2.2
      have e2 : (dbDecr (setSnap Y i fun x =>
          { x with attached := false })).db.pendingWork
          = Y.db.pendingWork - 1 :=
        (dbDecr_rest _).2.2.2.2.2
      have cI : cntAtt (fun x => x.attached) (dbDecr (dbDecr (setSnap Y i fun x =>
          { x with attached := false }))).iters
          = cntAtt (fun x => x.attached) Y.iters := by
        rw [(dbDecr_rest _).2.1, (dbDecr_rest _).2.1]
        rfl
      have cT : cntAtt (fun x => x.attached) (dbDecr (dbDecr (setSnap Y i fun x =>
          { x with attached := false }))).trans
          = cntAtt (fun x => x.attached) Y.trans := by
        rw [(dbDecr_rest _).2.2.1, (dbDecr_rest _).2.2.1]
        rfl
      have cS : cntAtt (fun x => x.attached) (dbDecr (dbDecr (setSnap Y i fun x =>
          { x with attached := false }))).snaps
          = cntAtt (fun x => x.attached)
            (updA i (fun x => { x with attached := false }) Y.snaps) := by
        rw [(dbDecr_rest _).2.2.2.1, (dbDecr_rest _).2.2.2.1]
        rfl
      have qc1 : cntW isDbPri (setSnap Y i fun x =>
          { x with attached := false }).queue = cntW isDbPri Y.queue := rfl
      have qc2 : cntW isSnapRel (setSnap Y i fun x =>
          { x with attached := false }).queue = cntW isSnapRel Y.queue := rfl
      have z1 : cntW isDbPri [WKind.dbClose] = 0 := rfl
      have z2 : cntW isSnapRel [WKind.dbClose] = 0 := rfl
      rcases dbDecr_cntW (dbDecr (setSnap Y i fun x =>
        { x with attached := false })) isDbPri with qa1 | qa1 <;>
      rcases dbDecr_cntW (dbDecr (setSnap Y i fun x =>
        { x with attached := false })) isSnapRel with qa2 | qa2 <;>
      rcases dbDecr_cntW (setSnap Y i fun x =>
        { x with attached := false }) isDbPri with qb1 | qb1 <;>
      rcases dbDecr_cntW (setSnap Y i fun x =>
        { x with attached := false }) isSnapRel with qb2 | qb2 <;>
      omega
    · unfold dbAcct
      have e1 : (dbDecr Y).db.pendingWork = Y.db.pendingWork - 1 :=
        (dbDecr_rest _).2.2.2.2.2
      have cI : cntAtt (fun x => x.attached) (dbDecr Y).iters
          = cntAtt (fun x => x.attached) Y.iters := by
        rw [(dbDecr_rest _).2.1]
      have cT : cntAtt (fun x => x.attached) (dbDecr Y).trans
          = cntAtt (fun x => x.attached) Y.trans := by
        rw [(dbDecr_rest _).2.2.1]
      have cS : cntAtt (fun x => x.attached) (dbDecr Y).snaps
          = cntAtt (fun x => x.attached) Y.snaps := by
        rw [(dbDecr_rest _).2.2.2.1]
      have z1 : cntW isDbPri [WKind.dbClose] = 0 := rfl
      have z2 : cntW isSnapRel [WKind.dbClose] = 0 := rfl
      rcases dbDecr_cntW Y isDbPri with q1 | q1 <;>
        rcases dbDecr_cntW Y isSnapRel with q2 | q2 <;> omega

theorem getA_isSome_updA {α : Type} (k j : Nat) (f : α → α) (l : List (Nat × α)) :
    (getA k (updA j f l)).isSome = (getA k l).isSome := by
  by_cases hj : j = k
  · subst hj
    rw [getA_updA]
    cases getA j l <;> rfl
  · rw [getA_updA_ne _ _ _ _ fun he => hj he.symm]

theorem getA_isSome_append {α : Type} (k : Nat) (l l' : List (Nat × α))
    (h : (getA k l).isSome = true) : (getA k (l ++ l')).isSome = true := by
  rcases hg : getA k l with _ | v
  · rw [hg] at h
    exact absurd h Bool.false_ne_true
  · rw [getA_append_some k v l l' hg]
    rfl

theorem getA_isSome_map {α β : Type} (k : Nat) (f : Nat × α → Nat × β)
    (hf : ∀ p, (f p).1 = p.1) (l : List (Nat × α)) :
    (getA k (l.map f)).isSome = (getA k l).isSome := by
  rw [getA_map_key k f hf l]
  cases getA k l <;> rfl

theorem mem_getA_isSome {α : Type} (k : Nat) (v : α) :
    ∀ l : List (Nat × α), (k, v) ∈ l → (getA k l).isSome = true := by
  intro l
  induction l with
  | nil => intro h; exact absurd h (by simp)
  | cons p r ih =>
    intro h
    simp only [getA]
    by_cases hp : p.1 = k
    · rw [if_pos hp]
      rfl
    · rw [if_neg hp]
      rcases List.mem_cons.mp h with he | hr
      · exact absurd (congrArg Prod.fst he.symm) hp
      · exact ih hr

theorem mem_snapRel_append (j : Nat) (q ws : List WKind)
    (h : ∀ w ∈ ws, isSnapRel w = false)
    (hm : WKind.snapRelease j ∈ q ++ ws) : WKind.snapRelease j ∈ q :=
  (List.mem_append.mp hm).resolve_right fun hw => Bool.noConfusion (h _ hw)

theorem dbDecr_snapRel_mem (X : Sys) (j : Nat)
    (hm : WKind.snapRelease j ∈ (dbDecr X).queue) :
    WKind.snapRelease j ∈ X.queue := by
  rcases dbDecr_queue_cases X with hq | ⟨hq, _⟩
  · rwa [hq] at hm
  · rw [hq] at hm
    exact mem_snapRel_append _ _ _ (fun w hw => by
      rcases List.mem_singleton.mp hw with rfl
      rfl) hm

theorem tranDecr_snapRel_mem (X : Sys) (t j : Nat)
    (hm : WKind.snapRelease j ∈ (tranDecr X t).queue) :
    WKind.snapRelease j ∈ X.queue := by
  rcases tranDecr_queue X t with ⟨ws, hws, hq⟩
  rw [hq] at hm
  exact mem_snapRel_append _ _ _ (fun w hw => (hws w hw).2.1) hm

theorem detachIter_snapRel_mem (X : Sys) (o : Owner) (i j : Nat) :
    WKind.snapRelease j ∈ (detachIter X o i).queue →
    WKind.snapRelease j ∈ X.queue := by
  unfold detachIter
  rcases hg : getIter X o i with _ | it <;> simp only []
  · exact fun hm => hm
  · split_ifs
    · cases o with
      | root =>
        intro hm
        have h := dbDecr_snapRel_mem _ _ hm
        rwa [setIter_queue] at h
      | tran t =>
        intro hm
        have h := tranDecr_snapRel_mem _ _ _ hm
        rwa [setIter_queue] at h
    · exact fun hm => hm

theorem detachTran_snapRel_mem (X : Sys) (t j : Nat) :
    WKind.snapRelease j ∈ (detachTran X t).queue →
    WKind.snapRelease j ∈ X.queue := by
  unfold detachTran
  rcases hg : getA t X.trans with _ | tr <;> simp only []
  · exact fun hm => hm
  · split_ifs
    · intro hm
      have h := dbDecr_snapRel_mem _ _ hm
      rwa [setTran_queue] at h
    · exact fun hm => hm

theorem detachSnap_snapRel_mem (X : Sys) (i j : Nat) :
    WKind.snapRelease j ∈ (detachSnap X i).queue →
    WKind.snapRelease j ∈ X.queue := by
  unfold detachSnap
  rcases hg : getA i X.snaps with _ | sp <;> simp only []
  · exact fun hm => hm
  · split_ifs
    · intro hm
      have h := dbDecr_snapRel_mem _ _ hm
      rwa [setSnap_queue] at h
    · exact fun hm => hm

theorem detachIter_snaps (X : Sys) (o : Owner) (i : Nat) :
    (detachIter X o i).snaps = X.snaps := by
  unfold detachIter
  rcases hg : getIter X o i with _ | it
  · rfl
  · simp only []
    split_ifs
    · cases o with
      | root =>
        rw [(dbDecr_rest _).2.2.2.1]
        rfl
      | tran t =>
        rw [(tranDecr_rest _ _).2.2.1]
        rfl
    · rfl

theorem detachTran_snaps (X : Sys) (t : Nat) :
    (detachTran X t).snaps = X.snaps := by
  unfold detachTran
  rcases hg : getA t X.trans with _ | tr
  · rfl
  · simp only []
    split_ifs
    · rw [(dbDecr_rest _).2.2.2.1]
      rfl
    · rfl

theorem detachSnap_isSome (X : Sys) (i k : Nat) :
    (getA k (detachSnap X i).snaps).isSome = (getA k X.snaps).isSome := by
  unfold detachSnap
  rcases hg : getA i X.snaps with _ | sp
  · rfl
  · simp only []
    split_ifs
    · rw [(dbDecr_rest _).2.2.2.1]
      exact getA_isSome_updA _ _ _ _
    · rfl

theorem setIter_snaps (s : Sys) (o : Owner) (i : Nat) (f : IterSt → IterSt) :
    (setIter s o i f).snaps = s.snaps := by
  cases o <;> rfl

/-- Every step preserves the fact that queued snapshot releases refer
to registered snapshots. -/
theorem stepSnapReg (s : Sys) (a : Act) (hallow : allowedAct s a = true)
    (hsr : SnapReg s) : SnapReg (applyAct s a) := by
  intro j
  have hone : ∀ (w : WKind) (q : List WKind), WKind.snapRelease j ∈ q ++ [w] →
      isSnapRel w = false → WKind.snapRelease j ∈ q := by
    intro w q hm hw
    exact mem_snapRel_append _ _ _ (fun x hx => by
      rcases List.mem_singleton.mp hx with rfl
      exact hw) hm
  cases a with
  | dbOpen ok =>
    simp only [applyAct]
    unfold reqDbOpen
    exact fun hm => hsr j (hone _ _ hm rfl)
  | dbClose =>
    simp only [applyAct]
    unfold reqDbClose
    simp only []
    split_ifs
    · intro hm
      have hm2 : WKind.snapRelease j ∈ (s.queue ++ (cascadeIters Owner.root s.iters).2)
          ++ (List.map tranRollbackEntry s.trans).flatMap Prod.snd := hm
      exact hsr j (mem_snapRel_append _ _ _
        (fun w hw => (cascade_kinds _ _ w hw).2.1)
        (mem_snapRel_append _ _ _ (fun w hw => (rows_kinds _ w hw).2.1) hm2))
    · intro hm
      have hkey : (getA j ((List.map snapRelEntry s.snaps).map Prod.fst)).isSome
          = (getA j s.snaps).isSome := by
        rw [List.map_map]
        exact getA_isSome_map _ _ (fun p => (snapRelEntry_fst p).1) _
      have hm2 : WKind.snapRelease j ∈ (((s.queue ++ (cascadeIters Owner.root s.iters).2)
          ++ (List.map tranRollbackEntry s.trans).flatMap Prod.snd)
          ++ (List.map snapRelEntry s.snaps).filterMap Prod.snd) := hm
      show (getA j ((List.map snapRelEntry s.snaps).map Prod.fst)).isSome = true
      rw [hkey]
      rcases List.mem_append.mp hm2 with hq | hadds
      · exact hsr j (mem_snapRel_append _ _ _
          (fun w hw => (cascade_kinds _ _ w hw).2.1)
          (mem_snapRel_append _ _ _ (fun w hw => (rows_kinds _ w hw).2.1) hq))
      · rcases List.mem_filterMap.mp hadds with ⟨r, hr, hsnd⟩
        rcases List.mem_map.mp hr with ⟨p, hp, rfl⟩
        have hw := snapRelEntry_some p _ hsnd
        have h1 : j = p.1 := by
          injection hw
        subst h1
        exact mem_getA_isSome _ p.2 _ (by rw [Prod.mk.eta]; exact hp)
    · exact fun hm => hsr j (hone _ _ hm rfl)
  | dbPriority op =>
    simp only [applyAct]
    unfold reqDbPriority
    split_ifs
    · exact fun hm => hsr j hm
    · exact fun hm => hsr j (hone _ _ hm rfl)
  | iterInit =>
    simp only [applyAct]
    unfold reqIterInit
    split_ifs <;> exact fun hm => hsr j hm
  | tranInit =>
    simp only [applyAct]
    unfold reqTranInit
    split_ifs <;> exact fun hm => hsr j hm
  | snapInit =>
    simp only [applyAct]
    unfold reqSnapInit
    split_ifs
    · exact fun hm => hsr j hm
    · intro hm
      exact getA_isSome_append _ _ _ (hsr j hm)
  | tranIterInit t =>
    simp only [applyAct]
    unfold reqTranIterInit
    rcases getA t s.trans with _ | tr <;> [skip; (simp only []; split_ifs)] <;>
      exact fun hm => hsr j hm
  | iterClose o i =>
    simp only [applyAct]
    unfold reqIterClose iterCloseDo
    rcases getIter s o i with _ | it
    · exact fun hm => hsr j hm
    · simp only []
      split_ifs
      · exact fun hm => hsr j hm
      · intro hm
        show (getA j (setIter s o i fun x =>
          { x with isClosing := true, closeSlot := true }).snaps).isSome = true
        rw [setIter_snaps]
        have hm2 : WKind.snapRelease j ∈ (setIter s o i fun x =>
            { x with isClosing := true, closeSlot := true }).queue := hm
        rw [setIter_queue] at hm2
        exact hsr j hm2
      · intro hm
        show (getA j (setIter s o i fun x =>
          { x with isClosing := true }).snaps).isSome = true
        rw [setIter_snaps]
        have hm2 : WKind.snapRelease j ∈ (setIter s o i fun x =>
            { x with isClosing := true }).queue ++ [WKind.iterClose o i] := hm
        have hm3 := hone _ _ hm2 rfl
        rw [setIter_queue] at hm3
        exact hsr j hm3
  | iterNextv o i =>
    simp only [applyAct]
    unfold reqIterNextv
    rcases getIter s o i with _ | it
    · exact fun hm => hsr j hm
    · simp only []
      split_ifs
      · exact fun hm => hsr j hm
      · intro hm
        show (getA j (setIter s o i fun x =>
          { x with nexting := true }).snaps).isSome = true
        rw [setIter_snaps]
        have hm2 : WKind.snapRelease j ∈ (setIter s o i fun x =>
            { x with nexting := true }).queue ++ [WKind.iterNext o i] := hm
        have hm3 := hone _ _ hm2 rfl
        rw [setIter_queue] at hm3
        exact hsr j hm3
  | iterSeek o i =>
    simp only [applyAct]
    unfold reqIterSeek
    rcases getIter s o i with _ | it
    · exact fun hm => hsr j hm
    · simp only []
      split_ifs
      · exact fun hm => hsr j hm
      · intro hm
        show (getA j (setIter s o i fun x =>
          { x with first := true }).snaps).isSome = true
        rw [setIter_snaps]
        have hm2 : WKind.snapRelease j ∈ (setIter s o i fun x =>
            { x with first := true }).queue := hm
        rw [setIter_queue] at hm2
        exact hsr j hm2
  | tranCommit t =>
    simp only [applyAct]
    unfold reqTranCommit
    rcases getA t s.trans with _ | tr
    · exact fun hm => hsr j hm
    · simp only []
      split_ifs
      · exact fun hm => hsr j hm
      · exact fun hm => hsr j hm
      · intro hm
        exact hsr j (mem_snapRel_append _ _ _
          (fun w hw => (cascade_kinds _ _ w hw).2.1) hm)
      · exact fun hm => hsr j (hone _ _ hm rfl)
  | tranRollback t =>
    simp only [applyAct]
    unfold reqTranRollback tranRollbackDo
    rcases getA t s.trans with _ | tr
    · exact fun hm => hsr j hm
    · simp only []
      split_ifs
      · exact fun hm => hsr j hm
      · exact fun hm => hsr j hm
      · intro hm
        exact hsr j (mem_snapRel_append _ _ _
          (fun w hw => (cascade_kinds _ _ w hw).2.1) hm)
      · exact fun hm => hsr j (hone _ _ hm rfl)
  | tranOp t op =>
    simp only [applyAct]
    unfold reqTranOp
    rcases getA t s.trans with _ | tr
    · exact fun hm => hsr j hm
    · simp only []
      split_ifs <;> exact fun hm => hsr j (by
        first
          | exact hm
          | exact hone _ _ hm rfl)
  | tranOpThrow t op =>
    simp only [applyAct]
    unfold reqTranOpThrow
    rcases getA t s.trans with _ | tr
    · exact fun hm => hsr j hm
    · simp only []
      split_ifs <;> exact fun hm => hsr j (by
        first
          | exact hm
          | exact hone _ _ hm rfl)
  | tranSnapshot t =>
    simp only [applyAct]
    unfold reqTranSnapshot
    rcases getA t s.trans with _ | tr
    · exact fun hm => hsr j hm
    · simp only []
      split_ifs <;> exact fun hm => hsr j hm
  | tranMultiGet t fu =>
    simp only [applyAct]
    unfold reqTranMultiGet
    rcases getA t s.trans with _ | tr
    · exact fun hm => hsr j hm
    · simp only []
      split_ifs <;> exact fun hm => hsr j (by
        first
          | exact hm
          | exact hone _ _ hm rfl)
  | snapRelease i =>
    simp only [applyAct]
    unfold reqSnapRelease
    rcases hg : getA i s.snaps with _ | sp
    · exact fun hm => hsr j hm
    · simp only []
      split_ifs
      · exact fun hm => hsr j hm
      · exact fun hm => hsr j hm
      · intro hm
        show (getA j (updA i (fun x => { x with isReleasing := true })
          s.snaps)).isSome = true
        rw [getA_isSome_updA]
        have hm2 : WKind.snapRelease j ∈ s.queue ++ [WKind.snapRelease i] := hm
        rcases List.mem_append.mp hm2 with hq | hone2
        · exact hsr j hq
        · rcases List.mem_singleton.mp hone2 with heq
          have h1 : j = i := by
            injection heq
          subst h1
          rw [hg]
          rfl
  | run w =>
    cases w with
    | dbOpen ok =>
      simp only [applyAct]
      unfold runW
      simp only []
      split_ifs <;> exact fun hm => hsr j (List.mem_of_mem_erase hm)
    | dbClose =>
      simp only [applyAct]
      unfold runW
      simp only []
      split_ifs <;> exact fun hm => hsr j (List.mem_of_mem_erase hm)
    | dbPriority op =>
      simp only [applyAct]
      unfold runW
      simp only []
      split_ifs
      · exact fun hm => hsr j hm
      · intro hm
        show (getA j (dbDecr (pushEv
          { s with queue := s.queue.erase (WKind.dbPriority op) }
          (WKind.dbPriority op))).snaps).isSome = true
        rw [(dbDecr_rest _).2.2.2.1]
        exact hsr j (List.mem_of_mem_erase (dbDecr_snapRel_mem _ _ hm))
    | iterClose o i =>
      simp only [applyAct]
      unfold runW
      simp only []
      intro hm
      have hm2 := detachIter_snapRel_mem _ o i j hm
      have hm3 : WKind.snapRelease j ∈ (setIter
          { s with queue := s.queue.erase (WKind.iterClose o i) } o i
          fun x => { x with hasClosed := true }).queue := hm2
      rw [setIter_queue] at hm3
      have hiso := detachIter_snaps (pushEv (setIter
        { s with queue := s.queue.erase (WKind.iterClose o i) } o i
        fun x => { x with hasClosed := true }) (WKind.iterClose o i)) o i
      show (getA j (detachIter (pushEv (setIter
        { s with queue := s.queue.erase (WKind.iterClose o i) } o i
        fun x => { x with hasClosed := true }) (WKind.iterClose o i)) o i).snaps).isSome
        = true
      rw [hiso, show (pushEv (setIter
        { s with queue := s.queue.erase (WKind.iterClose o i) } o i
        fun x => { x with hasClosed := true }) (WKind.iterClose o i)).snaps
        = (setIter { s with queue := s.queue.erase (WKind.iterClose o i) } o i
          fun x => { x with hasClosed := true }).snaps from rfl, setIter_snaps]
      exact hsr j (List.mem_of_mem_erase hm3)
    | iterNext o i =>
      simp only [applyAct]
      unfold runW
      simp only []
      rcases getIter { s with queue := s.queue.erase (WKind.iterNext o i) } o i
        with _ | it
      · exact fun hm => hsr j (List.mem_of_mem_erase hm)
      · simp only []
        split_ifs
        · exact fun hm => hsr j hm
        · intro hm
          show (getA j (setIter (setIter (pushEv
            { s with queue := s.queue.erase (WKind.iterNext o i) }
            (WKind.iterNext o i)) o i fun x => { x with nexting := false }) o i
            fun x => { x with closeSlot := false }).snaps).isSome = true
          rw [setIter_snaps, setIter_snaps]
          have hm2 : WKind.snapRelease j ∈ (setIter (setIter (pushEv
              { s with queue := s.queue.erase (WKind.iterNext o i) }
              (WKind.iterNext o i)) o i fun x => { x with nexting := false }) o i
              fun x => { x with closeSlot := false }).queue ++ [WKind.iterClose o i]
            := hm
          have hm3 := hone _ _ hm2 rfl
          rw [setIter_queue, setIter_queue] at hm3
          exact hsr j (List.mem_of_mem_erase hm3)
        · intro hm
          show (getA j (setIter (pushEv
            { s with queue := s.queue.erase (WKind.iterNext o i) }
            (WKind.iterNext o i)) o i fun x => { x with nexting := false }).snaps).isSome
            = true
          rw [setIter_snaps]
          have hm2 : WKind.snapRelease j ∈ (setIter (pushEv
              { s with queue := s.queue.erase (WKind.iterNext o i) }
              (WKind.iterNext o i)) o i fun x => { x with nexting := false }).queue := hm
          rw [setIter_queue] at hm2
          exact hsr j (List.mem_of_mem_erase hm2)
    | tranCommit t =>
      simp only [applyAct]
      unfold runW
      simp only []
      rcases getA t s.trans with _ | tr
      · exact fun hm => hsr j (List.mem_of_mem_erase hm)
      · simp only []
        split_ifs
        · exact fun hm => hsr j hm
        · intro hm
          have hm2 := detachTran_snapRel_mem _ t j hm
          show (getA j (detachTran (pushEv
            { s with queue := s.queue.erase (WKind.tranCommit t) }
            (WKind.tranCommit t)) t).snaps).isSome = true
          rw [detachTran_snaps]
          exact hsr j (List.mem_of_mem_erase hm2)
        · intro hm
          have hm2 := detachTran_snapRel_mem _ t j hm
          have hm3 : WKind.snapRelease j ∈ (setTran
              { s with queue := s.queue.erase (WKind.tranCommit t) } t
              fun x => { x with hasCommitted := true }).queue := hm2
          rw [setTran_queue] at hm3
          show (getA j (detachTran (pushEv (setTran
            { s with queue := s.queue.erase (WKind.tranCommit t) } t
            fun x => { x with hasCommitted := true }) (WKind.tranCommit t)) t).snaps).isSome
            = true
          rw [detachTran_snaps]
          exact hsr j (List.mem_of_mem_erase hm3)
    | tranRollback t =>
      simp only [applyAct]
      unfold runW
      simp only []
      rcases getA t s.trans with _ | tr
      · exact fun hm => hsr j (List.mem_of_mem_erase hm)
      · simp only []
        split_ifs
        · exact fun hm => hsr j hm
        · intro hm
          have hm2 := detachTran_snapRel_mem _ t j hm
          show (getA j (detachTran (pushEv
            { s with queue := s.queue.erase (WKind.tranRollback t) }
            (WKind.tranRollback t)) t).snaps).isSome = true
          rw [detachTran_snaps]
          exact hsr j (List.mem_of_mem_erase hm2)
        · intro hm
          have hm2 := detachTran_snapRel_mem _ t j hm
          have hm3 : WKind.snapRelease j ∈ (setTran
              { s with queue := s.queue.erase (WKind.tranRollback t) } t
              fun x => { x with hasRollbacked := true }).queue := hm2
          rw [setTran_queue] at hm3
          show (getA j (detachTran (pushEv (setTran
            { s with queue := s.queue.erase (WKind.tranRollback t) } t
            fun x => { x with hasRollbacked := true }) (WKind.tranRollback t)) t).snaps).isSome
            = true
          rw [detachTran_snaps]
          exact hsr j (List.mem_of_mem_erase hm3)
    | tranPriority t op =>
      simp only [applyAct]
      unfold runW
      simp only []
      rcases getA t s.trans with _ | tr
      · exact fun hm => hsr j (List.mem_of_mem_erase hm)
      · simp only []
        split_ifs
        · exact fun hm => hsr j hm
        · intro hm
          have hm2 := tranDecr_snapRel_mem _ t j hm
          show (getA j (tranDecr (pushEv
            { s with queue := s.queue.erase (WKind.tranPriority t op) }
            (WKind.tranPriority t op)) t).snaps).isSome = true
          rw [(tranDecr_rest _ _).2.2.1]
          exact hsr j (List.mem_of_mem_erase hm2)
    | tranMultiGet t fu =>
      simp only [applyAct]
      unfold runW
      simp only []
      rcases getA t s.trans with _ | tr
      · exact fun hm => hsr j (List.mem_of_mem_erase hm)
      · simp only []
        split_ifs
        · exact fun hm => hsr j hm
        · intro hm
          have hm2 := tranDecr_snapRel_mem _ t j hm
          show (getA j (tranDecr (pushEv
            { s with queue := s.queue.erase (WKind.tranMultiGet t fu) }
            (WKind.tranMultiGet t fu)) t).snaps).isSome = true
          rw [(tranDecr_rest _ _).2.2.1]
          exact hsr j (List.mem_of_mem_erase hm2)
    | snapRelease i =>
      simp only [applyAct]
      unfold runW
      simp only []
      rcases hg : getA i s.snaps with _ | sp
      · exact fun hm => hsr j (List.mem_of_mem_erase hm)
      · simp only []
        split_ifs
        · intro hm
          have hm2 := dbDecr_snapRel_mem _ _ hm
          have hm3 := detachSnap_snapRel_mem _ i j hm2
          show (getA j (dbDecr (detachSnap (pushEv
            { s with queue := s.queue.erase (WKind.snapRelease i) }
            (WKind.snapRelease i)) i)).snaps).isSome = true
          rw [(dbDecr_rest _).2.2.2.1, detachSnap_isSome]
          exact hsr j (List.mem_of_mem_erase hm3)
        · exact fun hm => hsr j hm
        · intro hm
          have hm2 := dbDecr_snapRel_mem _ _ hm
          have hm3 := detachSnap_snapRel_mem _ i j hm2
          have hm4 : WKind.snapRelease j ∈ (setSnap
              { s with queue := s.queue.erase (WKind.snapRelease i) } i
              fun x => { x with hasReleased := true }).queue := hm3
          rw [setSnap_queue] at hm4
          show (getA j (dbDecr (detachSnap (pushEv (setSnap
            { s with queue := s.queue.erase (WKind.snapRelease i) } i
            fun x => { x with hasReleased := true }) (WKind.snapRelease i)) i)).snaps).isSome
            = true
          rw [(dbDecr_rest _).2.2.2.1, detachSnap_isSome]
          show (getA j (updA i (fun x => { x with hasReleased := true })
            s.snaps)).isSome = true
          rw [getA_isSome_updA]
          exact hsr j (List.mem_of_mem_erase hm4)


/-- Worker-completion half of the accounting preservation. -/
theorem stepAcctRun (s : Sys) (w : WKind) (hallow : allowedAct s (.run w) = true)
    (hacct : dbAcct s) (hsr : SnapReg s) : dbAcct (applyAct s (.run w)) := by
  have hmem := allowed_run_mem s w hallow
  unfold dbAcct at hacct
  cases w with
  | dbOpen ok =>
    simp only [applyAct]
    unfold runW
    simp only []
    split_ifs <;>
      (unfold dbAcct
       simp only [pushEv]
       rw [cntW_erase_neg isDbPri (WKind.dbOpen ok) rfl, cntW_erase_neg isSnapRel (WKind.dbOpen ok) rfl]
       omega)
  | dbClose =>
    simp only [applyAct]
    unfold runW
    simp only []
    split_ifs <;>
      (unfold dbAcct
       simp only [pushEv]
       rw [cntW_erase_neg isDbPri WKind.dbClose rfl, cntW_erase_neg isSnapRel WKind.dbClose rfl]
       omega)
  | dbPriority op =>
    simp only [applyAct]
    unfold runW
    simp only []
    split_ifs
    · exact hacct
    · unfold dbAcct
      have e1 := (dbDecr_rest (pushEv
        { s with queue := s.queue.erase (WKind.dbPriority op) }
        (WKind.dbPriority op))).2.2.2.2.2
      have e2 : (pushEv { s with queue := s.queue.erase (WKind.dbPriority op) }
          (WKind.dbPriority op)).db.pendingWork = s.db.pendingWork := rfl
      have cI : cntAtt (fun x => x.attached) (dbDecr (pushEv
          { s with queue := s.queue.erase (WKind.dbPriority op) }
          (WKind.dbPriority op))).iters = cntAtt (fun x => x.attached) s.iters := by
        rw [(dbDecr_rest _).2.1]
        rfl
      have cT : cntAtt (fun x => x.attached) (dbDecr (pushEv
          { s with queue := s.queue.erase (WKind.dbPriority op) }
          (WKind.dbPriority op))).trans = cntAtt (fun x => x.attached) s.trans := by
        rw [(dbDecr_rest _).2.2.1]
        rfl
      have cS : cntAtt (fun x => x.attached) (dbDecr (pushEv
          { s with queue := s.queue.erase (WKind.dbPriority op) }
          (WKind.dbPriority op))).snaps = cntAtt (fun x => x.attached) s.snaps := by
        rw [(dbDecr_rest _).2.2.2.1]
        rfl
      have qe1 : cntW isDbPri (pushEv
          { s with queue := s.queue.erase (WKind.dbPriority op) }
          (WKind.dbPriority op)).queue + 1 = cntW isDbPri s.queue :=
        cntW_erase_pos _ _ rfl _ hmem
      have qe2 : cntW isSnapRel (pushEv
          { s with queue := s.queue.erase (WKind.dbPriority op) }
          (WKind.dbPriority op)).queue = cntW isSnapRel s.queue :=
        cntW_erase_neg _ _ rfl _
      have z1 : cntW isDbPri [WKind.dbClose] = 0 := rfl
      have z2 : cntW isSnapRel [WKind.dbClose] = 0 := rfl
      rcases dbDecr_cntW (pushEv
        { s with queue := s.queue.erase (WKind.dbPriority op) }
        (WKind.dbPriority op)) isDbPri with q1 | q1 <;>
      rcases dbDecr_cntW (pushEv
        { s with queue := s.queue.erase (WKind.dbPriority op) }
        (WKind.dbPriority op)) isSnapRel with q2 | q2 <;>
      omega
  | iterClose o i =>
    have hX : dbAcct (pushEv (setIter
        { s with queue := s.queue.erase (WKind.iterClose o i) } o i
        fun x => { x with hasClosed := true }) (WKind.iterClose o i)) := by
      unfold dbAcct
      cases o with
      | root =>
        simp only [pushEv, setIter]
        rw [cntAtt_updA]
        · rw [cntW_erase_neg isDbPri (WKind.iterClose Owner.root i) rfl,
            cntW_erase_neg isSnapRel (WKind.iterClose Owner.root i) rfl]
          omega
        · exact fun x => rfl
      | tran t =>
        simp only [pushEv, setIter]
        rw [cntAtt_updA]
        · rw [cntW_erase_neg isDbPri (WKind.iterClose (Owner.tran t) i) rfl,
            cntW_erase_neg isSnapRel (WKind.iterClose (Owner.tran t) i) rfl]
          omega
        · exact fun x => rfl
    simp only [applyAct]
    unfold runW
    simp only []
    exact acct_detachIter _ o i hX
  | iterNext o i =>
    simp only [applyAct]
    unfold runW
    simp only []
    rcases getIter { s with queue := s.queue.erase (WKind.iterNext o i) } o i
      with _ | it
    · unfold dbAcct
      simp only [pushEv]
      rw [cntW_erase_neg isDbPri (WKind.iterNext o i) rfl, cntW_erase_neg isSnapRel (WKind.iterNext o i) rfl]
      omega
    · simp only []
      split_ifs
      · exact hacct
      · cases o with
        | root =>
          unfold dbAcct
          simp only [pushW, pushEv, setIter]
          rw [cntAtt_updA]
          · rw [cntAtt_updA]
            · rw [cntW_append, cntW_append,
                cntW_erase_neg isDbPri (WKind.iterNext Owner.root i) rfl,
                cntW_erase_neg isSnapRel (WKind.iterNext Owner.root i) rfl]
              have z1 : cntW isDbPri [WKind.iterClose Owner.root i] = 0 := rfl
              have z2 : cntW isSnapRel [WKind.iterClose Owner.root i] = 0 := rfl
              omega
            · exact fun x => rfl
          · exact fun x => rfl
        | tran t =>
          unfold dbAcct
          simp only [pushW, pushEv, setIter]
          rw [cntAtt_updA]
          · rw [cntAtt_updA]
            · rw [cntW_append, cntW_append,
                cntW_erase_neg isDbPri (WKind.iterNext (Owner.tran t) i) rfl,
                cntW_erase_neg isSnapRel (WKind.iterNext (Owner.tran t) i) rfl]
              have z1 : cntW isDbPri [WKind.iterClose (Owner.tran t) i] = 0 := rfl
              have z2 : cntW isSnapRel [WKind.iterClose (Owner.tran t) i] = 0 := rfl
              omega
            · exact fun x => rfl
          · exact fun x => rfl
      · cases o with
        | root =>
          unfold dbAcct
          simp only [pushEv, setIter]
          rw [cntAtt_updA]
          · rw [cntW_erase_neg isDbPri (WKind.iterNext Owner.root i) rfl,
              cntW_erase_neg isSnapRel (WKind.iterNext Owner.root i) rfl]
            omega
          · exact fun x => rfl
        | tran t =>
          unfold dbAcct
          simp only [pushEv, setIter]
          rw [cntAtt_updA]
          · rw [cntW_erase_neg isDbPri (WKind.iterNext (Owner.tran t) i) rfl,
              cntW_erase_neg isSnapRel (WKind.iterNext (Owner.tran t) i) rfl]
            omega
          · exact fun x => rfl
  | tranCommit t =>
    simp only [applyAct]
    unfold runW
    simp only []
    rcases getA t s.trans with _ | tr
    · unfold dbAcct
      simp only [pushEv]
      rw [cntW_erase_neg isDbPri (WKind.tranCommit t) rfl, cntW_erase_neg isSnapRel (WKind.tranCommit t) rfl]
      omega
    · simp only []
      split_ifs
      · exact hacct
      · refine acct_detachTran _ t ?_
        unfold dbAcct
        simp only [pushEv]
        rw [cntW_erase_neg isDbPri (WKind.tranCommit t) rfl, cntW_erase_neg isSnapRel (WKind.tranCommit t) rfl]
        omega
      · refine acct_detachTran _ t ?_
        unfold dbAcct
        simp only [pushEv, setTran]
        rw [cntAtt_updA]
        · rw [cntW_erase_neg isDbPri (WKind.tranCommit t) rfl, cntW_erase_neg isSnapRel (WKind.tranCommit t) rfl]
          omega
        · exact fun x => rfl
  | tranRollback t =>
    simp only [applyAct]
    unfold runW
    simp only []
    rcases getA t s.trans with _ | tr
    · unfold dbAcct
      simp only [pushEv]
      rw [cntW_erase_neg isDbPri (WKind.tranRollback t) rfl, cntW_erase_neg isSnapRel (WKind.tranRollback t) rfl]
      omega
    · simp only []
      split_ifs
      · exact hacct
      · refine acct_detachTran _ t ?_
        unfold dbAcct
        simp only [pushEv]
        rw [cntW_erase_neg isDbPri (WKind.tranRollback t) rfl, cntW_erase_neg isSnapRel (WKind.tranRollback t) rfl]
        omega
      · refine acct_detachTran _ t ?_
        unfold dbAcct
        simp only [pushEv, setTran]
        rw [cntAtt_updA]
        · rw [cntW_erase_neg isDbPri (WKind.tranRollback t) rfl, cntW_erase_neg isSnapRel (WKind.tranRollback t) rfl]
          omega
        · exact fun x => rfl
  | tranPriority t op =>
    simp only [applyAct]
    unfold runW
    simp only []
    rcases getA t s.trans with _ | tr
    · unfold dbAcct
      simp only [pushEv]
      rw [cntW_erase_neg isDbPri (WKind.tranPriority t op) rfl, cntW_erase_neg isSnapRel (WKind.tranPriority t op) rfl]
      omega
    · simp only []
      split_ifs
      · exact hacct
      · unfold dbAcct
        have e0 : (tranDecr (pushEv
            { s with queue := s.queue.erase (WKind.tranPriority t op) }
            (WKind.tranPriority t op)) t).db.pendingWork = s.db.pendingWork := by
          rw [show (tranDecr (pushEv
            { s with queue := s.queue.erase (WKind.tranPriority t op) }
            (WKind.tranPriority t op)) t).db = (pushEv
            { s with queue := s.queue.erase (WKind.tranPriority t op) }
            (WKind.tranPriority t op)).db from tranDecr_db _ _]
          rfl
        have cI : cntAtt (fun x => x.attached) (tranDecr (pushEv
            { s with queue := s.queue.erase (WKind.tranPriority t op) }
            (WKind.tranPriority t op)) t).iters
            = cntAtt (fun x => x.attached) s.iters := by
          rw [(tranDecr_rest _ _).2.1]
          rfl
        have cT : cntAtt (fun x => x.attached) (tranDecr (pushEv
            { s with queue := s.queue.erase (WKind.tranPriority t op) }
            (WKind.tranPriority t op)) t).trans
            = cntAtt (fun x => x.attached) s.trans := by
          rw [(tranDecr_rest _ _).2.2.2.2.1]
          rfl
        have cS : cntAtt (fun x => x.attached) (tranDecr (pushEv
            { s with queue := s.queue.erase (WKind.tranPriority t op) }
            (WKind.tranPriority t op)) t).snaps
            = cntAtt (fun x => x.attached) s.snaps := by
          rw [(tranDecr_rest _ _).2.2.1]
          rfl
        rcases tranDecr_queue (pushEv
          { s with queue := s.queue.erase (WKind.tranPriority t op) }
          (WKind.tranPriority t op)) t with ⟨ws, hws, hq⟩
        have q1 : cntW isDbPri (tranDecr (pushEv
            { s with queue := s.queue.erase (WKind.tranPriority t op) }
            (WKind.tranPriority t op)) t).queue = cntW isDbPri s.queue := by
          rw [hq, cntW_append, cntW_all_neg _ _ fun x hx => (hws x hx).1,
            show (pushEv { s with queue := s.queue.erase (WKind.tranPriority t op) }
              (WKind.tranPriority t op)).queue
              = s.queue.erase (WKind.tranPriority t op) from rfl,
            cntW_erase_neg isDbPri (WKind.tranPriority t op) rfl]
          omega
        have q2 : cntW isSnapRel (tranDecr (pushEv
            { s with queue := s.queue.erase (WKind.tranPriority t op) }
            (WKind.tranPriority t op)) t).queue = cntW isSnapRel s.queue := by
          rw [hq, cntW_append, cntW_all_neg _ _ fun x hx => (hws x hx).2.1,
            show (pushEv { s with queue := s.queue.erase (WKind.tranPriority t op) }
              (WKind.tranPriority t op)).queue
              = s.queue.erase (WKind.tranPriority t op) from rfl,
            cntW_erase_neg isSnapRel (WKind.tranPriority t op) rfl]
          omega
        omega
  | tranMultiGet t fu =>
    simp only [applyAct]
    unfold runW
    simp only []
    rcases getA t s.trans with _ | tr
    · unfold dbAcct
      simp only [pushEv]
      rw [cntW_erase_neg isDbPri (WKind.tranMultiGet t fu) rfl, cntW_erase_neg isSnapRel (WKind.tranMultiGet t fu) rfl]
      omega
    · simp only []
      split_ifs
      · exact hacct
      · unfold dbAcct
        have e0 : (tranDecr (pushEv
            { s with queue := s.queue.erase (WKind.tranMultiGet t fu) }
            (WKind.tranMultiGet t fu)) t).db.pendingWork = s.db.pendingWork := by
          rw [show (tranDecr (pushEv
            { s with queue := s.queue.erase (WKind.tranMultiGet t fu) }
            (WKind.tranMultiGet t fu)) t).db = (pushEv
            { s with queue := s.queue.erase (WKind.tranMultiGet t fu) }
            (WKind.tranMultiGet t fu)).db from tranDecr_db _ _]
          rfl
        have cI : cntAtt (fun x => x.attached) (tranDecr (pushEv
            { s with queue := s.queue.erase (WKind.tranMultiGet t fu) }
            (WKind.tranMultiGet t fu)) t).iters
            = cntAtt (fun x => x.attached) s.iters := by
          rw [(tranDecr_rest _ _).2.1]
          rfl
        have cT : cntAtt (fun x => x.attached) (tranDecr (pushEv
            { s with queue := s.queue.erase (WKind.tranMultiGet t fu) }
            (WKind.tranMultiGet t fu)) t).trans
            = cntAtt (fun x => x.attached) s.trans := by
          rw [(tranDecr_rest _ _).2.2.2.2.1]
          rfl
        have cS : cntAtt (fun x => x.attached) (tranDecr (pushEv
            { s with queue := s.queue.erase (WKind.tranMultiGet t fu) }
            (WKind.tranMultiGet t fu)) t).snaps
            = cntAtt (fun x => x.attached) s.snaps := by
          rw [(tranDecr_rest _ _).2.2.1]
          rfl
        rcases tranDecr_queue (pushEv
          { s with queue := s.queue.erase (WKind.tranMultiGet t fu) }
          (WKind.tranMultiGet t fu)) t with ⟨ws, hws, hq⟩
        have q1 : cntW isDbPri (tranDecr (pushEv
            { s with queue := s.queue.erase (WKind.tranMultiGet t fu) }
            (WKind.tranMultiGet t fu)) t).queue = cntW isDbPri s.queue := by
          rw [hq, cntW_append, cntW_all_neg _ _ fun x hx => (hws x hx).1,
            show (pushEv { s with queue := s.queue.erase (WKind.tranMultiGet t fu) }
              (WKind.tranMultiGet t fu)).queue
              = s.queue.erase (WKind.tranMultiGet t fu) from rfl,
            cntW_erase_neg isDbPri (WKind.tranMultiGet t fu) rfl]
          omega
        have q2 : cntW isSnapRel (tranDecr (pushEv
            { s with queue := s.queue.erase (WKind.tranMultiGet t fu) }
            (WKind.tranMultiGet t fu)) t).queue = cntW isSnapRel s.queue := by
          rw [hq, cntW_append, cntW_all_neg _ _ fun x hx => (hws x hx).2.1,
            show (pushEv { s with queue := s.queue.erase (WKind.tranMultiGet t fu) }
              (WKind.tranMultiGet t fu)).queue
              = s.queue.erase (WKind.tranMultiGet t fu) from rfl,
            cntW_erase_neg isSnapRel (WKind.tranMultiGet t fu) rfl]
          omega
        omega
  | snapRelease i =>
    simp only [applyAct]
    unfold runW
    simp only []
    rcases hg : getA i s.snaps with _ | sp
    · have hiso := hsr i hmem
      rw [hg] at hiso
      exact absurd hiso (by decide)
    · simp only []
      split_ifs
      · refine acct_snapFinish _ i ?_
        have hE := cntW_erase_pos isSnapRel (WKind.snapRelease i) rfl s.queue hmem
        have hD : cntW isDbPri (s.queue.erase (WKind.snapRelease i))
            = cntW isDbPri s.queue := cntW_erase_neg _ _ rfl _
        simp only [pushEv]
        omega
      · exact hacct
      · refine acct_snapFinish _ i ?_
        have hE := cntW_erase_pos isSnapRel (WKind.snapRelease i) rfl s.queue hmem
        have hD : cntW isDbPri (s.queue.erase (WKind.snapRelease i))
            = cntW isDbPri s.queue := cntW_erase_neg _ _ rfl _
        simp only [pushEv, setSnap]
        rw [cntAtt_updA]
        · omega
        · exact fun x => rfl

/-- Every step preserves the database tracker accounting. -/
theorem stepAcct (s : Sys) (a : Act) (hallow : allowedAct s a = true)
    (hacct : dbAcct s) (hsr : SnapReg s) : dbAcct (applyAct s a) := by
  unfold dbAcct at hacct
  cases a with
  | dbOpen ok =>
    simp only [applyAct]
    unfold reqDbOpen dbAcct
    simp only [pushW]
    rw [cntW_append, cntW_append]
    have z1 : cntW isDbPri [WKind.dbOpen ok] = 0 := rfl
    have z2 : cntW isSnapRel [WKind.dbOpen ok] = 0 := rfl
    omega
  | dbClose =>
    simp only [applyAct]
    unfold reqDbClose
    simp only []
    split_ifs
    · unfold dbAcct
      simp only [abortSys]
      rw [cntW_append, cntW_append, cntW_append, cntW_append]
      have a1 : cntW isDbPri (cascadeIters Owner.root s.iters).2 = 0 :=
        cntW_all_neg _ _ fun w hw => (cascade_kinds _ _ w hw).1
      have a2 : cntW isSnapRel (cascadeIters Owner.root s.iters).2 = 0 :=
        cntW_all_neg _ _ fun w hw => (cascade_kinds _ _ w hw).2.1
      have b1 : cntW isDbPri ((List.map tranRollbackEntry s.trans).flatMap Prod.snd)
          = 0 := cntW_all_neg _ _ fun w hw => (rows_kinds _ w hw).1
      have b2 : cntW isSnapRel ((List.map tranRollbackEntry s.trans).flatMap Prod.snd)
          = 0 := cntW_all_neg _ _ fun w hw => (rows_kinds _ w hw).2.1
      have cI : cntAtt (fun x => x.attached) (cascadeIters Owner.root s.iters).1
          = cntAtt (fun x => x.attached) s.iters := by
        unfold cascadeIters
        simp only []
        rw [cntAtt_map]
        exact fun p => (iterCloseEntry_fst Owner.root p).2
      have cT : cntAtt (fun x => x.attached)
          ((List.map tranRollbackEntry s.trans).map Prod.fst)
          = cntAtt (fun x => x.attached) s.trans := by
        rw [List.map_map, cntAtt_map]
        exact fun p => (tranRollbackEntry_fst p).2
      rw [cI, cT]
      omega
    · unfold dbAcct
      simp only []
      rw [cntW_append, cntW_append, cntW_append, cntW_append, cntW_append,
        cntW_append]
      have a1 : cntW isDbPri (cascadeIters Owner.root s.iters).2 = 0 :=
        cntW_all_neg _ _ fun w hw => (cascade_kinds _ _ w hw).1
      have a2 : cntW isSnapRel (cascadeIters Owner.root s.iters).2 = 0 :=
        cntW_all_neg _ _ fun w hw => (cascade_kinds _ _ w hw).2.1
      have b1 : cntW isDbPri ((List.map tranRollbackEntry s.trans).flatMap Prod.snd)
          = 0 := cntW_all_neg _ _ fun w hw => (rows_kinds _ w hw).1
      have b2 : cntW isSnapRel ((List.map tranRollbackEntry s.trans).flatMap Prod.snd)
          = 0 := cntW_all_neg _ _ fun w hw => (rows_kinds _ w hw).2.1
      have d1 : cntW isDbPri ((List.map snapRelEntry s.snaps).filterMap Prod.snd)
          = 0 := cntW_all_neg _ _ fun w hw => (snapadds_kinds _ w hw).1
      have d2 : cntW isSnapRel ((List.map snapRelEntry s.snaps).filterMap Prod.snd)
          = ((List.map snapRelEntry s.snaps).filterMap Prod.snd).length :=
        cntW_all_pos _ _ fun w hw => (snapadds_kinds _ w hw).2.1
      have cI : cntAtt (fun x => x.attached) (cascadeIters Owner.root s.iters).1
          = cntAtt (fun x => x.attached) s.iters := by
        unfold cascadeIters
        simp only []
        rw [cntAtt_map]
        exact fun p => (iterCloseEntry_fst Owner.root p).2
      have cT : cntAtt (fun x => x.attached)
          ((List.map tranRollbackEntry s.trans).map Prod.fst)
          = cntAtt (fun x => x.attached) s.trans := by
        rw [List.map_map, cntAtt_map]
        exact fun p => (tranRollbackEntry_fst p).2
      have cS : cntAtt (fun x => x.attached)
          ((List.map snapRelEntry s.snaps).map Prod.fst)
          = cntAtt (fun x => x.attached) s.snaps := by
        rw [List.map_map, cntAtt_map]
        exact fun p => (snapRelEntry_fst p).2
      rw [cI, cT, cS]
      omega
    · unfold dbAcct
      simp only [pushW]
      rw [cntW_append, cntW_append]
      have z1 : cntW isDbPri [WKind.dbClose] = 0 := rfl
      have z2 : cntW isSnapRel [WKind.dbClose] = 0 := rfl
      omega
  | dbPriority op =>
    simp only [applyAct]
    unfold reqDbPriority
    split_ifs
    · exact hacct
    · unfold dbAcct
      simp only [pushW, dbIncr]
      rw [cntW_append, cntW_append]
      have z1 : cntW isDbPri [WKind.dbPriority op] = 1 := rfl
      have z2 : cntW isSnapRel [WKind.dbPriority op] = 0 := rfl
      omega
  | iterInit =>
    simp only [applyAct]
    unfold reqIterInit
    split_ifs
    · exact hacct
    · unfold dbAcct
      simp only []
      rw [cntAtt_append]
      have z : cntAtt (fun x => x.attached) [(s.db.nextIterId, freshIter)] = 1 := rfl
      omega
  | tranInit =>
    simp only [applyAct]
    unfold reqTranInit
    split_ifs
    · exact hacct
    · unfold dbAcct
      simp only []
      rw [cntAtt_append]
      have z : cntAtt (fun x => x.attached) [(s.db.nextTranId, freshTran)] = 1 := rfl
      omega
  | snapInit =>
    simp only [applyAct]
    unfold reqSnapInit
    split_ifs
    · exact hacct
    · unfold dbAcct
      simp only []
      rw [cntAtt_append]
      have z : cntAtt (fun x => x.attached) [(s.db.nextSnapId, freshSnap)] = 1 := rfl
      omega
  | tranIterInit t =>
    simp only [applyAct]
    unfold reqTranIterInit
    rcases getA t s.trans with _ | tr
    · exact hacct
    · simp only []
      split_ifs
      · exact hacct
      · exact hacct
      · unfold dbAcct
        simp only [setTran]
        rw [cntAtt_updA]
        · omega
        · exact fun x => rfl
  | iterClose o i =>
    simp only [applyAct]
    unfold reqIterClose iterCloseDo
    rcases getIter s o i with _ | it
    · exact hacct
    · simp only []
      split_ifs
      · exact hacct
      · cases o with
        | root =>
          unfold dbAcct
          simp only [setIter]
          rw [cntAtt_updA]
          · omega
          · exact fun x => rfl
        | tran t =>
          unfold dbAcct
          simp only [setIter]
          rw [cntAtt_updA]
          · omega
          · exact fun x => rfl
      · cases o with
        | root =>
          unfold dbAcct
          simp only [pushW, setIter]
          rw [cntAtt_updA]
          · rw [cntW_append, cntW_append]
            have z1 : cntW isDbPri [WKind.iterClose Owner.root i] = 0 := rfl
            have z2 : cntW isSnapRel [WKind.iterClose Owner.root i] = 0 := rfl
            omega
          · exact fun x => rfl
        | tran t =>
          unfold dbAcct
          simp only [pushW, setIter]
          rw [cntAtt_updA]
          · rw [cntW_append, cntW_append]
            have z1 : cntW isDbPri [WKind.iterClose (Owner.tran t) i] = 0 := rfl
            have z2 : cntW isSnapRel [WKind.iterClose (Owner.tran t) i] = 0 := rfl
            omega
          · exact fun x => rfl
  | iterNextv o i =>
    simp only [applyAct]
    unfold reqIterNextv
    rcases getIter s o i with _ | it
    · exact hacct
    · simp only []
      split_ifs
      · exact hacct
      · cases o with
        | root =>
          unfold dbAcct
          simp only [pushW, setIter]
          rw [cntAtt_updA]
          · rw [cntW_append, cntW_append]
            have z1 : cntW isDbPri [WKind.iterNext Owner.root i] = 0 := rfl
            have z2 : cntW isSnapRel [WKind.iterNext Owner.root i] = 0 := rfl
            omega
          · exact fun x => rfl
        | tran t =>
          unfold dbAcct
          simp only [pushW, setIter]
          rw [cntAtt_updA]
          · rw [cntW_append, cntW_append]
            have z1 : cntW isDbPri [WKind.iterNext (Owner.tran t) i] = 0 := rfl
            have z2 : cntW isSnapRel [WKind.iterNext (Owner.tran t) i] = 0 := rfl
            omega
          · exact fun x => rfl
  | iterSeek o i =>
    simp only [applyAct]
    unfold reqIterSeek
    rcases getIter s o i with _ | it
    · exact hacct
    · simp only []
      split_ifs
      · exact hacct
      · cases o with
        | root =>
          unfold dbAcct
          simp only [setIter]
          rw [cntAtt_updA]
          · omega
          · exact fun x => rfl
        | tran t =>
          unfold dbAcct
          simp only [setIter]
          rw [cntAtt_updA]
          · omega
          · exact fun x => rfl
  | tranCommit t =>
    simp only [applyAct]
    unfold reqTranCommit
    rcases getA t s.trans with _ | tr
    · exact hacct
    · simp only []
      split_ifs
      · exact hacct
      · exact hacct
      · unfold dbAcct
        simp only [pushWs, setTran]
        rw [cntAtt_updA]
        · rw [cntW_append, cntW_append]
          have a1 : cntW isDbPri (cascadeIters (Owner.tran t) tr.iters).2 = 0 :=
            cntW_all_neg _ _ fun w hw => (cascade_kinds _ _ w hw).1
          have a2 : cntW isSnapRel (cascadeIters (Owner.tran t) tr.iters).2 = 0 :=
            cntW_all_neg _ _ fun w hw => (cascade_kinds _ _ w hw).2.1
          omega
        · exact fun x => rfl
      · unfold dbAcct
        simp only [pushW, setTran]
        rw [cntAtt_updA]
        · rw [cntW_append, cntW_append]
          have z1 : cntW isDbPri [WKind.tranCommit t] = 0 := rfl
          have z2 : cntW isSnapRel [WKind.tranCommit t] = 0 := rfl
          omega
        · exact fun x => rfl
  | tranRollback t =>
    simp only [applyAct]
    unfold reqTranRollback tranRollbackDo
    rcases getA t s.trans with _ | tr
    · exact hacct
    · simp only []
      split_ifs
      · exact hacct
      · exact hacct
      · unfold dbAcct
        simp only [pushWs, setTran]
        rw [cntAtt_updA]
        · rw [cntW_append, cntW_append]
          have a1 : cntW isDbPri (cascadeIters (Owner.tran t) tr.iters).2 = 0 :=
            cntW_all_neg _ _ fun w hw => (cascade_kinds _ _ w hw).1
          have a2 : cntW isSnapRel (cascadeIters (Owner.tran t) tr.iters).2 = 0 :=
            cntW_all_neg _ _ fun w hw => (cascade_kinds _ _ w hw).2.1
          omega
        · exact fun x => rfl
      · unfold dbAcct
        simp only [pushW, setTran]
        rw [cntAtt_updA]
        · rw [cntW_append, cntW_append]
          have z1 : cntW isDbPri [WKind.tranRollback t] = 0 := rfl
          have z2 : cntW isSnapRel [WKind.tranRollback t] = 0 := rfl
          omega
        · exact fun x => rfl
  | tranOp t op =>
    simp only [applyAct]
    unfold reqTranOp
    rcases getA t s.trans with _ | tr
    · exact hacct
    · simp only []
      split_ifs
      · exact hacct
      · exact hacct
      · unfold dbAcct
        simp only [pushW, setTran]
        rw [cntAtt_updA]
        · rw [cntW_append, cntW_append]
          have z1 : cntW isDbPri [WKind.tranPriority t op] = 0 := rfl
          have z2 : cntW isSnapRel [WKind.tranPriority t op] = 0 := rfl
          omega
        · exact fun x => rfl
  | tranOpThrow t op =>
    simp only [applyAct]
    unfold reqTranOpThrow
    rcases getA t s.trans with _ | tr
    · exact hacct
    · simp only []
      split_ifs
      · exact hacct
      · exact hacct
      · unfold dbAcct
        simp only [pushW, setTran]
        rw [cntAtt_updA]
        · rw [cntW_append, cntW_append]
          have z1 : cntW isDbPri [WKind.tranPriority t op] = 0 := rfl
          have z2 : cntW isSnapRel [WKind.tranPriority t op] = 0 := rfl
          omega
        · exact fun x => rfl
  | tranSnapshot t =>
    simp only [applyAct]
    unfold reqTranSnapshot
    rcases getA t s.trans with _ | tr
    · exact hacct
    · simp only []
      split_ifs <;> exact hacct
  | tranMultiGet t fu =>
    simp only [applyAct]
    unfold reqTranMultiGet
    rcases getA t s.trans with _ | tr
    · exact hacct
    · simp only []
      split_ifs
      · exact hacct
      · unfold dbAcct
        simp only [pushW, setTran]
        rw [cntAtt_updA]
        · rw [cntW_append, cntW_append]
          have z1 : cntW isDbPri [WKind.tranMultiGet t fu] = 0 := rfl
          have z2 : cntW isSnapRel [WKind.tranMultiGet t fu] = 0 := rfl
          omega
        · exact fun x => rfl
  | snapRelease i =>
    simp only [applyAct]
    unfold reqSnapRelease
    rcases getA i s.snaps with _ | sp
    · exact hacct
    · simp only []
      split_ifs
      · exact hacct
      · exact hacct
      · unfold dbAcct
        simp only [pushW, dbIncr, setSnap]
        rw [cntAtt_updA]
        · rw [cntW_append, cntW_append]
          have z1 : cntW isDbPri [WKind.snapRelease i] = 0 := rfl
          have z2 : cntW isSnapRel [WKind.snapRelease i] = 1 := rfl
          omega
        · exact fun x => rfl
  | run w =>
    exact stepAcctRun s w hallow hacct hsr

/-- The accounting and snapshot-registration invariants hold in every
reachable state. -/
theorem reach_acct (s : Sys) (h : Reach initSys s) : dbAcct s ∧ SnapReg s := by
  induction h with
  | refl =>
    constructor
    · rfl
    · exact fun j hm => absurd hm (List.not_mem_nil _)
  | tail hab hbc ih =>
    obtain ⟨a, hallow, rfl⟩ := hbc
    exact ⟨stepAcct _ a hallow ih.1 ih.2, stepSnapReg _ a hallow ih.2⟩

/-- An attached descendant keeps the tracker strictly positive. -/
theorem attachedD_pw_pos (s : Sys) (d : Desc) (hacct : dbAcct s)
    (hA : attachedD s d = true) : 1 ≤ s.db.pendingWork := by
  unfold dbAcct at hacct
  cases d with
  | iter i =>
    simp only [attachedD] at hA
    have := attA_pos (fun x => x.attached) i s.iters hA
    omega
  | tran t =>
    simp only [attachedD] at hA
    have := attA_pos (fun x => x.attached) t s.trans hA
    omega
  | snap i =>
    simp only [attachedD] at hA
    have := attA_pos (fun x => x.attached) i s.snaps hA
    omega

theorem append_singleton_split {α : Type} (E : List α) (w : α) :
    ∀ l1 x l2, E ++ [w] = l1 ++ x :: l2 →
      (∃ l2', E = l1 ++ x :: l2' ∧ l2 = l2' ++ [w]) ∨
      (l1 = E ∧ x = w ∧ l2 = []) := by
  intro l1 x l2 h
  rcases List.eq_nil_or_concat l2 with rfl | ⟨l2', y, rfl⟩
  · right
    obtain ⟨he, hw⟩ := List.append_inj' h rfl
    exact ⟨he.symm, (List.singleton_inj.mp hw).symm, rfl⟩
  · left
    have h2 : E ++ [w] = (l1 ++ x :: l2') ++ [y] := by
      rw [h]
      simp
    obtain ⟨he, hw⟩ := List.append_inj' h2 rfl
    have hy : w = y := List.singleton_inj.mp hw
    exact ⟨l2', he, by simp [List.concat_eq_append, hy]⟩

/-- One step preserves the per-descendant ordering invariant. -/
theorem ordInv_step (s : Sys) (a : Act) (d : Desc)
    (hallow : allowedAct s a = true)
    (hacct : dbAcct s) (hsr : SnapReg s)
    (hinv : OrdInv d s) : OrdInv d (applyAct s a) := by
  obtain ⟨h1, h2, h3⟩ := hinv
  have hacct' := stepAcct s a hallow hacct hsr
  have hev := stepEvents s a hallow
  have hmono : ∀ w, w ∈ s.events → w ∈ (applyAct s a).events := by
    intro w hw
    rcases hev with hE | ⟨w', _, _, hE⟩ <;> rw [hE]
    · exact hw
    · exact List.mem_append_left _ hw
  have h1' : attachedD (applyAct s a) d = true ∨
      ∃ w ∈ (applyAct s a).events, teardownEvs d w = true := by
    cases hA' : attachedD (applyAct s a) d with
    | true => exact Or.inl rfl
    | false =>
      right
      rcases h1 with hA | ⟨w, hw, ht⟩
      · obtain ⟨w, ht, hE⟩ := stepDetach s a d hA hA'
        refine ⟨w, ?_, ht⟩
        rw [hE]
        exact List.mem_append_right _ (List.mem_singleton.mpr rfl)
      · exact ⟨w, hmono w hw, ht⟩
  have h2' : WKind.dbClose ∈ (applyAct s a).queue →
      ∃ w ∈ (applyAct s a).events, teardownEvs d w = true := by
    intro hq
    rcases stepQueueClose s a hallow hq with hq0 | ⟨hab, hpw⟩
    · obtain ⟨w, hw, ht⟩ := h2 hq0
      exact ⟨w, hmono w hw, ht⟩
    · rcases h1' with hA' | hfound
      · have := attachedD_pw_pos (applyAct s a) d hacct' hA'
        omega
      · exact hfound
  refine ⟨h1', h2', ?_⟩
  intro l1 l2 hsplit
  rcases hev with hE | ⟨w', harun, hwq, hE⟩
  · rw [hE] at hsplit
    exact h3 l1 l2 hsplit
  · rw [hE] at hsplit
    rcases append_singleton_split s.events w' l1 _ l2 hsplit with
      ⟨l2', hE2, _⟩ | ⟨hl1, hxw, _⟩
    · exact h3 l1 l2' hE2
    · subst hl1
      exact h2 (by rw [hxw]; exact hwq)

/-- The ordering invariant persists along any continuation. -/
theorem ordInv_reach (s1 s2 : Sys) (d : Desc) (h0 : Reach initSys s1)
    (h : Reach s1 s2) (hinv : OrdInv d s1) : OrdInv d s2 := by
  induction h with
  | refl => exact hinv
  | tail hab hbc ih =>
    obtain ⟨a, hallow, rfl⟩ := hbc
    obtain ⟨hacct, hsr⟩ := reach_acct _ (Relation.ReflTransGen.trans h0 hab)
    exact ordInv_step _ a d hallow hacct hsr ih

theorem iterCloseEntry_marks (o : Owner) (p : Nat × IterSt)
    (h1 : p.2.attached = true) (h2 : p.2.isClosing = false)
    (h3 : p.2.hasClosed = false) :
    (iterCloseEntry o p).1.2.isClosing = true := by
  unfold iterCloseEntry
  rw [if_pos ⟨h1, by rw [h2]; decide, by rw [h3]; decide⟩]
  split_ifs <;> rfl

theorem tranRollbackEntry_marks (p : Nat × TranSt)
    (h1 : p.2.attached = true) (h2 : p.2.isCommitting = false)
    (h3 : p.2.hasCommitted = false) (h4 : p.2.isRollbacking = false)
    (h5 : p.2.hasRollbacked = false) :
    (tranRollbackEntry p).1.2.isRollbacking = true := by
  unfold tranRollbackEntry
  rw [if_pos ⟨h1, by rw [h2]; decide, by rw [h3]; decide,
    by rw [h4]; decide, by rw [h5]; decide⟩]
  split_ifs <;> rfl

theorem snapRelEntry_marks (p : Nat × SnapSt)
    (h1 : p.2.attached = true) (h2 : p.2.isReleasing = false)
    (h3 : p.2.hasReleased = false) :
    (snapRelEntry p).1.2.isReleasing = true := by
  unfold snapRelEntry
  rw [if_pos ⟨h1, by rw [h2]; decide, by rw [h3]; decide⟩]

/-- When the tracker is busy and the database is not closed, the close
request parks the close WorkItem in the deferred slot: the slot is set,
`isClosing_` is set, nothing aborts, no completion fires and no root
close WorkItem is queued. -/
theorem reqDbClose_deferral (s : Sys)
    (hpw : dbHasPendingWork s.db = true) (hhc : s.db.hasClosed = false) :
    (applyAct s .dbClose).db.closeSlot = true ∧
    (applyAct s .dbClose).db.isClosing = true ∧
    (applyAct s .dbClose).aborted = s.aborted ∧
    (applyAct s .dbClose).events = s.events ∧
    (WKind.dbClose ∈ (applyAct s .dbClose).queue → WKind.dbClose ∈ s.queue) := by
  simp only [applyAct]
  unfold reqDbClose
  simp only []
  split_ifs with h1 h2
  · have h21 : s.db.hasClosed = true := h2.1
    rw [hhc] at h21
    exact Bool.noConfusion h21
  · refine ⟨rfl, rfl, rfl, rfl, ?_⟩
    intro hm
    have hm1 := mem_dbClose_append _ _ (fun w hw => (snapadds_kinds _ w hw).2.2) hm
    have hm2 := mem_dbClose_append _ _ (fun w hw => (rows_kinds _ w hw).2.2) hm1
    exact mem_dbClose_append _ _ (fun w hw => (cascade_kinds .root _ w hw).2.2) hm2
  · exact absurd hpw h1

/-- When the tracker is busy and the database is not closed, the close
request drives teardown of every live, not-yet-tearing-down descendant:
root iterators are marked closing, eligible transactions rollbacking,
snapshots releasing. -/
theorem reqDbClose_cascade (s : Sys) (d : Desc)
    (hpw : dbHasPendingWork s.db = true) (hhc : s.db.hasClosed = false)
    (hf : freshD s d = true) : tearingD (applyAct s .dbClose) d = true := by
  simp only [applyAct]
  unfold reqDbClose
  simp only []
  split_ifs with h1 h2
  · have h21 : s.db.hasClosed = true := h2.1
    rw [hhc] at h21
    exact Bool.noConfusion h21
  · cases d with
    | iter i =>
      simp only [freshD] at hf
      simp only [tearingD, cascadeIters]
      rw [getA_map_key i _ (fun p => (iterCloseEntry_fst .root p).1)]
      rcases hg : getA i s.iters with _ | it
      · rw [hg] at hf
        exact Bool.noConfusion hf
      · rw [hg] at hf
        have hf' : (it.attached && !it.isClosing && !it.hasClosed) = true := hf
        simp only [Option.map]
        rw [Bool.and_eq_true, Bool.and_eq_true] at hf'
        exact iterCloseEntry_marks .root (i, it) hf'.1.1
          (Bool.not_eq_true' .. |>.mp hf'.1.2) (Bool.not_eq_true' .. |>.mp hf'.2)
    | tran t =>
      simp only [freshD] at hf
      simp only [tearingD]
      rw [List.map_map,
        getA_map_key t (Prod.fst ∘ tranRollbackEntry) (fun p => (tranRollbackEntry_fst p).1)]
      rcases hg : getA t s.trans with _ | tr
      · rw [hg] at hf
        exact Bool.noConfusion hf
      · rw [hg] at hf
        have hf' : (tr.attached && !tr.isCommitting && !tr.hasCommitted &&
            !tr.isRollbacking && !tr.hasRollbacked) = true := hf
        simp only [Option.map]
        rw [Bool.and_eq_true, Bool.and_eq_true, Bool.and_eq_true, Bool.and_eq_true] at hf'
        exact tranRollbackEntry_marks (t, tr) hf'.1.1.1.1
          (Bool.not_eq_true' .. |>.mp hf'.1.1.1.2) (Bool.not_eq_true' .. |>.mp hf'.1.1.2)
          (Bool.not_eq_true' .. |>.mp hf'.1.2) (Bool.not_eq_true' .. |>.mp hf'.2)
    | snap j =>
      simp only [freshD] at hf
      simp only [tearingD]
      rw [List.map_map,
        getA_map_key j (Prod.fst ∘ snapRelEntry) (fun p => (snapRelEntry_fst p).1)]
      rcases hg : getA j s.snaps with _ | sn
      · rw [hg] at hf
        exact Bool.noConfusion hf
      · rw [hg] at hf
        have hf' : (sn.attached && !sn.isReleasing && !sn.hasReleased) = true := hf
        simp only [Option.map]
        rw [Bool.and_eq_true, Bool.and_eq_true] at hf'
        exact snapRelEntry_marks (j, sn) hf'.1.1
          (Bool.not_eq_true' .. |>.mp hf'.1.2) (Bool.not_eq_true' .. |>.mp hf'.2)
  · exact absurd hpw h1

/-- The ordering invariant holds right after the deferred close request:
the descendant is still attached (or its teardown already on record), no
root close WorkItem is queued and none has completed. -/
theorem ordInv_init (s : Sys) (d : Desc)
    (hpw : dbHasPendingWork s.db = true) (hhc : s.db.hasClosed = false)
    (hcq : WKind.dbClose ∉ s.queue) (hce : WKind.dbClose ∉ s.events)
    (hA : attachedD s d = true) : OrdInv d (applyAct s .dbClose) := by
  obtain ⟨hslot, hclosing, hab, hev, hq⟩ := reqDbClose_deferral s hpw hhc
  refine ⟨?_, ?_, ?_⟩
  · cases hA' : attachedD (applyAct s .dbClose) d with
    | true => exact Or.inl rfl
    | false =>
      obtain ⟨w, ht, hE⟩ := stepDetach s .dbClose d hA hA'
      refine Or.inr ⟨w, ?_, ht⟩
      rw [hE]
      exact List.mem_append_right _ (List.mem_singleton.mpr rfl)
  · intro hq'
    exact absurd (hq hq') hcq
  · intro l1 l2 hsplit
    rw [hev] at hsplit
    refine absurd ?_ hce
    rw [hsplit]
    exact List.mem_append_right _ (List.mem_cons_self _ _)

theorem runW_dbOpen_conn (s : Sys) (ok : Bool) (h : s.db.conn = true) :
    (runW s (.dbOpen ok)).db.conn = true := by
  unfold runW
  simp only []
  split_ifs
  · rfl
  · exact h

theorem runW_dbClose_events (s : Sys) :
    (runW s .dbClose).events = s.events ++ [WKind.dbClose] := by
  unfold runW
  simp only []
  split_ifs <;> rfl

theorem hasClosed_mono (s : Sys) (a : Act) (h : s.db.hasClosed = true) :
    (applyAct s a).db.hasClosed = true := by
  by_cases hdc : a = Act.run WKind.dbClose
  · subst hdc
    exact (runW_dbClose_db s).1
  · by_cases hop : ∃ ok, a = Act.run (WKind.dbOpen ok)
    · obtain ⟨ok, rfl⟩ := hop
      exact (runW_dbOpen_db s ok).1.trans h
    · exact (applyAct_db_core s a hdc fun ok hk => hop ⟨ok, hk⟩).1.trans h

theorem hasClosed_step (s : Sys) (a : Act)
    (h : (applyAct s a).db.hasClosed = true) :
    s.db.hasClosed = true ∨ a = Act.run WKind.dbClose := by
  by_cases hdc : a = Act.run WKind.dbClose
  · exact Or.inr hdc
  · left
    by_cases hop : ∃ ok, a = Act.run (WKind.dbOpen ok)
    · obtain ⟨ok, rfl⟩ := hop
      exact (runW_dbOpen_db s ok).1.symm.trans h
    · exact (applyAct_db_core s a hdc fun ok hk => hop ⟨ok, hk⟩).1.symm.trans h

/-- Every action preserves the release bookkeeping relative to a live
connection. -/
theorem relP_step (s : Sys) (a : Act) (h : RelP s) : RelP (applyAct s a) := by
  by_cases hdc : a = Act.run WKind.dbClose
  · subst hdc
    show RelP (runW s WKind.dbClose)
    obtain ⟨hcl, hfresh, hidem⟩ := runW_dbClose_db s
    rcases h with ⟨h1, h2, h3⟩ | ⟨h1, h2⟩
    · right
      refine ⟨hcl, ?_⟩
      have hr := (hfresh h1).2
      rw [h2, h3] at hr
      simpa using hr
    · right
      refine ⟨hcl, ?_⟩
      rw [hidem h1]
      exact h2
  · by_cases hop : ∃ ok, a = Act.run (WKind.dbOpen ok)
    · obtain ⟨ok, rfl⟩ := hop
      show RelP (runW s (WKind.dbOpen ok))
      obtain ⟨hhc, hrel⟩ := runW_dbOpen_db s ok
      rcases h with ⟨h1, h2, h3⟩ | ⟨h1, h2⟩
      · exact Or.inl ⟨hhc.trans h1, runW_dbOpen_conn s ok h2, hrel.trans h3⟩
      · exact Or.inr ⟨hhc.trans h1, hrel.trans h2⟩
    · obtain ⟨hhc, hrel, hconn⟩ := applyAct_db_core s a hdc fun ok hk => hop ⟨ok, hk⟩
      rcases h with ⟨h1, h2, h3⟩ | ⟨h1, h2⟩
      · exact Or.inl ⟨hhc.trans h1, hconn.trans h2, hrel.trans h3⟩
      · exact Or.inr ⟨hhc.trans h1, hrel.trans h2⟩

/-- Every allowed action preserves `hasClosed_` iff the close worker has
completed. -/
theorem relE_step (s : Sys) (a : Act) (hallow : allowedAct s a = true)
    (h : RelE s) : RelE (applyAct s a) := by
  have hev := stepEvents s a hallow
  constructor
  · intro hc'
    rcases hasClosed_step s a hc' with hc | rfl
    · have hm := h.mp hc
      rcases hev with hE | ⟨w', _, _, hE⟩ <;> rw [hE]
      · exact hm
      · exact List.mem_append_left _ hm
    · show WKind.dbClose ∈ (runW s WKind.dbClose).events
      rw [runW_dbClose_events]
      exact List.mem_append_right _ (List.mem_singleton.mpr rfl)
  · intro hm'
    by_cases hdc : a = Act.run WKind.dbClose
    · subst hdc
      exact (runW_dbClose_db s).1
    · rcases hev with hE | ⟨w', hrw, hwq, hE⟩
      · rw [hE] at hm'
        exact hasClosed_mono s a (h.mpr hm')
      · rw [hE] at hm'
        rcases List.mem_append.mp hm' with hm0 | hm1
        · exact hasClosed_mono s a (h.mpr hm0)
        · rw [List.mem_singleton] at hm1
          exact absurd (by rw [hrw, ← hm1]) hdc

/-- Both relative invariants persist along any continuation. -/
theorem relPE_reach (s1 s2 : Sys) (h : Reach s1 s2)
    (hp : RelP s1) (he : RelE s1) : RelP s2 ∧ RelE s2 := by
  induction h with
  | refl => exact ⟨hp, he⟩
  | tail hab hbc ih =>
    obtain ⟨a, hallow, rfl⟩ := hbc
    exact ⟨relP_step _ a ih.1, relE_step _ a hallow ih.2⟩

/-- C1: on a reachable state whose tracker is busy (live descendants /
in-flight work), with the database not closed, a live connection not yet
released, and no close WorkItem queued or completed, requesting close
parks the close WorkItem in the deferred-close slot instead of queueing
it, marks every fresh descendant as tearing down (iterators closing,
transactions rollbacking, snapshots releasing), and the root close
WorkItem only ever enters the queue once the tracker drains to zero;
consequently, in every continuation the close completion appears in the
event log strictly after the given descendant's teardown completion,
and the native connection is released exactly once: at most one release
ever, and exactly one from the moment the close completion is on
record. -/
theorem C1_close_cascade_ordering_release_once
    (s0 : Sys) (d : Desc)
    (h0 : Reach initSys s0)
    (hpw : dbHasPendingWork s0.db = true)
    (hhc : s0.db.hasClosed = false)
    (hconn : s0.db.conn = true)
    (hrel : s0.db.releases = 0)
    (hcq : WKind.dbClose ∉ s0.queue)
    (hce : WKind.dbClose ∉ s0.events)
    (hA : attachedD s0 d = true)
    (hallow : allowedAct s0 .dbClose = true) :
    (applyAct s0 .dbClose).db.closeSlot = true ∧
    (applyAct s0 .dbClose).db.isClosing = true ∧
    WKind.dbClose ∉ (applyAct s0 .dbClose).queue ∧
    (freshD s0 d = true → tearingD (applyAct s0 .dbClose) d = true) ∧
    (∀ s2, Reach (applyAct s0 .dbClose) s2 →
      (∀ l1 l2, s2.events = l1 ++ WKind.dbClose :: l2 →
        ∃ w ∈ l1, teardownEvs d w = true) ∧
      s2.db.releases ≤ 1 ∧
      (WKind.dbClose ∈ s2.events → s2.db.releases = 1)) := by
  obtain ⟨hslot, hclosing, hab, hev, hq⟩ := reqDbClose_deferral s0 hpw hhc
  have h1reach : Reach initSys (applyAct s0 .dbClose) :=
    Relation.ReflTransGen.tail h0 ⟨Act.dbClose, hallow, rfl⟩
  obtain ⟨hc1, hr1, hcn1⟩ :=
    applyAct_db_core s0 .dbClose (by decide) (fun ok hk => by cases hk)
  refine ⟨hslot, hclosing, fun hm => absurd (hq hm) hcq,
    fun hf => reqDbClose_cascade s0 d hpw hhc hf, ?_⟩
  intro s2 h12
  have hOrd2 := ordInv_reach _ s2 d h1reach h12 (ordInv_init s0 d hpw hhc hcq hce hA)
  have hP1 : RelP (applyAct s0 .dbClose) :=
    Or.inl ⟨hc1.trans hhc, hcn1.trans hconn, hr1.trans hrel⟩
  have hE1 : RelE (applyAct s0 .dbClose) := by
    constructor
    · intro hcl
      rw [hc1, hhc] at hcl
      exact Bool.noConfusion hcl
    · intro hm
      rw [hev] at hm
      exact absurd hm hce
  obtain ⟨hP2, hE2⟩ := relPE_reach _ s2 h12 hP1 hE1
  refine ⟨hOrd2.2.2, ?_, ?_⟩
  · rcases hP2 with ⟨_, _, hr⟩ | ⟨_, hr⟩ <;> omega
  · intro hm
    have hcl2 := hE2.mpr hm
    rcases hP2 with ⟨hcl0, _, _⟩ | ⟨_, hr⟩
    · rw [hcl2] at hcl0
      exact Bool.noConfusion hcl0
    · exact hr

theorem C1_witness :
    dbHasPendingWork c1S0.db = true ∧ attachedD c1S0 (Desc.iter 0) = true ∧
    ((applyAct c1S0 .dbClose).db.closeSlot = true ∧
     (applyAct c1S0 .dbClose).db.isClosing = true ∧
     WKind.dbClose ∉ (applyAct c1S0 .dbClose).queue ∧
     (freshD c1S0 (Desc.iter 0) = true →
       tearingD (applyAct c1S0 .dbClose) (Desc.iter 0) = true) ∧
     (∀ s2, Reach (applyAct c1S0 .dbClose) s2 →
       (∀ l1 l2, s2.events = l1 ++ WKind.dbClose :: l2 →
         ∃ w ∈ l1, teardownEvs (Desc.iter 0) w = true) ∧
       s2.db.releases ≤ 1 ∧
       (WKind.dbClose ∈ s2.events → s2.db.releases = 1))) :=
  ⟨by decide, by decide,
    C1_close_cascade_ordering_release_once c1S0 (Desc.iter 0)
      (reach_of_actsAllowed [Act.dbOpen true, .run (.dbOpen true), .iterInit]
        initSys (by decide))
      (by decide) (by decide) (by decide) (by decide) (by decide) (by decide)
      (by decide) (by decide)⟩
